import Mathlib

/-!
# MemoryPoolManager: a fixed-size block pool allocator

A shallow embedding of `MemoryPoolManager<T>` (MemoryPoolManager.h).

* Memory is a byte-addressed map; pointers and the 16-bit padding are stored
  little-endian, a pointer taking `sizeofPtr` bytes.
* `unsigned int` is 32 bits wide: every `unsigned int` result is reduced
  modulo `2 ^ 32`.
* `malloc` is an oracle `sys`: the n-th call (counting from 0) returns `sys n`,
  and a null result is `0`.  The sizes requested are logged in the state.
* Loops that walk a linked structure stored in memory take a fuel argument.
-/

namespace MemoryPool

/-- Compile-time parameters of one instantiation `MemoryPoolManager<T>`:
`sizeof(T)`, `sizeof(void*)` (which is also `sizeof(Link)`), and whether
`VALIDATIONS_ENABLED` is defined. -/
structure Build where
  sizeofT : Nat
  sizeofPtr : Nat
  validations : Bool

/-- Number of values of an `unsigned int`. -/
def uintRange : Nat := 2 ^ 32

/-- Value of `sizeof(padding)`, the padding being a `uint16_t`. -/
def sizeofPadding : Nat := 2

/-- Data pattern for padding between blocks. -/
def paddingSignature : Nat := 0xBEEF

/-- Byte-addressed memory. -/
abbrev Memory := Nat → Nat

/-- Store the `n` low bytes of `v` at `addr`, little-endian. -/
def storeBytes (mem : Memory) (addr n v : Nat) : Memory :=
  fun x => if addr ≤ x ∧ x < addr + n then (v / 256 ^ (x - addr)) % 256 else mem x

/-- Load an `n`-byte little-endian value from `addr`. -/
def loadBytes (mem : Memory) : Nat → Nat → Nat
  | _, 0 => 0
  | addr, n + 1 => mem addr % 256 + 256 * loadBytes mem (addr + 1) n

/-- The four messages a `MemoryPoolException` can carry. -/
inductive MemoryPoolException where
  | invalidSizeMsg
  | invalidFreedAddressMsg
  | memoryCorruptionMsg
  | duplicateFreeMsg
  deriving DecidableEq, Repr

/-- The members of a `MemoryPoolManager<T>` object together with the memory
it works on and a log of its calls to `malloc` (sizes, latest first) and to
`free` (addresses, latest first). -/
structure State where
  blocksPerPage : Nat
  blockSize : Nat
  memoryPages : Nat
  availableBlocks : Nat
  numberOfPages : Nat
  blocksRemaining : Nat
  mem : Memory
  requested : List Nat
  released : List Nat

/-- Outcome of a member function: normal return, a thrown
`MemoryPoolException` (with the state at the throw), undefined behaviour
(null dereference, division by zero), or loop fuel exhausted. -/
inductive Res (α : Type) where
  | ok (val : α) (s : State)
  | raise (e : MemoryPoolException) (s : State)
  | undefinedBehaviour
  | outOfFuel

/-- Sequencing of member-function outcomes. -/
def Res.andThen {α β : Type} (r : Res α) (f : α → State → Res β) : Res β :=
  match r with
  | .ok a s => f a s
  | .raise e s => .raise e s
  | .undefinedBehaviour => .undefinedBehaviour
  | .outOfFuel => .outOfFuel

/-- Loop variables of the block set-up loop of `allocatePage`. -/
structure Cursor where
  mem : Memory
  avail : Nat
  pos : Nat

/-- One iteration of the `for` loop of `allocatePage`: write the padding
signature (validations only), link the block at `pos` in front of the
available list, advance by the block size. -/
def setupBlock (b : Build) (blockSize : Nat) (c : Cursor) : Cursor :=
  let mem1 := if b.validations then storeBytes c.mem c.pos sizeofPadding paddingSignature else c.mem
  let pos1 := if b.validations then c.pos + sizeofPadding else c.pos
  { mem := storeBytes mem1 pos1 b.sizeofPtr c.avail, avail := pos1, pos := pos1 + blockSize }

/-- The `for` loop of `allocatePage`, run for the given number of iterations. -/
def setupBlocks (b : Build) (blockSize : Nat) : Nat → Cursor → Cursor
  | 0, c => c
  | n + 1, c => setupBlocks b blockSize n (setupBlock b blockSize c)

/-- The `unsigned pageAllocationSize` computed by `allocatePage`. -/
def pageAllocationSize (b : Build) (s : State) : Nat :=
  let base := (b.sizeofPtr + (s.blockSize * s.blocksPerPage) % uintRange) % uintRange
  if b.validations then
    (base + sizeofPadding * ((s.blocksPerPage + 1) % uintRange)) % uintRange
  else base

/-- The body of `allocatePage` after the call to `malloc` has returned `page`:
link the page in front of the page list, set up its blocks, update the counters. -/
def linkPage (b : Build) (s : State) (page : Nat) : State :=
  let mem0 := storeBytes s.mem page b.sizeofPtr s.memoryPages
  let c := setupBlocks b s.blockSize s.blocksPerPage
    { mem := mem0, avail := s.availableBlocks, pos := page + b.sizeofPtr }
  let mem1 := if b.validations then storeBytes c.mem c.pos sizeofPadding paddingSignature else c.mem
  { s with
    mem := mem1
    memoryPages := page
    availableBlocks := c.avail
    numberOfPages := (s.numberOfPages + 1) % uintRange
    blocksRemaining := (s.blocksRemaining + s.blocksPerPage) % uintRange
    requested := pageAllocationSize b s :: s.requested }

/-- Member function `allocatePage`.  Writing `page->next` through a null
`page` is undefined behaviour. -/
def allocatePage (b : Build) (sys : Nat → Nat) (s : State) : Res Unit :=
  let page := sys s.requested.length
  if page = 0 then .undefinedBehaviour
  else .ok () (linkPage b s page)

/-- The `unsigned fullBlockSize` of the validation functions. -/
def fullBlockSize (s : State) : Nat := (s.blockSize + sizeofPadding) % uintRange

/-- The `blockDistance` that `validateBlockLocation` computes for one page:
the given address minus the address of the first block of the page. -/
def blockDistance (b : Build) (blockToFree page : Nat) : Int :=
  (blockToFree : Int) - ((page + b.sizeofPtr + sizeofPadding : Nat) : Int)

/-- The value `validateBlockLocation` assigns to `foundValidLocation` for one page. -/
def locationMatches (b : Build) (s : State) (blockToFree page : Nat) : Bool :=
  decide (0 ≤ blockDistance b blockToFree page)
    && decide (blockDistance b blockToFree page / (fullBlockSize s : Int) < (s.blocksPerPage : Int))
    && decide (blockDistance b blockToFree page % (fullBlockSize s : Int) = 0)

/-- The `while` loop of `validateBlockLocation`, with loop variables
`foundValidLocation` and `page`.  Dividing by a zero `fullBlockSize` is
undefined behaviour. -/
def validateBlockLocationLoop (b : Build) (s : State) (blockToFree : Nat) :
    Nat → Bool → Nat → Res Bool
  | 0, found, page =>
    if found = true ∨ page = 0 then .ok found s else .outOfFuel
  | fuel + 1, found, page =>
    if found = true ∨ page = 0 then .ok found s
    else if 0 ≤ blockDistance b blockToFree page ∧ fullBlockSize s = 0 then .undefinedBehaviour
    else
      validateBlockLocationLoop b s blockToFree fuel (locationMatches b s blockToFree page)
        (loadBytes s.mem page b.sizeofPtr)

/-- Member function `validateBlockLocation`. -/
def validateBlockLocation (b : Build) (fuel : Nat) (s : State) (blockToFree : Nat) : Res Unit :=
  (validateBlockLocationLoop b s blockToFree fuel false s.memoryPages).andThen fun found s1 =>
    if found = false then .raise .invalidFreedAddressMsg s1 else .ok () s1

/-- Member function `validateMemoryCorruption`. -/
def validateMemoryCorruption (s : State) (blockToFree : Nat) : Res Unit :=
  let pos := blockToFree - sizeofPadding
  if loadBytes s.mem pos sizeofPadding ≠ paddingSignature
      ∨ loadBytes s.mem (pos + fullBlockSize s) sizeofPadding ≠ paddingSignature then
    .raise .memoryCorruptionMsg s
  else .ok () s

/-- The `while` loop of `validateMultiFree`, with loop variable `pList`. -/
def validateMultiFreeLoop (b : Build) (s : State) (block : Nat) : Nat → Nat → Res Nat
  | 0, pList => if pList ≠ 0 ∧ pList ≠ block then .outOfFuel else .ok pList s
  | fuel + 1, pList =>
    if pList ≠ 0 ∧ pList ≠ block then
      validateMultiFreeLoop b s block fuel (loadBytes s.mem pList b.sizeofPtr)
    else .ok pList s

/-- Member function `validateMultiFree`. -/
def validateMultiFree (b : Build) (fuel : Nat) (s : State) (blockToFree : Nat) : Res Unit :=
  (validateMultiFreeLoop b s blockToFree fuel s.availableBlocks).andThen fun pList s1 =>
    if pList ≠ 0 then .raise .duplicateFreeMsg s1 else .ok () s1

/-- The members as the constructor's initialiser list sets them, on the
memory `mem` with no earlier call to `malloc` or `free`. -/
def initialState (b : Build) (mem : Memory) (blocksPerPage : Nat) : State :=
  { blocksPerPage := blocksPerPage
    blockSize := (max b.sizeofT b.sizeofPtr) % uintRange
    memoryPages := 0
    availableBlocks := 0
    numberOfPages := 0
    blocksRemaining := 0
    mem := mem
    requested := []
    released := [] }

/-- The constructor `MemoryPoolManager<T>(blocksPerPage)`. -/
def construct (b : Build) (sys : Nat → Nat) (mem : Memory) (blocksPerPage : Nat) : Res Unit :=
  let s0 := initialState b mem blocksPerPage
  if s0.blocksPerPage = 0 then .raise .invalidSizeMsg s0
  else allocatePage b sys s0

/-- Accessor `getBlocksPerPage`. -/
def getBlocksPerPage (s : State) : Nat := s.blocksPerPage

/-- Accessor `getNumberOfPages`. -/
def getNumberOfPages (s : State) : Nat := s.numberOfPages

/-- Accessor `getAvailableBlocksRemaining`. -/
def getAvailableBlocksRemaining (s : State) : Nat := s.blocksRemaining

/-- Member function `allocateBlock`. -/
def allocateBlock (b : Build) (sys : Nat → Nat) (s : State) : Res Nat :=
  (if s.availableBlocks = 0 then allocatePage b sys s else .ok () s).andThen fun _ s1 =>
    let block := s1.availableBlocks
    if block = 0 then .undefinedBehaviour
    else
      .ok block { s1 with
        availableBlocks := loadBytes s1.mem block b.sizeofPtr
        blocksRemaining := (s1.blocksRemaining + uintRange - 1) % uintRange }

/-- The last part of `freeBlock`: push the block back onto the available list
and count it. -/
def pushBlock (b : Build) (s : State) (block : Nat) : State :=
  { s with
    mem := storeBytes s.mem block b.sizeofPtr s.availableBlocks
    availableBlocks := block
    blocksRemaining := (s.blocksRemaining + 1) % uintRange }

/-- Member function `freeBlock`. -/
def freeBlock (b : Build) (fuel : Nat) (s : State) (block : Nat) : Res Unit :=
  if block = 0 then .ok () s
  else
    (if b.validations then
      (validateBlockLocation b fuel s block).andThen fun _ s1 =>
        (validateMemoryCorruption s1 block).andThen fun _ s2 =>
          validateMultiFree b fuel s2 block
     else .ok () s).andThen fun _ s1 => .ok () (pushBlock b s1 block)

/-- The `while` loop of `clearAllMemory`, with loop variable `pList` and the
log of addresses passed to `free`. -/
def clearAllMemoryLoop (b : Build) (mem : Memory) : Nat → Nat → List Nat → Option (List Nat)
  | 0, pList, released => if pList = 0 then some released else none
  | fuel + 1, pList, released =>
    if pList = 0 then some released
    else clearAllMemoryLoop b mem fuel (loadBytes mem pList b.sizeofPtr) (pList :: released)

/-- Member function `clearAllMemory`. -/
def clearAllMemory (b : Build) (fuel : Nat) (s : State) : Res Unit :=
  match clearAllMemoryLoop b s.mem fuel s.memoryPages s.released with
  | none => .outOfFuel
  | some released =>
    .ok () { s with
      released := released
      memoryPages := 0
      availableBlocks := 0
      numberOfPages := 0
      blocksRemaining := 0 }

/-- A null-terminated singly linked list in memory: starting at `head` and
following the `next` field (the first `ptr` bytes of a node) visits exactly
the nodes of the list, in order, and then reaches null. -/
def IsChain (mem : Memory) (ptr : Nat) : Nat → List Nat → Prop
  | head, [] => head = 0
  | head, x :: xs => head = x ∧ x ≠ 0 ∧ IsChain mem ptr (loadBytes mem x ptr) xs

/-- Bytes of guard in front of (and behind) each block: 2 with validations, else 0. -/
def guardSize (b : Build) : Nat := if b.validations then sizeofPadding else 0

/-- Address of block number `i` of the page at `page`, as `allocatePage` lays it out. -/
def blockAddress (b : Build) (blockSize page i : Nat) : Nat :=
  page + b.sizeofPtr + guardSize b + i * (blockSize + guardSize b)

/-- Number of bytes from the start of a page to the end of the last thing
`allocatePage` writes into it: the link, then the blocks, each preceded by a
guard and the last one also followed by one (validations only). -/
def pageExtent (b : Build) (blockSize blocksPerPage : Nat) : Nat :=
  b.sizeofPtr + blocksPerPage * (blockSize + guardSize b) + guardSize b

/-- Blocks number `m - 1`, ..., `0` of the page at `page`, in this order. -/
def pageBlocksDesc (b : Build) (blockSize page : Nat) : Nat → List Nat
  | 0 => []
  | m + 1 => blockAddress b blockSize page m :: pageBlocksDesc b blockSize page m

/-- `count` successive calls of `allocateBlock`; returns the addresses in call order. -/
def allocateBlocks (b : Build) (sys : Nat → Nat) : Nat → State → Res (List Nat)
  | 0, s => .ok [] s
  | n + 1, s =>
    (allocateBlock b sys s).andThen fun a s1 =>
      (allocateBlocks b sys n s1).andThen fun as s2 => .ok (a :: as) s2

/-- The address `a` is on the block grid of one of the pages, laid out with
padding: `a = p + sizeof(Link) + 2 + j * (blockSize + 2)` for a page `p` of the
list and some `j < blocksPerPage`. -/
def OnGrid (b : Build) (s : State) (pages : List Nat) (a : Nat) : Prop :=
  ∃ p ∈ pages, ∃ j, j < s.blocksPerPage
    ∧ a = p + b.sizeofPtr + sizeofPadding + j * (s.blockSize + sizeofPadding)

/-- Deciding `OnGrid` on concrete data. -/
instance OnGrid.instDecidable (b : Build) (s : State) (pages : List Nat) (a : Nat) :
    Decidable (OnGrid b s pages a) :=
  inferInstanceAs (Decidable (∃ p ∈ pages, ∃ j, j < s.blocksPerPage
    ∧ a = p + b.sizeofPtr + sizeofPadding + j * (s.blockSize + sizeofPadding)))

/-- Both padding slots around the block at `a` hold the signature: the
condition under which `validateMemoryCorruption` does not throw. -/
def GuardsIntact (s : State) (a : Nat) : Prop :=
  loadBytes s.mem (a - sizeofPadding) sizeofPadding = paddingSignature
    ∧ loadBytes s.mem (a - sizeofPadding + fullBlockSize s) sizeofPadding = paddingSignature

/-- Deciding `GuardsIntact` on concrete data. -/
instance GuardsIntact.instDecidable (s : State) (a : Nat) : Decidable (GuardsIntact s a) :=
  inferInstanceAs (Decidable (_ ∧ _))

/-- Outcome of `freeBlock` with validations for a non-null address, in terms
of the page list `pages` and the available list `l`: the three checks in
order, then the push. -/
def freeBlockChecked (b : Build) (s : State) (a : Nat) (pages l : List Nat) : Res Unit :=
  if pages.any (locationMatches b s a) = false then .raise .invalidFreedAddressMsg s
  else if ¬ GuardsIntact s a then .raise .memoryCorruptionMsg s
  else if a ∈ l then .raise .duplicateFreeMsg s
  else .ok () (pushBlock b s a)

/-- The state of a pool of capacity `k` and block size `bs` that has only
handed out blocks since its construction: `p + 1` pages have been requested, the
newest is `sys p`, its blocks `m - 1`, ..., `0` are still linked on the
available list and `blocksRemaining = m`. -/
def Fresh (b : Build) (sys : Nat → Nat) (k bs p m : Nat) (s : State) : Prop :=
  s.blocksPerPage = k ∧ s.blockSize = bs ∧ s.requested.length = p + 1
    ∧ s.numberOfPages = (p + 1) % uintRange ∧ s.blocksRemaining = m ∧ m ≤ k
    ∧ s.availableBlocks = (if m = 0 then 0 else blockAddress b bs (sys p) (m - 1))
    ∧ ∀ i < k, loadBytes s.mem (blockAddress b bs (sys p) i) b.sizeofPtr
        = if i = 0 then 0 else blockAddress b bs (sys p) (i - 1)

/-- The n-th page handed out by `sys` is non-null and, laid out for capacity `k`
and block size `bs`, ends within the address space of a pointer. -/
def PageOk (b : Build) (sys : Nat → Nat) (k bs n : Nat) : Prop :=
  sys n ≠ 0 ∧ sys n + pageExtent b bs k ≤ 256 ^ b.sizeofPtr

/-- The pages number `i` and `j` handed out by `sys`, laid out for capacity `k`
and block size `bs`, do not overlap. -/
def PagesApart (b : Build) (sys : Nat → Nat) (k bs i j : Nat) : Prop :=
  sys i + pageExtent b bs k ≤ sys j ∨ sys j + pageExtent b bs k ≤ sys i

/-- The address `x` is a block of one of the pages, as `allocatePage` lays
them out. -/
def IsBlock (b : Build) (s : State) (pages : List Nat) (x : Nat) : Prop :=
  ∃ p ∈ pages, ∃ j, j < s.blocksPerPage ∧ x = blockAddress b s.blockSize p j

/-- The pages at `p` and `q`, laid out for the capacity and block size of the
state, do not overlap. -/
def Apart (b : Build) (s : State) (p q : Nat) : Prop :=
  p + pageExtent b s.blockSize s.blocksPerPage ≤ q
    ∨ q + pageExtent b s.blockSize s.blocksPerPage ≤ p

/-- The data-model invariants of a pool whose page list is `pages` and whose
available list is `l`: sizes fit their types, both lists are null-terminated
chains in memory, the pages fit the address space and do not overlap, every
node of the available list is a block of a page, and the two counters hold the
lengths of the lists (as `unsigned int`). -/
structure WellFormed (b : Build) (s : State) (pages l : List Nat) : Prop where
  ptr_pos : 0 < b.sizeofPtr
  ptr_le : b.sizeofPtr ≤ s.blockSize
  size_fits : s.blockSize + sizeofPadding < uintRange
  cap_pos : 0 < s.blocksPerPage
  cap_fits : s.blocksPerPage < uintRange
  pageChain : IsChain s.mem b.sizeofPtr s.memoryPages pages
  freeChain : IsChain s.mem b.sizeofPtr s.availableBlocks l
  fits : ∀ p ∈ pages, p + pageExtent b s.blockSize s.blocksPerPage ≤ 256 ^ b.sizeofPtr
  apart : pages.Pairwise (Apart b s)
  freeBlocks : ∀ x ∈ l, IsBlock b s pages x
  count : s.blocksRemaining = l.length % uintRange
  pageCount : s.numberOfPages = pages.length % uintRange

/-- What is assumed of `malloc` when `allocateBlock` has to allocate a page:
the page it returns fits the address space and overlaps no page of the page list. -/
def MallocOk (b : Build) (sys : Nat → Nat) (s : State) : Prop :=
  s.availableBlocks = 0 →
    sys s.requested.length + pageExtent b s.blockSize s.blocksPerPage ≤ 256 ^ b.sizeofPtr
    ∧ ∀ pages, IsChain s.mem b.sizeofPtr s.memoryPages pages →
        ∀ q ∈ pages, Apart b s (sys s.requested.length) q

/-- The caller writes the `n` bytes at `x` and leaves alone what the pool
keeps in memory: the link at the start of each page and the link in each
block of the available list.  Blocks in use, the rest of a free block and the
padding slots may all be written. -/
def LinksUntouched (b : Build) (s : State) (x n : Nat) : Prop :=
  (∀ pages, IsChain s.mem b.sizeofPtr s.memoryPages pages →
      ∀ q ∈ pages, x + n ≤ q ∨ q + b.sizeofPtr ≤ x)
  ∧ ∀ l, IsChain s.mem b.sizeofPtr s.availableBlocks l →
      ∀ y ∈ l, x + n ≤ y ∨ y + b.sizeofPtr ≤ x

/-- The states a pool can reach from a successful construction by calls of
`allocateBlock`, `freeBlock` (successful or failing) and `clearAllMemory`,
and by writes of the caller that leave the links alone, together with the
blocks in use: those handed out by `allocateBlock` and not given back since
by a successful `freeBlock` or by `clearAllMemory`.  Without validations
`freeBlock` is only given null or a block in use. -/
inductive Reachable (b : Build) : State → List Nat → Prop where
  | init (sys : Nat → Nat) (mem : Memory) (k : Nat) (s : State) :
      0 < k → k < uintRange → 0 < b.sizeofPtr →
      max b.sizeofT b.sizeofPtr + sizeofPadding < uintRange →
      sys 0 + pageExtent b (max b.sizeofT b.sizeofPtr) k ≤ 256 ^ b.sizeofPtr →
      construct b sys mem k = .ok () s → Reachable b s []
  | alloc (sys : Nat → Nat) (s s' : State) (used : List Nat) (a : Nat) :
      Reachable b s used → MallocOk b sys s →
      allocateBlock b sys s = .ok a s' → Reachable b s' (a :: used)
  | free (fuel : Nat) (s s' : State) (used : List Nat) (a : Nat) :
      Reachable b s used → (b.validations = false → a = 0 ∨ a ∈ used) →
      freeBlock b fuel s a = .ok () s' → Reachable b s' (used.filter (fun x => x ≠ a))
  | freeFailed (fuel : Nat) (s s' : State) (used : List Nat) (a : Nat)
      (e : MemoryPoolException) :
      Reachable b s used → freeBlock b fuel s a = .raise e s' → Reachable b s' used
  | clear (fuel : Nat) (s s' : State) (used : List Nat) :
      Reachable b s used → clearAllMemory b fuel s = .ok () s' → Reachable b s' []
  | write (s : State) (used : List Nat) (x n v : Nat) :
      Reachable b s used → LinksUntouched b s x n →
      Reachable b { s with mem := storeBytes s.mem x n v } used

/-- What the pool keeps true of a state and of the blocks in use: the state
is well formed for the page list `pages` and the available list `l`, a block
in use is a block of a page and is not on the available list, every block of
every page is on the available list or in use, and no block is handed out
twice. -/
structure Tracked (b : Build) (s : State) (used pages l : List Nat) : Prop where
  wf : WellFormed b s pages l
  usedBlocks : ∀ a ∈ used, IsBlock b s pages a ∧ a ∉ l
  covered : ∀ x, IsBlock b s pages x → x ∈ l ∨ x ∈ used
  usedNodup : used.Nodup

/-- Run `n` times: take a block with `allocateBlock` and give it straight
back with `freeBlock`; returns the blocks taken, in call order. -/
def allocFreeCycles (b : Build) (sys : Nat → Nat) (fuel : Nat) : Nat → State → Res (List Nat)
  | 0, s => .ok [] s
  | n + 1, s =>
    (allocateBlock b sys s).andThen fun a s1 =>
      (freeBlock b fuel s1 a).andThen fun _ s2 =>
        (allocFreeCycles b sys fuel n s2).andThen fun as s3 => .ok (a :: as) s3

/-- A sequence of calls of `allocateBlock` and `freeBlock` (successful or
failing) and of writes of the caller that leave the links alone, leading from
a state with its blocks in use to a later state with its blocks in use.
`clearAllMemory` is not called.  Without validations `freeBlock` is only given
null or a block in use. -/
inductive Run (b : Build) (s : State) (used : List Nat) : State → List Nat → Prop where
  | refl : Run b s used s used
  | alloc (sys : Nat → Nat) (s1 s2 : State) (used1 : List Nat) (a : Nat) :
      Run b s used s1 used1 → MallocOk b sys s1 →
      allocateBlock b sys s1 = .ok a s2 → Run b s used s2 (a :: used1)
  | free (fuel : Nat) (s1 s2 : State) (used1 : List Nat) (a : Nat) :
      Run b s used s1 used1 → (b.validations = false → a = 0 ∨ a ∈ used1) →
      freeBlock b fuel s1 a = .ok () s2 → Run b s used s2 (used1.filter (fun x => x ≠ a))
  | freeFailed (fuel : Nat) (s1 s2 : State) (used1 : List Nat) (a : Nat)
      (e : MemoryPoolException) :
      Run b s used s1 used1 → freeBlock b fuel s1 a = .raise e s2 → Run b s used s2 used1
  | write (s1 : State) (used1 : List Nat) (x n v : Nat) :
      Run b s used s1 used1 → LinksUntouched b s1 x n →
      Run b s used { s1 with mem := storeBytes s1.mem x n v } used1

/-- Address of padding slot number `j` of the page at `page` in a build with
validations: slot `j` lies in front of block `j`, and slot `blocksPerPage` lies
behind the last block. -/
def guardSlot (b : Build) (blockSize page j : Nat) : Nat :=
  page + b.sizeofPtr + j * (blockSize + sizeofPadding)

/-- Deciding `PageOk` on concrete data. -/
instance PageOk.instDecidable (b : Build) (sys : Nat → Nat) (k bs n : Nat) :
    Decidable (PageOk b sys k bs n) :=
  inferInstanceAs (Decidable (sys n ≠ 0 ∧ sys n + pageExtent b bs k ≤ 256 ^ b.sizeofPtr))

/-- Deciding `PagesApart` on concrete data. -/
instance PagesApart.instDecidable (b : Build) (sys : Nat → Nat) (k bs i j : Nat) :
    Decidable (PagesApart b sys k bs i j) :=
  inferInstanceAs
    (Decidable (sys i + pageExtent b bs k ≤ sys j ∨ sys j + pageExtent b bs k ≤ sys i))

/-- Deciding `IsChain` on a concrete memory and list. -/
instance IsChain.instDecidable (mem : Memory) (ptr : Nat) :
    (head : Nat) → (l : List Nat) → Decidable (IsChain mem ptr head l)
  | head, [] => inferInstanceAs (Decidable (head = 0))
  | head, x :: xs =>
    have := IsChain.instDecidable mem ptr (loadBytes mem x ptr) xs
    inferInstanceAs (Decidable (head = x ∧ x ≠ 0 ∧ IsChain mem ptr (loadBytes mem x ptr) xs))

/-! ## Concrete instances used to exercise the theorems -/

/-- A 64-bit build for a 4-byte element, validations enabled. -/
def demoBuild : Build := { sizeofT := 4, sizeofPtr := 8, validations := true }

/-- The same build with validations disabled. -/
def plainBuild : Build := { sizeofT := 4, sizeofPtr := 8, validations := false }

/-- A 64-bit build whose element type is 4 GiB large. -/
def hugeBuild : Build := { sizeofT := 2 ^ 32, sizeofPtr := 8, validations := false }

/-- A system allocator handing out the addresses 4096, 8192, 12288, ... -/
def demoSys : Nat → Nat := fun n => 4096 * (n + 1)

/-- The members as the constructor initialises them, before its body runs,
for a block size of 8 and zero-filled memory. -/
def demoInit (k : Nat) : State :=
  { blocksPerPage := k, blockSize := 8, memoryPages := 0, availableBlocks := 0,
    numberOfPages := 0, blocksRemaining := 0, mem := fun _ => 0, requested := [], released := [] }

/-- The pool `MemoryPoolManager<T>(3)` of `demoBuild` right after construction. -/
def demoPool : State := linkPage demoBuild (demoInit 3) 4096

/-- The pool `demoPool` after its three blocks have been handed out. -/
def demoDrained : State := { demoPool with availableBlocks := 0, blocksRemaining := 0 }

/-- The two-block pool `MemoryPoolManager<T>(2)` of `plainBuild` right after
construction: its blocks are 4104 and 4112. -/
def plainPool : State := linkPage plainBuild (demoInit 2) 4096

/-- The pool `plainPool` after its block 4112 has been handed out. -/
def plainTaken : State := { plainPool with availableBlocks := 4104, blocksRemaining := 1 }

/-- The pool `demoPool` after its block 4126 has been handed out. -/
def demoTaken : State := { demoPool with availableBlocks := 4116, blocksRemaining := 2 }

/-- The pool `demoTaken` after the caller has stored the 16-bit value `0xBEEF`
into the padding in front of its block 4126. -/
def demoRewritten : State :=
  { demoTaken with mem := storeBytes demoTaken.mem 4124 2 0xBEEF }

/-- The pool `demoTaken` after the caller has stored the 4-byte value `0x1234`
one byte in front of its block 4126, as the test "Buffer Underflow 1" does. -/
def demoUnderflow : State :=
  { demoTaken with mem := storeBytes demoTaken.mem 4125 4 0x1234 }

/-- The pool `MemoryPoolManager<T>(1)` of `demoBuild` right after construction:
its only block is 4106. -/
def onePool : State := linkPage demoBuild (demoInit 1) 4096

/-- The pool `onePool` after its block has been handed out. -/
def oneTaken : State := { onePool with availableBlocks := 0, blocksRemaining := 0 }

/-- The pool `demoPool` after its blocks 4126 and 4116 have been handed out. -/
def demoTakenTwo : State := { demoPool with availableBlocks := 4106, blocksRemaining := 1 }

/-- The pool `demoDrained` after a fourth block has been handed out: a second
page at 8192 with the blocks 8202, 8212 and 8222 has been allocated and its block
8222 is in use. -/
def twoPages : State :=
  { linkPage demoBuild demoDrained 8192 with availableBlocks := 8212, blocksRemaining := 2 }

/-! ## Bytes -/

theorem loadBytes_congr (m1 m2 : Memory) (n : Nat) : ∀ a : Nat,
    (∀ x, a ≤ x → x < a + n → m1 x = m2 x) → loadBytes m1 a n = loadBytes m2 a n := by
  induction n with
  | zero => intro a _; rfl
  | succ n ih =>
    intro a h
    simp only [loadBytes]
    rw [h a (Nat.le_refl a) (by omega), ih (a + 1) (fun x h1 h2 => h x (by omega) (by omega))]

theorem storeBytes_outside (mem : Memory) (a n v x : Nat) (h : x < a ∨ a + n ≤ x) :
    storeBytes mem a n v x = mem x := by
  unfold storeBytes
  rw [if_neg]
  omega

theorem storeBytes_inside (mem : Memory) (a n v x : Nat) (h1 : a ≤ x) (h2 : x < a + n) :
    storeBytes mem a n v x = (v / 256 ^ (x - a)) % 256 := by
  unfold storeBytes
  rw [if_pos ⟨h1, h2⟩]

theorem loadBytes_lt (mem : Memory) (n : Nat) : ∀ a : Nat, loadBytes mem a n < 256 ^ n := by
  induction n with
  | zero => intro a; simp [loadBytes]
  | succ n ih =>
    intro a
    simp only [loadBytes]
    have h1 := ih (a + 1)
    have h2 : mem a % 256 < 256 := Nat.mod_lt _ (by decide)
    rw [pow_succ]
    omega

theorem loadBytes_storeBytes_same (n : Nat) : ∀ (mem : Memory) (a v : Nat),
    loadBytes (storeBytes mem a n v) a n = v % 256 ^ n := by
  induction n with
  | zero => intro mem a v; simp [loadBytes, Nat.mod_one]
  | succ n ih =>
    intro mem a v
    simp only [loadBytes]
    have h0 : storeBytes mem a (n + 1) v a = v % 256 := by
      rw [storeBytes_inside mem a (n + 1) v a (Nat.le_refl a) (by omega)]
      simp
    have h1 : loadBytes (storeBytes mem a (n + 1) v) (a + 1) n
        = loadBytes (storeBytes mem (a + 1) n (v / 256)) (a + 1) n := by
      apply loadBytes_congr
      intro x hx1 hx2
      rw [storeBytes_inside mem a (n + 1) v x (by omega) (by omega),
        storeBytes_inside mem (a + 1) n (v / 256) x hx1 hx2]
      have hx : x - a = (x - (a + 1)) + 1 := by omega
      rw [hx, pow_succ, Nat.mul_comm, Nat.div_div_eq_div_mul]
    rw [h0, h1, ih, Nat.mod_mod, pow_succ, Nat.mul_comm (256 ^ n) 256, Nat.mod_mul]

theorem loadBytes_storeBytes_disjoint (mem : Memory) (a1 n1 v a2 n2 : Nat)
    (h : a2 + n2 ≤ a1 ∨ a1 + n1 ≤ a2) :
    loadBytes (storeBytes mem a1 n1 v) a2 n2 = loadBytes mem a2 n2 := by
  apply loadBytes_congr
  intro x hx1 hx2
  apply storeBytes_outside
  omega

/-! ## The block set-up loop -/

theorem setupBlock_pos (b : Build) (bs : Nat) (c : Cursor) :
    (setupBlock b bs c).pos = c.pos + guardSize b + bs := by
  cases hb : b.validations <;> simp [setupBlock, guardSize, hb]

theorem setupBlock_avail (b : Build) (bs : Nat) (c : Cursor) :
    (setupBlock b bs c).avail = c.pos + guardSize b := by
  cases hb : b.validations <;> simp [setupBlock, guardSize, hb]

theorem setupBlock_mem (b : Build) (bs : Nat) (c : Cursor) :
    (setupBlock b bs c).mem = storeBytes
      (if b.validations then storeBytes c.mem c.pos sizeofPadding paddingSignature else c.mem)
      (c.pos + guardSize b) b.sizeofPtr c.avail := by
  cases hb : b.validations <;> simp [setupBlock, guardSize, hb]

theorem setupBlock_mem_outside (b : Build) (bs : Nat) (hbs : b.sizeofPtr ≤ bs) (c : Cursor)
    (x : Nat) (hx : x < c.pos ∨ c.pos + guardSize b + bs ≤ x) :
    (setupBlock b bs c).mem x = c.mem x := by
  rw [setupBlock_mem, storeBytes_outside _ _ _ _ _ (by omega)]
  cases hb : b.validations
  · simp
  · have hg : guardSize b = sizeofPadding := by simp [guardSize, hb]
    simp only [if_true]
    rw [storeBytes_outside _ _ _ _ _ (by omega)]

theorem setupBlocks_pos (b : Build) (bs n : Nat) : ∀ c : Cursor,
    (setupBlocks b bs n c).pos = c.pos + n * (bs + guardSize b) := by
  induction n with
  | zero => intro c; simp [setupBlocks]
  | succ n ih =>
    intro c
    rw [setupBlocks, ih, setupBlock_pos, Nat.succ_mul]
    omega

theorem setupBlocks_avail (b : Build) (bs n : Nat) : ∀ c : Cursor,
    (setupBlocks b bs (n + 1) c).avail = c.pos + guardSize b + n * (bs + guardSize b) := by
  induction n with
  | zero => intro c; simp [setupBlocks, setupBlock_avail]
  | succ n ih =>
    intro c
    rw [setupBlocks, ih, setupBlock_pos, Nat.succ_mul]
    omega

theorem setupBlocks_mem_outside (b : Build) (bs n : Nat) (hbs : b.sizeofPtr ≤ bs) :
    ∀ (c : Cursor) (x : Nat), x < c.pos ∨ c.pos + n * (bs + guardSize b) ≤ x →
      (setupBlocks b bs n c).mem x = c.mem x := by
  induction n with
  | zero => intro c x _; simp [setupBlocks]
  | succ n ih =>
    intro c x hx
    rw [Nat.succ_mul] at hx
    rw [setupBlocks, ih _ _ (by rw [setupBlock_pos]; omega),
      setupBlock_mem_outside b bs hbs c x (by omega)]

theorem setupBlocks_links (b : Build) (bs n : Nat) (hbs : b.sizeofPtr ≤ bs) :
    ∀ (c : Cursor) (i : Nat), i < n →
      loadBytes (setupBlocks b bs n c).mem (c.pos + guardSize b + i * (bs + guardSize b)) b.sizeofPtr
        = (if i = 0 then c.avail else c.pos + guardSize b + (i - 1) * (bs + guardSize b))
            % 256 ^ b.sizeofPtr := by
  induction n with
  | zero => intro c i hi; omega
  | succ n ih =>
    intro c i hi
    rw [setupBlocks]
    cases i with
    | zero =>
      simp only [Nat.zero_mul, Nat.add_zero, if_true]
      rw [loadBytes_congr _ _ _ _ (fun x hx1 hx2 =>
        setupBlocks_mem_outside b bs n hbs _ x (Or.inl (by rw [setupBlock_pos]; omega)))]
      rw [setupBlock_mem, loadBytes_storeBytes_same]
    | succ j =>
      have h := ih (setupBlock b bs c) j (by omega)
      rw [setupBlock_pos, setupBlock_avail] at h
      have e1 : c.pos + guardSize b + (j + 1) * (bs + guardSize b)
          = c.pos + guardSize b + bs + guardSize b + j * (bs + guardSize b) := by
        rw [Nat.succ_mul]; omega
      rw [e1, h]
      cases j with
      | zero => simp
      | succ k =>
        simp only [Nat.add_sub_cancel, Nat.succ_ne_zero, if_false, Nat.add_eq_zero, and_false]
        congr 1
        rw [Nat.succ_mul]; omega

theorem setupBlocks_guards (b : Build) (bs n : Nat) (hbs : b.sizeofPtr ≤ bs)
    (hv : b.validations = true) :
    ∀ (c : Cursor) (i : Nat), i < n →
      loadBytes (setupBlocks b bs n c).mem (c.pos + i * (bs + guardSize b)) sizeofPadding
        = paddingSignature := by
  have hg : guardSize b = sizeofPadding := by simp [guardSize, hv]
  induction n with
  | zero => intro c i hi; omega
  | succ n ih =>
    intro c i hi
    rw [setupBlocks]
    cases i with
    | zero =>
      simp only [Nat.zero_mul, Nat.add_zero]
      rw [loadBytes_congr _ _ _ _ (fun x hx1 hx2 =>
        setupBlocks_mem_outside b bs n hbs _ x (Or.inl (by rw [setupBlock_pos]; omega)))]
      rw [setupBlock_mem]
      simp only [hv, if_true]
      rw [loadBytes_storeBytes_disjoint _ _ _ _ _ _ (by omega), loadBytes_storeBytes_same]
      decide
    | succ j =>
      have h := ih (setupBlock b bs c) j (by omega)
      rw [setupBlock_pos] at h
      have e1 : c.pos + (j + 1) * (bs + guardSize b)
          = c.pos + guardSize b + bs + j * (bs + guardSize b) := by
        rw [Nat.succ_mul]; omega
      rw [e1, h]

/-! ## allocatePage -/

theorem allocatePage_eq (b : Build) (sys : Nat → Nat) (s : State)
    (h : sys s.requested.length ≠ 0) :
    allocatePage b sys s = .ok () (linkPage b s (sys s.requested.length)) := by
  simp [allocatePage, h]

theorem linkPage_fields (b : Build) (s : State) (page : Nat) :
    (linkPage b s page).blocksPerPage = s.blocksPerPage
    ∧ (linkPage b s page).blockSize = s.blockSize
    ∧ (linkPage b s page).memoryPages = page
    ∧ (linkPage b s page).numberOfPages = (s.numberOfPages + 1) % uintRange
    ∧ (linkPage b s page).blocksRemaining = (s.blocksRemaining + s.blocksPerPage) % uintRange
    ∧ (linkPage b s page).requested = pageAllocationSize b s :: s.requested
    ∧ (linkPage b s page).released = s.released :=
  ⟨rfl, rfl, rfl, rfl, rfl, rfl, rfl⟩

theorem linkPage_avail (b : Build) (s : State) (page k : Nat) (hk : s.blocksPerPage = k + 1) :
    (linkPage b s page).availableBlocks = blockAddress b s.blockSize page k := by
  simp only [linkPage, hk, setupBlocks_avail, blockAddress]

theorem linkPage_avail_zero (b : Build) (s : State) (page : Nat) (hk : s.blocksPerPage = 0) :
    (linkPage b s page).availableBlocks = s.availableBlocks := by
  simp only [linkPage, hk, setupBlocks]

theorem linkPage_mem_outside (b : Build) (s : State) (page : Nat)
    (hbs : b.sizeofPtr ≤ s.blockSize) (x : Nat)
    (hx : x < page ∨ page + pageExtent b s.blockSize s.blocksPerPage ≤ x) :
    (linkPage b s page).mem x = s.mem x := by
  have hmid : (setupBlocks b s.blockSize s.blocksPerPage
      { mem := storeBytes s.mem page b.sizeofPtr s.memoryPages, avail := s.availableBlocks,
        pos := page + b.sizeofPtr }).mem x = s.mem x := by
    rw [setupBlocks_mem_outside b _ _ hbs _ x (by simp only [pageExtent] at hx ⊢; omega)]
    simp only
    rw [storeBytes_outside _ _ _ _ _ (by simp only [pageExtent] at hx; omega)]
  simp only [linkPage]
  cases hv : b.validations
  · simpa using hmid
  · simp only [if_true]
    have hg : guardSize b = sizeofPadding := by simp [guardSize, hv]
    rw [storeBytes_outside _ _ _ _ _ (by
      rw [setupBlocks_pos]; simp only [pageExtent] at hx ⊢; omega)]
    exact hmid

theorem linkPage_links (b : Build) (s : State) (page : Nat)
    (hbs : b.sizeofPtr ≤ s.blockSize) (i : Nat) (hi : i < s.blocksPerPage) :
    loadBytes (linkPage b s page).mem (blockAddress b s.blockSize page i) b.sizeofPtr
      = (if i = 0 then s.availableBlocks else blockAddress b s.blockSize page (i - 1))
          % 256 ^ b.sizeofPtr := by
  have h := setupBlocks_links b s.blockSize s.blocksPerPage hbs
    { mem := storeBytes s.mem page b.sizeofPtr s.memoryPages, avail := s.availableBlocks,
      pos := page + b.sizeofPtr } i hi
  simp only at h
  have hle : (i + 1) * (s.blockSize + guardSize b) ≤ s.blocksPerPage * (s.blockSize + guardSize b) :=
    Nat.mul_le_mul_right _ hi
  rw [Nat.succ_mul] at hle
  simp only [blockAddress]
  rw [← h]
  simp only [linkPage]
  cases hv : b.validations
  · simp
  · simp only [if_true]
    rw [loadBytes_storeBytes_disjoint _ _ _ _ _ _ (by rw [setupBlocks_pos]; simp only; omega)]

theorem linkPage_pageLink (b : Build) (s : State) (page : Nat)
    (hbs : b.sizeofPtr ≤ s.blockSize) :
    loadBytes (linkPage b s page).mem page b.sizeofPtr = s.memoryPages % 256 ^ b.sizeofPtr := by
  have hmid : loadBytes (setupBlocks b s.blockSize s.blocksPerPage
      { mem := storeBytes s.mem page b.sizeofPtr s.memoryPages, avail := s.availableBlocks,
        pos := page + b.sizeofPtr }).mem page b.sizeofPtr = s.memoryPages % 256 ^ b.sizeofPtr := by
    rw [loadBytes_congr _ _ _ _ (fun x hx1 hx2 =>
      setupBlocks_mem_outside b _ _ hbs _ x (Or.inl (by simp only; omega)))]
    simp only
    rw [loadBytes_storeBytes_same]
  simp only [linkPage]
  cases hv : b.validations
  · simpa using hmid
  · simp only [if_true]
    rw [loadBytes_storeBytes_disjoint _ _ _ _ _ _ (by rw [setupBlocks_pos]; simp only; omega)]
    exact hmid

theorem linkPage_guards (b : Build) (s : State) (page : Nat)
    (hbs : b.sizeofPtr ≤ s.blockSize) (hv : b.validations = true) (i : Nat)
    (hi : i ≤ s.blocksPerPage) :
    loadBytes (linkPage b s page).mem (page + b.sizeofPtr + i * (s.blockSize + sizeofPadding))
      sizeofPadding = paddingSignature := by
  have hg : guardSize b = sizeofPadding := by simp [guardSize, hv]
  simp only [linkPage, hv, if_true]
  rw [setupBlocks_pos]
  simp only [hg]
  rcases Nat.lt_or_ge i s.blocksPerPage with hlt | hge
  · have hle : (i + 1) * (s.blockSize + sizeofPadding)
        ≤ s.blocksPerPage * (s.blockSize + sizeofPadding) := Nat.mul_le_mul_right _ hlt
    rw [Nat.succ_mul] at hle
    have hsz : sizeofPadding = 2 := rfl
    rw [loadBytes_storeBytes_disjoint _ _ _ _ _ _ (by omega)]
    have h := setupBlocks_guards b s.blockSize s.blocksPerPage hbs hv
      { mem := storeBytes s.mem page b.sizeofPtr s.memoryPages, avail := s.availableBlocks,
        pos := page + b.sizeofPtr } i hlt
    simp only [hg] at h
    exact h
  · have hi2 : i = s.blocksPerPage := by omega
    rw [hi2, loadBytes_storeBytes_same]
    decide

/-! ## Linked lists in memory -/

theorem IsChain_congr (m1 m2 : Memory) (ptr : Nat) : ∀ (l : List Nat) (head : Nat),
    (∀ x ∈ l, loadBytes m1 x ptr = loadBytes m2 x ptr) →
      IsChain m1 ptr head l → IsChain m2 ptr head l := by
  intro l
  induction l with
  | nil => intro head _ h; exact h
  | cons x xs ih =>
    intro head hl h
    obtain ⟨h1, h2, h3⟩ := h
    refine ⟨h1, h2, ?_⟩
    rw [← hl x (List.mem_cons_self x xs)]
    exact ih _ (fun y hy => hl y (List.mem_cons_of_mem x hy)) h3

theorem IsChain_unique (mem : Memory) (ptr : Nat) : ∀ (l1 l2 : List Nat) (head : Nat),
    IsChain mem ptr head l1 → IsChain mem ptr head l2 → l1 = l2 := by
  intro l1
  induction l1 with
  | nil =>
    intro l2 head h1 h2
    cases l2 with
    | nil => rfl
    | cons y ys =>
      obtain ⟨e, hy, _⟩ := h2
      exact absurd (e.symm.trans h1) hy
  | cons x xs ih =>
    intro l2 head h1 h2
    obtain ⟨e1, hx, t1⟩ := h1
    cases l2 with
    | nil => exact absurd (e1.symm.trans h2) hx
    | cons y ys =>
      obtain ⟨e2, _, t2⟩ := h2
      have hxy : x = y := e1.symm.trans e2
      subst hxy
      rw [ih ys _ t1 t2]

theorem blockAddress_succ (b : Build) (bs page i : Nat) :
    blockAddress b bs page (i + 1) = blockAddress b bs page i + (bs + guardSize b) := by
  simp only [blockAddress, Nat.succ_mul]; omega

theorem blockAddress_mono (b : Build) (bs page i j : Nat) (h : i ≤ j) :
    blockAddress b bs page i ≤ blockAddress b bs page j := by
  have := Nat.mul_le_mul_right (bs + guardSize b) h
  simp only [blockAddress]; omega

theorem blockAddress_end_le (b : Build) (bs page k i : Nat) (h : i < k) :
    blockAddress b bs page i + bs + guardSize b ≤ page + pageExtent b bs k := by
  have := Nat.mul_le_mul_right (bs + guardSize b) (Nat.succ_le_of_lt h)
  rw [Nat.succ_mul] at this
  simp only [blockAddress, pageExtent]; omega

theorem blockAddress_ge (b : Build) (bs page i : Nat) :
    page + b.sizeofPtr + guardSize b ≤ blockAddress b bs page i := by
  simp only [blockAddress]; omega

theorem blockAddress_lt_of_lt (b : Build) (bs page i j : Nat) (h : i < j) :
    blockAddress b bs page i + bs ≤ blockAddress b bs page j := by
  have := blockAddress_mono b bs page (i + 1) j h
  rw [blockAddress_succ] at this
  omega

theorem IsChain_pageBlocksDesc (b : Build) (mem : Memory) (bs page k : Nat)
    (hpos : 0 < page + b.sizeofPtr)
    (hl : ∀ i < k, loadBytes mem (blockAddress b bs page i) b.sizeofPtr
      = if i = 0 then 0 else blockAddress b bs page (i - 1)) :
    ∀ m, m < k → IsChain mem b.sizeofPtr (blockAddress b bs page m)
      (pageBlocksDesc b bs page (m + 1)) := by
  intro m
  induction m with
  | zero =>
    intro h
    refine ⟨rfl, ?_, ?_⟩
    · have := blockAddress_ge b bs page 0
      show blockAddress b bs page 0 ≠ 0
      omega
    · rw [hl 0 h]; simp [pageBlocksDesc, IsChain]
  | succ m ih =>
    intro h
    refine ⟨rfl, ?_, ?_⟩
    · have := blockAddress_ge b bs page (m + 1)
      show blockAddress b bs page (m + 1) ≠ 0
      omega
    · rw [hl (m + 1) h]
      simp only [Nat.succ_ne_zero, if_false, Nat.add_sub_cancel]
      exact ih (by omega)

theorem linkPage_links_exact (b : Build) (s : State) (page : Nat)
    (hptr : 0 < b.sizeofPtr)
    (hbs : b.sizeofPtr ≤ s.blockSize) (hempty : s.availableBlocks = 0)
    (hfit : page + pageExtent b s.blockSize s.blocksPerPage ≤ 256 ^ b.sizeofPtr)
    (i : Nat) (hi : i < s.blocksPerPage) :
    loadBytes (linkPage b s page).mem (blockAddress b s.blockSize page i) b.sizeofPtr
      = if i = 0 then 0 else blockAddress b s.blockSize page (i - 1) := by
  rw [linkPage_links b s page hbs i hi, hempty]
  apply Nat.mod_eq_of_lt
  by_cases h0 : i = 0
  · simp [h0]
  · simp only [h0, if_false]
    have := blockAddress_end_le b s.blockSize page s.blocksPerPage (i - 1) (by omega)
    have h256 : 0 < 256 ^ b.sizeofPtr := pow_pos (by decide) _
    omega

theorem linkPage_freeList (b : Build) (s : State) (page k : Nat)
    (hk : s.blocksPerPage = k + 1) (hptr : 0 < b.sizeofPtr)
    (hbs : b.sizeofPtr ≤ s.blockSize) (hempty : s.availableBlocks = 0)
    (hfit : page + pageExtent b s.blockSize s.blocksPerPage ≤ 256 ^ b.sizeofPtr) :
    IsChain (linkPage b s page).mem b.sizeofPtr (linkPage b s page).availableBlocks
      (pageBlocksDesc b s.blockSize page (k + 1)) := by
  rw [linkPage_avail b s page k hk]
  exact IsChain_pageBlocksDesc b _ s.blockSize page s.blocksPerPage (by omega)
    (linkPage_links_exact b s page hptr hbs hempty hfit) k (by omega)

theorem linkPage_pageChain (b : Build) (s : State) (page : Nat) (pages : List Nat)
    (hbs : b.sizeofPtr ≤ s.blockSize) (hpage : page ≠ 0)
    (hrepr : s.memoryPages < 256 ^ b.sizeofPtr)
    (hpages : IsChain s.mem b.sizeofPtr s.memoryPages pages)
    (hdisj : ∀ q ∈ pages, q + b.sizeofPtr ≤ page
      ∨ page + pageExtent b s.blockSize s.blocksPerPage ≤ q) :
    IsChain (linkPage b s page).mem b.sizeofPtr (linkPage b s page).memoryPages
      (page :: pages) := by
  refine ⟨rfl, hpage, ?_⟩
  rw [linkPage_pageLink b s page hbs, Nat.mod_eq_of_lt hrepr]
  refine IsChain_congr s.mem _ _ pages _ ?_ hpages
  intro q hq
  apply loadBytes_congr
  intro x hx1 hx2
  rw [linkPage_mem_outside b s page hbs x (by have := hdisj q hq; omega)]

theorem uint_pred (n : Nat) (h0 : 0 < n) (h : n < uintRange) :
    (n + uintRange - 1) % uintRange = n - 1 := by
  simp only [uintRange] at h ⊢
  omega

theorem linkPage_blocksRemaining (b : Build) (s : State) (page : Nat) :
    (linkPage b s page).blocksRemaining = (s.blocksRemaining + s.blocksPerPage) % uintRange :=
  rfl

theorem linkPage_numberOfPages (b : Build) (s : State) (page : Nat) :
    (linkPage b s page).numberOfPages = (s.numberOfPages + 1) % uintRange :=
  rfl

theorem linkPage_requested (b : Build) (s : State) (page : Nat) :
    (linkPage b s page).requested = pageAllocationSize b s :: s.requested :=
  rfl

theorem getAvailableBlocksRemaining_eq (s : State) :
    getAvailableBlocksRemaining s = s.blocksRemaining := rfl

theorem getNumberOfPages_eq (s : State) : getNumberOfPages s = s.numberOfPages := rfl

/-! ## Construction -/

/-- C1: for every build (element type), constructing with `blocksPerPage = 0`
throws the exception carrying `invalidSizeMsg`, and at the throw nothing has been
requested from `malloc`, nothing released, the page list and the available list
are null, both counters are 0 and memory is untouched. -/
theorem construct_zero_blocksPerPage (b : Build) (sys : Nat → Nat) (mem : Memory) :
    ∃ s, construct b sys mem 0 = .raise .invalidSizeMsg s
      ∧ s.requested = [] ∧ s.released = [] ∧ s.memoryPages = 0 ∧ s.availableBlocks = 0
      ∧ getNumberOfPages s = 0 ∧ getAvailableBlocksRemaining s = 0 ∧ s.mem = mem :=
  ⟨_, rfl, rfl, rfl, rfl, rfl, rfl, rfl, rfl⟩

/-- C2 (failing input): on a 64-bit build whose element type has
`sizeof(T) = 2 ^ 32`, constructing with `blocksPerPage = 2` succeeds with a block
size of 0, which is not `max(sizeof(T), sizeof(void*))` and is smaller than a
pointer; both blocks of the page share the address 4104, whose link points to
itself, so the available list is not the two blocks of the page. -/
theorem construct_blockSize_truncated :
    ∃ s, construct hugeBuild demoSys (fun _ => 0) 2 = .ok () s
      ∧ s.blockSize = 0
      ∧ s.blockSize ≠ max hugeBuild.sizeofT hugeBuild.sizeofPtr
      ∧ s.blockSize < hugeBuild.sizeofPtr
      ∧ s.availableBlocks = 4104
      ∧ loadBytes s.mem s.availableBlocks hugeBuild.sizeofPtr = s.availableBlocks
      ∧ ¬ IsChain s.mem hugeBuild.sizeofPtr s.availableBlocks
          (pageBlocksDesc hugeBuild s.blockSize 4096 2) :=
  ⟨_, rfl, by decide, by decide, by decide, by decide, by decide, by decide⟩

theorem construct_eq (b : Build) (sys : Nat → Nat) (mem : Memory) (k : Nat)
    (hk : 0 < k) (hsys : sys 0 ≠ 0) :
    construct b sys mem k = .ok () (linkPage b (initialState b mem k) (sys 0)) := by
  have hk0 : k ≠ 0 := by omega
  simp [construct, allocatePage, initialState, hk0, hsys]

theorem initialState_blockSize (b : Build) (mem : Memory) (k : Nat)
    (hsize : max b.sizeofT b.sizeofPtr < uintRange) :
    (initialState b mem k).blockSize = max b.sizeofT b.sizeofPtr :=
  Nat.mod_eq_of_lt hsize

/-- Construction with a positive capacity, an element size that fits an
`unsigned int`, a successful `malloc` and a page that fits the address space:
the block size is `max(sizeof(T), sizeof(void*))`, there is one page, and the
available list is the page's blocks `k - 1`, ..., `0`. -/
theorem construct_ok (b : Build) (sys : Nat → Nat) (mem : Memory) (k : Nat)
    (hk : 0 < k) (hkr : k < uintRange) (hptr : 0 < b.sizeofPtr)
    (hsize : max b.sizeofT b.sizeofPtr < uintRange) (hsys : sys 0 ≠ 0)
    (hfit : sys 0 + pageExtent b (max b.sizeofT b.sizeofPtr) k ≤ 256 ^ b.sizeofPtr) :
    ∃ s, construct b sys mem k = .ok () s
      ∧ s.blockSize = max b.sizeofT b.sizeofPtr
      ∧ getBlocksPerPage s = k ∧ getNumberOfPages s = 1 ∧ getAvailableBlocksRemaining s = k
      ∧ s.memoryPages = sys 0
      ∧ IsChain s.mem b.sizeofPtr s.memoryPages [sys 0]
      ∧ IsChain s.mem b.sizeofPtr s.availableBlocks
          (pageBlocksDesc b (max b.sizeofT b.sizeofPtr) (sys 0) k)
      ∧ s.requested.length = 1 ∧ s.released = [] := by
  refine ⟨_, construct_eq b sys mem k hk hsys, ?_⟩
  have hbs := initialState_blockSize b mem k hsize
  have hle : b.sizeofPtr ≤ (initialState b mem k).blockSize := by
    rw [hbs]; exact Nat.le_max_right _ _
  have hfit' : sys 0 + pageExtent b (initialState b mem k).blockSize
      (initialState b mem k).blocksPerPage ≤ 256 ^ b.sizeofPtr := by
    rw [hbs]; exact hfit
  obtain ⟨j, hj⟩ : ∃ j, k = j + 1 := ⟨k - 1, by omega⟩
  refine ⟨hbs, rfl, ?_, ?_, rfl, ?_, ?_, rfl, rfl⟩
  · rw [getNumberOfPages_eq, linkPage_numberOfPages]
    rfl
  · rw [getAvailableBlocksRemaining_eq, linkPage_blocksRemaining]
    show (0 + k) % uintRange = k
    rw [Nat.zero_add]
    exact Nat.mod_eq_of_lt hkr
  · exact linkPage_pageChain b _ (sys 0) [] hle hsys (pow_pos (by decide) _) rfl
      (fun q hq => by cases hq)
  · have h := linkPage_freeList b (initialState b mem k) (sys 0) j hj hptr hle rfl hfit'
    rw [hbs, ← hj] at h
    exact h

/-! ## allocateBlock -/

theorem allocateBlock_of_available (b : Build) (sys : Nat → Nat) (s : State)
    (h : s.availableBlocks ≠ 0) :
    allocateBlock b sys s = .ok s.availableBlocks
      { s with
        availableBlocks := loadBytes s.mem s.availableBlocks b.sizeofPtr
        blocksRemaining := (s.blocksRemaining + uintRange - 1) % uintRange } := by
  simp [allocateBlock, Res.andThen, h]

/-- C3: in a state whose available list `l` is non-empty and whose counter
`blocksRemaining` equals the length of `l`, `allocateBlock` returns the head of `l`;
afterwards the available list is the tail of `l`, `blocksRemaining` is smaller by
exactly 1, and the page list, the page count, memory and the `malloc` log are
unchanged: no page is allocated. -/
theorem allocateBlock_pops_head (b : Build) (sys : Nat → Nat) (s : State) (l : List Nat)
    (hl : IsChain s.mem b.sizeofPtr s.availableBlocks l) (hne : l ≠ [])
    (hcount : s.blocksRemaining = l.length) (hrange : l.length < uintRange) :
    ∃ s', allocateBlock b sys s = .ok s.availableBlocks s'
      ∧ l.head? = some s.availableBlocks
      ∧ IsChain s'.mem b.sizeofPtr s'.availableBlocks l.tail
      ∧ s'.blocksRemaining + 1 = s.blocksRemaining
      ∧ s'.blocksRemaining = l.tail.length
      ∧ s'.memoryPages = s.memoryPages ∧ s'.numberOfPages = s.numberOfPages
      ∧ s'.mem = s.mem ∧ s'.requested = s.requested ∧ s'.released = s.released
      ∧ s'.blocksPerPage = s.blocksPerPage ∧ s'.blockSize = s.blockSize := by
  cases l with
  | nil => exact absurd rfl hne
  | cons x xs =>
    obtain ⟨hx, hx0, htl⟩ := hl
    have ha : s.availableBlocks ≠ 0 := by rw [hx]; exact hx0
    simp only [List.length_cons] at hcount hrange
    have hdec : (s.blocksRemaining + uintRange - 1) % uintRange = xs.length := by
      rw [hcount]; simp only [uintRange] at hrange ⊢; omega
    refine ⟨_, allocateBlock_of_available b sys s ha, by simp [hx], ?_, ?_, ?_,
      rfl, rfl, rfl, rfl, rfl, rfl, rfl⟩
    · simp only [List.tail_cons]; rw [hx]; exact htl
    · show (s.blocksRemaining + uintRange - 1) % uintRange + 1 = s.blocksRemaining
      rw [hdec, hcount]
    · show (s.blocksRemaining + uintRange - 1) % uintRange = (x :: xs).tail.length
      rw [hdec, List.tail_cons]

/-- C3 exercised on the freshly constructed three-block pool `demoPool`. -/
theorem allocateBlock_pops_head_witness :
    ∃ s', allocateBlock demoBuild demoSys demoPool = .ok demoPool.availableBlocks s'
      ∧ [4126, 4116, 4106].head? = some demoPool.availableBlocks
      ∧ IsChain s'.mem demoBuild.sizeofPtr s'.availableBlocks [4126, 4116, 4106].tail
      ∧ s'.blocksRemaining + 1 = demoPool.blocksRemaining
      ∧ s'.blocksRemaining = [4126, 4116, 4106].tail.length
      ∧ s'.memoryPages = demoPool.memoryPages ∧ s'.numberOfPages = demoPool.numberOfPages
      ∧ s'.mem = demoPool.mem ∧ s'.requested = demoPool.requested
      ∧ s'.released = demoPool.released
      ∧ s'.blocksPerPage = demoPool.blocksPerPage ∧ s'.blockSize = demoPool.blockSize :=
  allocateBlock_pops_head demoBuild demoSys demoPool [4126, 4116, 4106]
    (by decide) (by decide) (by decide) (by decide)

theorem allocateBlock_of_empty (b : Build) (sys : Nat → Nat) (s : State)
    (hempty : s.availableBlocks = 0) (hsys : sys s.requested.length ≠ 0)
    (hav : (linkPage b s (sys s.requested.length)).availableBlocks ≠ 0) :
    allocateBlock b sys s = .ok (linkPage b s (sys s.requested.length)).availableBlocks
      { linkPage b s (sys s.requested.length) with
        availableBlocks := loadBytes (linkPage b s (sys s.requested.length)).mem
          (linkPage b s (sys s.requested.length)).availableBlocks b.sizeofPtr
        blocksRemaining :=
          ((linkPage b s (sys s.requested.length)).blocksRemaining + uintRange - 1) % uintRange } := by
  simp [allocateBlock, Res.andThen, hempty, allocatePage, hsys, hav]

/-- C4: in a state with an empty available list (and `blocksRemaining = 0`) and
capacity `k > 0`, when `malloc` returns a non-null page that fits the address
space and does not overlap the link of a page already in the page list,
`allocateBlock` requests exactly one page, puts it in front of the page list,
raises the page count by exactly 1, threads the page's blocks `k - 1`, ..., `0` in
this order onto the available list, and returns block `k - 1`, leaving
`blocksRemaining = k - 1` and the available list equal to blocks `k - 2`, ..., `0`. -/
theorem allocateBlock_grows_page (b : Build) (sys : Nat → Nat) (s : State) (pages : List Nat)
    (hk : 0 < s.blocksPerPage) (hkr : s.blocksPerPage < uintRange)
    (hempty : s.availableBlocks = 0) (hcount : s.blocksRemaining = 0)
    (hnp : s.numberOfPages + 1 < uintRange)
    (hptr : 0 < b.sizeofPtr) (hbs : b.sizeofPtr ≤ s.blockSize)
    (hsys : sys s.requested.length ≠ 0)
    (hfit : sys s.requested.length + pageExtent b s.blockSize s.blocksPerPage
      ≤ 256 ^ b.sizeofPtr)
    (hrepr : s.memoryPages < 256 ^ b.sizeofPtr)
    (hpages : IsChain s.mem b.sizeofPtr s.memoryPages pages)
    (hdisj : ∀ q ∈ pages, q + b.sizeofPtr ≤ sys s.requested.length
      ∨ sys s.requested.length + pageExtent b s.blockSize s.blocksPerPage ≤ q) :
    ∃ s1 s',
      allocatePage b sys s = .ok () s1
      ∧ IsChain s1.mem b.sizeofPtr s1.availableBlocks
          (pageBlocksDesc b s.blockSize (sys s.requested.length) s.blocksPerPage)
      ∧ allocateBlock b sys s
          = .ok (blockAddress b s.blockSize (sys s.requested.length) (s.blocksPerPage - 1)) s'
      ∧ s'.requested = pageAllocationSize b s :: s.requested
      ∧ s'.released = s.released
      ∧ IsChain s'.mem b.sizeofPtr s'.memoryPages (sys s.requested.length :: pages)
      ∧ getNumberOfPages s' = getNumberOfPages s + 1
      ∧ getAvailableBlocksRemaining s' = s.blocksPerPage - 1
      ∧ IsChain s'.mem b.sizeofPtr s'.availableBlocks
          (pageBlocksDesc b s.blockSize (sys s.requested.length) (s.blocksPerPage - 1))
      ∧ s'.blocksPerPage = s.blocksPerPage ∧ s'.blockSize = s.blockSize := by
  obtain ⟨j, hj⟩ : ∃ j, s.blocksPerPage = j + 1 := ⟨s.blocksPerPage - 1, by omega⟩
  have hfree := linkPage_freeList b s (sys s.requested.length) j hj hptr hbs hempty hfit
  have hav := linkPage_avail b s (sys s.requested.length) j hj
  have hav0 : (linkPage b s (sys s.requested.length)).availableBlocks ≠ 0 := by
    have := blockAddress_ge b s.blockSize (sys s.requested.length) j
    rw [hav]; omega
  have hjk : s.blocksPerPage - 1 = j := by omega
  have hres := allocateBlock_of_empty b sys s hempty hsys hav0
  rw [hav, ← hjk] at hres
  refine ⟨_, _, allocatePage_eq b sys s hsys, ?_, hres, rfl, rfl, ?_, ?_, ?_, ?_, rfl, rfl⟩
  · rw [hj]; exact hfree
  · exact linkPage_pageChain b s _ pages hbs hsys hrepr hpages hdisj
  · rw [getNumberOfPages_eq, getNumberOfPages_eq]
    dsimp only
    rw [linkPage_numberOfPages]
    exact Nat.mod_eq_of_lt hnp
  · rw [getAvailableBlocksRemaining_eq]
    dsimp only
    rw [linkPage_blocksRemaining, hcount, Nat.zero_add, Nat.mod_eq_of_lt hkr]
    exact uint_pred s.blocksPerPage hk hkr
  · rw [hjk]
    exact hfree.2.2

/-- C4 exercised on `demoDrained`: the second page is at 8192. -/
theorem allocateBlock_grows_page_witness :
    ∃ s1 s',
      allocatePage demoBuild demoSys demoDrained = .ok () s1
      ∧ IsChain s1.mem 8 s1.availableBlocks [8222, 8212, 8202]
      ∧ allocateBlock demoBuild demoSys demoDrained = .ok 8222 s'
      ∧ s'.requested = [40, 40]
      ∧ IsChain s'.mem 8 s'.memoryPages [8192, 4096]
      ∧ getNumberOfPages s' = 2
      ∧ getAvailableBlocksRemaining s' = 2
      ∧ IsChain s'.mem 8 s'.availableBlocks [8212, 8202] := by
  obtain ⟨s1, s', h1, h2, h3, h4, _, h6, h7, h8, h9, _, _⟩ :=
    allocateBlock_grows_page demoBuild demoSys demoDrained [4096]
      (by decide) (by decide) (by decide) (by decide) (by decide) (by decide) (by decide)
      (by decide) (by decide) (by decide) (by decide) (by decide)
  exact ⟨s1, s', h1, h2, h3, h4.trans (by decide), h6, h7, h8, h9⟩

/-! ## Runs of allocations from a fresh pool -/

theorem construct_fresh (b : Build) (sys : Nat → Nat) (mem : Memory) (k : Nat)
    (hk : 0 < k) (hkr : k < uintRange) (hptr : 0 < b.sizeofPtr)
    (hsize : max b.sizeofT b.sizeofPtr < uintRange)
    (hok : PageOk b sys k (max b.sizeofT b.sizeofPtr) 0) :
    ∃ s, construct b sys mem k = .ok () s
      ∧ Fresh b sys k (max b.sizeofT b.sizeofPtr) 0 k s := by
  refine ⟨_, construct_eq b sys mem k hk hok.1, ?_⟩
  have hbs := initialState_blockSize b mem k hsize
  have hle : b.sizeofPtr ≤ (initialState b mem k).blockSize := by
    rw [hbs]; exact Nat.le_max_right _ _
  have hfit' : sys 0 + pageExtent b (initialState b mem k).blockSize
      (initialState b mem k).blocksPerPage ≤ 256 ^ b.sizeofPtr := by
    rw [hbs]; exact hok.2
  obtain ⟨j, hj⟩ : ∃ j, k = j + 1 := ⟨k - 1, by omega⟩
  have hk0 : k ≠ 0 := by omega
  refine ⟨rfl, hbs, rfl, ?_, ?_, Nat.le_refl k, ?_, ?_⟩
  · rw [linkPage_numberOfPages]
    rfl
  · rw [linkPage_blocksRemaining]
    show (0 + k) % uintRange = k
    rw [Nat.zero_add]
    exact Nat.mod_eq_of_lt hkr
  · rw [linkPage_avail b _ (sys 0) j hj, hbs, if_neg hk0, hj, Nat.add_sub_cancel]
  · intro i hi
    have h := linkPage_links_exact b (initialState b mem k) (sys 0) hptr hle rfl hfit' i hi
    rw [hbs] at h
    exact h

theorem fresh_pop (b : Build) (sys : Nat → Nat) (k bs p m : Nat) (s : State)
    (hkr : k < uintRange) (hptr : 0 < b.sizeofPtr)
    (h : Fresh b sys k bs p (m + 1) s) :
    ∃ s', allocateBlock b sys s = .ok (blockAddress b bs (sys p) m) s'
      ∧ Fresh b sys k bs p m s' := by
  obtain ⟨h1, h2, h3, h4, h5, h6, h7, h8⟩ := h
  simp only [Nat.succ_ne_zero, if_false, Nat.add_sub_cancel] at h7
  have ha : s.availableBlocks ≠ 0 := by
    have := blockAddress_ge b bs (sys p) m
    rw [h7]; omega
  have hres := allocateBlock_of_available b sys s ha
  rw [h7] at hres
  refine ⟨_, hres, h1, h2, h3, h4, ?_, by omega, ?_, h8⟩
  · show (s.blocksRemaining + uintRange - 1) % uintRange = m
    rw [h5]; simp only [uintRange] at hkr ⊢; omega
  · show loadBytes s.mem (blockAddress b bs (sys p) m) b.sizeofPtr = _
    rw [h8 m (by omega)]

theorem fresh_grow (b : Build) (sys : Nat → Nat) (k bs p : Nat) (s : State)
    (hk : 0 < k) (hkr : k < uintRange) (hptr : 0 < b.sizeofPtr) (hbs : b.sizeofPtr ≤ bs)
    (hok : PageOk b sys k bs (p + 1))
    (h : Fresh b sys k bs p 0 s) :
    ∃ s', allocateBlock b sys s = .ok (blockAddress b bs (sys (p + 1)) (k - 1)) s'
      ∧ Fresh b sys k bs (p + 1) (k - 1) s' := by
  obtain ⟨h1, h2, h3, h4, h5, _, h7, _⟩ := h
  simp only [if_true] at h7
  obtain ⟨j, hj⟩ : ∃ j, k = j + 1 := ⟨k - 1, by omega⟩
  have hjk : s.blocksPerPage = j + 1 := by rw [h1, hj]
  have hbs' : b.sizeofPtr ≤ s.blockSize := by rw [h2]; exact hbs
  have hfit : sys (p + 1) + pageExtent b s.blockSize s.blocksPerPage ≤ 256 ^ b.sizeofPtr := by
    rw [h1, h2]; exact hok.2
  have hav := linkPage_avail b s (sys (p + 1)) j hjk
  have hav0 : (linkPage b s (sys s.requested.length)).availableBlocks ≠ 0 := by
    have := blockAddress_ge b s.blockSize (sys (p + 1)) j
    rw [h3, hav]; omega
  have hres := allocateBlock_of_empty b sys s h7 (by rw [h3]; exact hok.1) hav0
  have hlinks := linkPage_links_exact b s (sys (p + 1)) hptr hbs' h7 hfit
  rw [h3] at hres
  rw [hav, h2] at hres
  have hkj : k - 1 = j := by omega
  rw [hkj]
  refine ⟨_, hres, h1, h2, ?_, ?_, ?_, by omega, ?_, ?_⟩
  · show (pageAllocationSize b s :: s.requested).length = p + 1 + 1
    rw [List.length_cons, h3]
  · show (s.numberOfPages + 1) % uintRange = (p + 1 + 1) % uintRange
    rw [h4, Nat.add_mod, Nat.mod_mod, ← Nat.add_mod]
  · show ((s.blocksRemaining + s.blocksPerPage) % uintRange + uintRange - 1) % uintRange = j
    rw [h5, h1, Nat.zero_add, Nat.mod_eq_of_lt hkr]
    simp only [uintRange] at hkr ⊢; omega
  · show loadBytes (linkPage b s (sys (p + 1))).mem (blockAddress b bs (sys (p + 1)) j)
      b.sizeofPtr = _
    have := hlinks j (by omega)
    rw [h2] at this
    rw [this]
  · intro i hi
    have := hlinks i (by omega)
    rw [h2] at this
    exact this

theorem allocateBlocks_succ_of_ok (b : Build) (sys : Nat → Nat) (n : Nat) (s s1 s2 : State)
    (a : Nat) (as : List Nat)
    (h1 : allocateBlock b sys s = .ok a s1) (h2 : allocateBlocks b sys n s1 = .ok as s2) :
    allocateBlocks b sys (n + 1) s = .ok (a :: as) s2 := by
  simp [allocateBlocks, h1, h2, Res.andThen]

theorem allocateBlocks_add_of_ok (b : Build) (sys : Nat → Nat) (m : Nat) :
    ∀ (n : Nat) (s s1 s2 : State) (as bs : List Nat),
      allocateBlocks b sys n s = .ok as s1 → allocateBlocks b sys m s1 = .ok bs s2 →
      allocateBlocks b sys (n + m) s = .ok (as ++ bs) s2 := by
  intro n
  induction n with
  | zero =>
    intro s s1 s2 as bs h1 h2
    simp only [allocateBlocks] at h1
    injection h1 with e1 e2
    subst e1; subst e2
    simpa using h2
  | succ n ih =>
    intro s s1 s2 as bs h1 h2
    simp only [allocateBlocks] at h1
    cases hstep : allocateBlock b sys s with
    | ok a t =>
      rw [hstep] at h1
      simp only [Res.andThen] at h1
      cases hrest : allocateBlocks b sys n t with
      | ok cs u =>
        rw [hrest] at h1
        simp only [Res.andThen] at h1
        injection h1 with e1 e2
        subst e1; subst e2
        have := ih t u s2 cs bs hrest h2
        have e : n + 1 + m = (n + m) + 1 := by omega
        rw [e]
        exact allocateBlocks_succ_of_ok b sys (n + m) s t s2 a (cs ++ bs) hstep this
      | raise e u => rw [hrest] at h1; simp [Res.andThen] at h1
      | undefinedBehaviour => rw [hrest] at h1; simp [Res.andThen] at h1
      | outOfFuel => rw [hrest] at h1; simp [Res.andThen] at h1
    | raise e u => rw [hstep] at h1; simp [Res.andThen] at h1
    | undefinedBehaviour => rw [hstep] at h1; simp [Res.andThen] at h1
    | outOfFuel => rw [hstep] at h1; simp [Res.andThen] at h1

theorem fresh_pops (b : Build) (sys : Nat → Nat) (k bs p : Nat)
    (hkr : k < uintRange) (hptr : 0 < b.sizeofPtr) :
    ∀ (n m : Nat) (s : State), Fresh b sys k bs p (m + n) s →
      ∃ as s', allocateBlocks b sys n s = .ok as s' ∧ Fresh b sys k bs p m s' := by
  intro n
  induction n with
  | zero => intro m s h; exact ⟨[], s, rfl, h⟩
  | succ n ih =>
    intro m s h
    obtain ⟨s1, h1, hf1⟩ := fresh_pop b sys k bs p (m + n) s hkr hptr h
    obtain ⟨as, s2, h2, hf2⟩ := ih m s1 hf1
    exact ⟨_, s2, allocateBlocks_succ_of_ok b sys n s s1 s2 _ as h1 h2, hf2⟩

theorem fresh_numberOfPages (b : Build) (sys : Nat → Nat) (k bs p m : Nat) (s : State)
    (h : Fresh b sys k bs p m s) (hp : p + 1 < uintRange) : getNumberOfPages s = p + 1 := by
  obtain ⟨_, _, _, h4, _⟩ := h
  rw [getNumberOfPages, h4]
  exact Nat.mod_eq_of_lt hp

/-- C7: for every capacity `k > 0`, starting from a freshly constructed pool
(element size fitting an `unsigned int`, `malloc` returning non-null pages that
fit the address space) and only calling `allocateBlock`: after `k` calls
`getNumberOfPages()` is 1, after `k + 1` calls it is 2, after `2 * k + 1` calls
it is 3, and every one of these calls returns. -/
theorem page_growth (b : Build) (sys : Nat → Nat) (mem : Memory) (k : Nat)
    (hk : 0 < k) (hkr : k < uintRange) (hptr : 0 < b.sizeofPtr)
    (hsize : max b.sizeofT b.sizeofPtr < uintRange)
    (hok : ∀ n ≤ 2, PageOk b sys k (max b.sizeofT b.sizeofPtr) n) :
    ∃ s0, construct b sys mem k = .ok () s0
      ∧ (∃ as s, allocateBlocks b sys k s0 = .ok as s ∧ getNumberOfPages s = 1)
      ∧ (∃ as s, allocateBlocks b sys (k + 1) s0 = .ok as s ∧ getNumberOfPages s = 2)
      ∧ (∃ as s, allocateBlocks b sys (2 * k + 1) s0 = .ok as s ∧ getNumberOfPages s = 3) := by
  have hbs : b.sizeofPtr ≤ max b.sizeofT b.sizeofPtr := Nat.le_max_right _ _
  have hr : (3 : Nat) < uintRange := by decide
  obtain ⟨s0, hc, hf0⟩ := construct_fresh b sys mem k hk hkr hptr hsize (hok 0 (by omega))
  obtain ⟨as1, s1, h1, hf1⟩ := fresh_pops b sys k _ 0 hkr hptr k 0 s0 (by simpa using hf0)
  obtain ⟨s2, h2, hf2⟩ := fresh_grow b sys k _ 0 s1 hk hkr hptr hbs (hok 1 (by omega)) hf1
  have h2' : allocateBlocks b sys 1 s1 = .ok [_] s2 :=
    allocateBlocks_succ_of_ok b sys 0 s1 s2 s2 _ [] h2 rfl
  have h12 := allocateBlocks_add_of_ok b sys 1 k s0 s1 s2 as1 _ h1 h2'
  obtain ⟨as3, s3, h3, hf3⟩ := fresh_pops b sys k _ 1 hkr hptr (k - 1) 0 s2 (by simpa using hf2)
  obtain ⟨s4, h4, hf4⟩ := fresh_grow b sys k _ 1 s3 hk hkr hptr hbs (hok 2 (by omega)) hf3
  have h4' : allocateBlocks b sys 1 s3 = .ok [_] s4 :=
    allocateBlocks_succ_of_ok b sys 0 s3 s4 s4 _ [] h4 rfl
  have h123 := allocateBlocks_add_of_ok b sys (k - 1) (k + 1) s0 s2 s3 _ as3 h12 h3
  have h1234 := allocateBlocks_add_of_ok b sys 1 (k + 1 + (k - 1)) s0 s3 s4 _ _ h123 h4'
  have e : k + 1 + (k - 1) + 1 = 2 * k + 1 := by omega
  rw [e] at h1234
  refine ⟨s0, hc, ⟨as1, s1, h1, ?_⟩, ⟨_, s2, h12, ?_⟩, ⟨_, s4, h1234, ?_⟩⟩
  · exact fresh_numberOfPages b sys k _ 0 0 s1 hf1 (by omega)
  · exact fresh_numberOfPages b sys k _ 1 (k - 1) s2 hf2 (by omega)
  · exact fresh_numberOfPages b sys k _ 2 (k - 1) s4 hf4 (by omega)

/-- C7 exercised for capacity 5 of a 4-byte element, as in the test
"Multiple Page Allocation". -/
theorem page_growth_witness :
    ∃ s0, construct demoBuild demoSys (fun _ => 0) 5 = .ok () s0
      ∧ (∃ as s, allocateBlocks demoBuild demoSys 5 s0 = .ok as s ∧ getNumberOfPages s = 1)
      ∧ (∃ as s, allocateBlocks demoBuild demoSys (5 + 1) s0 = .ok as s
          ∧ getNumberOfPages s = 2)
      ∧ (∃ as s, allocateBlocks demoBuild demoSys (2 * 5 + 1) s0 = .ok as s
          ∧ getNumberOfPages s = 3) :=
  page_growth demoBuild demoSys (fun _ => 0) 5 (by decide) (by decide) (by decide) (by decide)
    (by decide)

/-! ## Distinct addresses -/

theorem blockAddress_inj_index (b : Build) (bs page i j : Nat) (hbs : 0 < bs)
    (h : blockAddress b bs page i = blockAddress b bs page j) : i = j := by
  rcases Nat.lt_trichotomy i j with hlt | heq | hgt
  · have := blockAddress_lt_of_lt b bs page i j hlt; omega
  · exact heq
  · have := blockAddress_lt_of_lt b bs page j i hgt; omega

theorem blockAddress_ne_of_apart (b : Build) (bs k p q i j : Nat) (hbs : 0 < bs)
    (hi : i < k) (hj : j < k)
    (hapart : p + pageExtent b bs k ≤ q ∨ q + pageExtent b bs k ≤ p) :
    blockAddress b bs p i ≠ blockAddress b bs q j := by
  have h1 := blockAddress_end_le b bs p k i hi
  have h2 := blockAddress_end_le b bs q k j hj
  have h3 := blockAddress_ge b bs p i
  have h4 := blockAddress_ge b bs q j
  omega

theorem fresh_run_distinct (b : Build) (sys : Nat → Nat) (k bs : Nat)
    (hk : 0 < k) (hkr : k < uintRange) (hptr : 0 < b.sizeofPtr) (hbs : b.sizeofPtr ≤ bs) :
    ∀ (n p m : Nat) (s : State), Fresh b sys k bs p m s →
      (∀ i, p < i → i ≤ p + n → PageOk b sys k bs i) →
      (∀ i j, p ≤ i → i ≤ p + n → p ≤ j → j ≤ p + n → i ≠ j → PagesApart b sys k bs i j) →
      ∃ as s', allocateBlocks b sys n s = .ok as s' ∧ as.length = n ∧ as.Nodup
        ∧ ∀ a ∈ as, (∃ i < m, a = blockAddress b bs (sys p) i)
            ∨ (∃ q, p < q ∧ q ≤ p + n ∧ ∃ i < k, a = blockAddress b bs (sys q) i) := by
  intro n
  induction n with
  | zero => intro p m s _ _ _; exact ⟨[], s, rfl, rfl, List.nodup_nil, by simp⟩
  | succ n ih =>
    intro p m s hf hok hapart
    have hbs0 : 0 < bs := by omega
    have hmk : m ≤ k := hf.2.2.2.2.2.1
    cases m with
    | zero =>
      obtain ⟨s1, h1, hf1⟩ := fresh_grow b sys k bs p s hk hkr hptr hbs
        (hok (p + 1) (by omega) (by omega)) hf
      obtain ⟨as, s2, h2, hlen, hnd, hmem⟩ := ih (p + 1) (k - 1) s1 hf1
        (fun i hi1 hi2 => hok i (by omega) (by omega))
        (fun i j hi1 hi2 hj1 hj2 hij =>
          hapart i j (by omega) (by omega) (by omega) (by omega) hij)
      refine ⟨_, s2, allocateBlocks_succ_of_ok b sys n s s1 s2 _ as h1 h2, by simp [hlen],
        ?_, ?_⟩
      · refine List.nodup_cons.mpr ⟨?_, hnd⟩
        intro hin
        rcases hmem _ hin with ⟨i, hi, he⟩ | ⟨q, hq1, hq2, i, hi, he⟩
        · have := blockAddress_inj_index b bs (sys (p + 1)) (k - 1) i hbs0 he
          omega
        · exact blockAddress_ne_of_apart b bs k (sys (p + 1)) (sys q) (k - 1) i hbs0
            (by omega) hi (hapart (p + 1) q (by omega) (by omega) (by omega) (by omega)
              (by omega)) he
      · intro a ha
        rcases List.mem_cons.mp ha with he | hin
        · exact Or.inr ⟨p + 1, by omega, by omega, k - 1, by omega, he⟩
        · rcases hmem a hin with ⟨i, hi, he⟩ | ⟨q, hq1, hq2, i, hi, he⟩
          · exact Or.inr ⟨p + 1, by omega, by omega, i, by omega, he⟩
          · exact Or.inr ⟨q, by omega, by omega, i, hi, he⟩
    | succ m =>
      obtain ⟨s1, h1, hf1⟩ := fresh_pop b sys k bs p m s hkr hptr hf
      obtain ⟨as, s2, h2, hlen, hnd, hmem⟩ := ih p m s1 hf1
        (fun i hi1 hi2 => hok i (by omega) (by omega))
        (fun i j hi1 hi2 hj1 hj2 hij =>
          hapart i j (by omega) (by omega) (by omega) (by omega) hij)
      refine ⟨_, s2, allocateBlocks_succ_of_ok b sys n s s1 s2 _ as h1 h2, by simp [hlen],
        ?_, ?_⟩
      · refine List.nodup_cons.mpr ⟨?_, hnd⟩
        intro hin
        rcases hmem _ hin with ⟨i, hi, he⟩ | ⟨q, hq1, hq2, i, hi, he⟩
        · have := blockAddress_inj_index b bs (sys p) m i hbs0 he
          omega
        · exact blockAddress_ne_of_apart b bs k (sys p) (sys q) m i hbs0
            (by omega) hi (hapart p q (by omega) (by omega) (by omega) (by omega)
              (by omega)) he
      · intro a ha
        rcases List.mem_cons.mp ha with he | hin
        · exact Or.inl ⟨m, by omega, he⟩
        · rcases hmem a hin with ⟨i, hi, he⟩ | ⟨q, hq1, hq2, i, hi, he⟩
          · exact Or.inl ⟨i, by omega, he⟩
          · exact Or.inr ⟨q, by omega, by omega, i, hi, he⟩

/-- C5: for every capacity `k > 0` and every `n`, starting from a freshly
constructed pool (element size fitting an `unsigned int`) and calling
`allocateBlock` `n` times with no `freeBlock` in between, all `n` calls return and
the `n` addresses are pairwise distinct, provided the pages handed out by
`malloc` are non-null, fit the address space and do not overlap each other. -/
theorem allocateBlocks_distinct (b : Build) (sys : Nat → Nat) (mem : Memory) (k n : Nat)
    (hk : 0 < k) (hkr : k < uintRange) (hptr : 0 < b.sizeofPtr)
    (hsize : max b.sizeofT b.sizeofPtr < uintRange)
    (hok : ∀ i ≤ n, PageOk b sys k (max b.sizeofT b.sizeofPtr) i)
    (hapart : ∀ i ≤ n, ∀ j ≤ n, i ≠ j → PagesApart b sys k (max b.sizeofT b.sizeofPtr) i j) :
    ∃ s0 as s, construct b sys mem k = .ok () s0
      ∧ allocateBlocks b sys n s0 = .ok as s ∧ as.length = n ∧ as.Nodup := by
  obtain ⟨s0, hc, hf0⟩ := construct_fresh b sys mem k hk hkr hptr hsize (hok 0 (by omega))
  obtain ⟨as, s, h, hlen, hnd, _⟩ := fresh_run_distinct b sys k _ hk hkr hptr
    (Nat.le_max_right _ _) n 0 k s0 hf0
    (fun i _ hi2 => hok i (by omega))
    (fun i j _ hi2 _ hj2 hij => hapart i (by omega) j (by omega) hij)
  exact ⟨s0, as, s, hc, h, hlen, hnd⟩

/-- C5 exercised for capacity 3 and 7 allocations, which span three pages. -/
theorem allocateBlocks_distinct_witness :
    ∃ s0 as s, construct demoBuild demoSys (fun _ => 0) 3 = .ok () s0
      ∧ allocateBlocks demoBuild demoSys 7 s0 = .ok as s ∧ as.length = 7 ∧ as.Nodup :=
  allocateBlocks_distinct demoBuild demoSys (fun _ => 0) 3 7 (by decide) (by decide)
    (by decide) (by decide) (by decide) (by decide)

/-! ## freeBlock -/

theorem fullBlockSize_eq (s : State) (h : s.blockSize + sizeofPadding < uintRange) :
    fullBlockSize s = s.blockSize + sizeofPadding :=
  Nat.mod_eq_of_lt h

theorem validateBlockLocationLoop_spec (b : Build) (s : State) (a : Nat)
    (hfull : fullBlockSize s ≠ 0) :
    ∀ (pages : List Nat) (page : Nat) (found : Bool) (fuel : Nat),
      IsChain s.mem b.sizeofPtr page pages →
      (validateBlockLocationLoop b s a fuel found page = .outOfFuel
        ∨ validateBlockLocationLoop b s a fuel found page
            = .ok (found || pages.any (locationMatches b s a)) s)
      ∧ (pages.length ≤ fuel → validateBlockLocationLoop b s a fuel found page
            = .ok (found || pages.any (locationMatches b s a)) s) := by
  intro pages
  induction pages with
  | nil =>
    intro page found fuel h
    have hp : page = 0 := h
    have : validateBlockLocationLoop b s a fuel found page = .ok found s := by
      cases fuel <;> simp [validateBlockLocationLoop, hp]
    simp [this]
  | cons x xs ih =>
    intro page found fuel h
    obtain ⟨hx, hx0, htl⟩ := h
    subst hx
    cases found with
    | true =>
      have : validateBlockLocationLoop b s a fuel true page = .ok true s := by
        cases fuel <;> simp [validateBlockLocationLoop]
      simp [this]
    | false =>
      cases fuel with
      | zero => simp [validateBlockLocationLoop, hx0]
      | succ fuel =>
        have hstep : validateBlockLocationLoop b s a (fuel + 1) false page
            = validateBlockLocationLoop b s a fuel (locationMatches b s a page)
                (loadBytes s.mem page b.sizeofPtr) := by
          simp [validateBlockLocationLoop, hx0, hfull]
        obtain ⟨h1, h2⟩ := ih (loadBytes s.mem page b.sizeofPtr)
          (locationMatches b s a page) fuel htl
        rw [hstep]
        simp only [List.any_cons, Bool.false_or, List.length_cons]
        exact ⟨h1, fun hlen => h2 (by omega)⟩

theorem validateMultiFreeLoop_spec (b : Build) (s : State) (a : Nat) (ha : a ≠ 0) :
    ∀ (l : List Nat) (pList : Nat) (fuel : Nat),
      IsChain s.mem b.sizeofPtr pList l →
      (validateMultiFreeLoop b s a fuel pList = .outOfFuel
        ∨ validateMultiFreeLoop b s a fuel pList = .ok (if a ∈ l then a else 0) s)
      ∧ (l.length ≤ fuel →
          validateMultiFreeLoop b s a fuel pList = .ok (if a ∈ l then a else 0) s) := by
  intro l
  induction l with
  | nil =>
    intro pList fuel h
    have hp : pList = 0 := h
    have : validateMultiFreeLoop b s a fuel pList = .ok 0 s := by
      cases fuel <;> simp [validateMultiFreeLoop, hp]
    simp [this]
  | cons x xs ih =>
    intro pList fuel h
    obtain ⟨hx, hx0, htl⟩ := h
    subst hx
    by_cases hxa : pList = a
    · subst hxa
      have : validateMultiFreeLoop b s pList fuel pList = .ok pList s := by
        cases fuel <;> simp [validateMultiFreeLoop]
      simp [this]
    · have hmem : (a ∈ pList :: xs) ↔ a ∈ xs := by
        simp [List.mem_cons, Ne.symm hxa]
      cases fuel with
      | zero => simp [validateMultiFreeLoop, hx0, hxa]
      | succ fuel =>
        have hstep : validateMultiFreeLoop b s a (fuel + 1) pList
            = validateMultiFreeLoop b s a fuel (loadBytes s.mem pList b.sizeofPtr) := by
          simp [validateMultiFreeLoop, hx0, hxa]
        obtain ⟨h1, h2⟩ := ih (loadBytes s.mem pList b.sizeofPtr) fuel htl
        rw [hstep]
        simp only [hmem, List.length_cons]
        exact ⟨h1, fun hlen => h2 (by omega)⟩

theorem validateMemoryCorruption_eq (s : State) (a : Nat) :
    validateMemoryCorruption s a
      = if GuardsIntact s a then .ok () s else .raise .memoryCorruptionMsg s := by
  unfold validateMemoryCorruption GuardsIntact
  by_cases h1 : loadBytes s.mem (a - sizeofPadding) sizeofPadding = paddingSignature
  · by_cases h2 : loadBytes s.mem (a - sizeofPadding + fullBlockSize s) sizeofPadding
        = paddingSignature
    · simp [h1, h2]
    · simp [h1, h2]
  · simp [h1]

theorem freeBlock_null (b : Build) (fuel : Nat) (s : State) :
    freeBlock b fuel s 0 = .ok () s := by
  simp [freeBlock]

theorem freeBlock_unvalidated (b : Build) (fuel : Nat) (s : State) (a : Nat)
    (hv : b.validations = false) (ha : a ≠ 0) :
    freeBlock b fuel s a = .ok () (pushBlock b s a) := by
  simp [freeBlock, ha, hv, Res.andThen]

theorem freeBlock_after_location (b : Build) (s : State) (a fuel : Nat)
    (hv : b.validations = true) (ha : a ≠ 0) :
    ∀ (r : Bool),
      validateBlockLocationLoop b s a fuel false s.memoryPages = .ok r s →
      freeBlock b fuel s a =
        if r = false then .raise .invalidFreedAddressMsg s
        else if ¬ GuardsIntact s a then .raise .memoryCorruptionMsg s
        else (validateMultiFreeLoop b s a fuel s.availableBlocks).andThen fun pList s1 =>
          if pList ≠ 0 then .raise .duplicateFreeMsg s1 else .ok () (pushBlock b s1 a) := by
  intro r hr
  cases r with
  | false =>
    simp [freeBlock, ha, hv, validateBlockLocation, hr, Res.andThen]
  | true =>
    by_cases hg : GuardsIntact s a
    · have e1 : validateBlockLocation b fuel s a = .ok () s := by
        simp [validateBlockLocation, hr, Res.andThen]
      have e2 : validateMemoryCorruption s a = .ok () s := by
        rw [validateMemoryCorruption_eq, if_pos hg]
      unfold freeBlock
      rw [if_neg ha, if_pos hv, e1]
      simp only [Res.andThen, e2, validateMultiFree]
      cases validateMultiFreeLoop b s a fuel s.availableBlocks with
      | ok v t => by_cases hv0 : v = 0 <;> simp [hg, hv0]
      | raise e t => simp [hg]
      | undefinedBehaviour => simp [hg]
      | outOfFuel => simp [hg]
    · simp [freeBlock, ha, hv, validateBlockLocation, hr, Res.andThen,
        validateMemoryCorruption_eq, hg]

theorem freeBlock_validated (b : Build) (s : State) (a : Nat) (pages l : List Nat)
    (hv : b.validations = true) (ha : a ≠ 0) (hfull : fullBlockSize s ≠ 0)
    (hpages : IsChain s.mem b.sizeofPtr s.memoryPages pages)
    (hl : IsChain s.mem b.sizeofPtr s.availableBlocks l) (fuel : Nat) :
    (freeBlock b fuel s a = .outOfFuel
      ∨ freeBlock b fuel s a = freeBlockChecked b s a pages l)
    ∧ (pages.length ≤ fuel → l.length ≤ fuel →
        freeBlock b fuel s a = freeBlockChecked b s a pages l) := by
  obtain ⟨p1, p2⟩ := validateBlockLocationLoop_spec b s a hfull pages s.memoryPages false fuel
    hpages
  obtain ⟨m1, m2⟩ := validateMultiFreeLoop_spec b s a ha l s.availableBlocks fuel hl
  simp only [Bool.false_or] at p1 p2
  have key := freeBlock_after_location b s a fuel hv ha
  have fin : ∀ (r : Bool),
      validateBlockLocationLoop b s a fuel false s.memoryPages = .ok r s →
      r = pages.any (locationMatches b s a) →
      validateMultiFreeLoop b s a fuel s.availableBlocks = .ok (if a ∈ l then a else 0) s →
      freeBlock b fuel s a = freeBlockChecked b s a pages l := by
    intro r hr hre hq
    rw [key r hr, hq, freeBlockChecked, ← hre]
    cases r with
    | false => simp
    | true =>
      by_cases hg : GuardsIntact s a
      · by_cases hmem : a ∈ l
        · simp [hg, hmem, ha, Res.andThen]
        · simp [hg, hmem, Res.andThen]
      · simp [hg]
  constructor
  · rcases p1 with p1 | p1
    · left
      simp [freeBlock, ha, hv, validateBlockLocation, p1, Res.andThen]
    · rcases m1 with m1 | m1
      · have h := key _ p1
        rw [m1] at h
        cases hr : pages.any (locationMatches b s a) with
        | false =>
          right
          rw [h, freeBlockChecked, hr]; simp
        | true =>
          by_cases hg : GuardsIntact s a
          · left
            rw [h, hr]; simp [hg, Res.andThen]
          · right
            rw [h, freeBlockChecked, hr]; simp [hg]
      · right
        exact fin _ p1 rfl m1
  · intro h1 h2
    exact fin _ (p2 h1) rfl (m2 h2)

theorem locationMatches_iff (b : Build) (s : State) (a page : Nat)
    (hfull : s.blockSize + sizeofPadding < uintRange) :
    locationMatches b s a page = true ↔
      ∃ j, j < s.blocksPerPage
        ∧ a = page + b.sizeofPtr + sizeofPadding + j * (s.blockSize + sizeofPadding) := by
  have hf : 0 < s.blockSize + sizeofPadding := by simp [sizeofPadding]
  unfold locationMatches blockDistance
  rw [fullBlockSize_eq s hfull]
  simp only [Bool.and_eq_true, decide_eq_true_eq]
  by_cases h : page + b.sizeofPtr + sizeofPadding ≤ a
  · obtain ⟨n, hn⟩ := Nat.exists_eq_add_of_le h
    have hd : ((a : Nat) : Int) - ((page + b.sizeofPtr + sizeofPadding : Nat) : Int)
        = ((n : Nat) : Int) := by
      rw [hn]; push_cast; ring
    rw [hd]
    constructor
    · rintro ⟨⟨_, h2⟩, h3⟩
      have h2' : n / (s.blockSize + sizeofPadding) < s.blocksPerPage := by exact_mod_cast h2
      have h3' : n % (s.blockSize + sizeofPadding) = 0 := by exact_mod_cast h3
      refine ⟨n / (s.blockSize + sizeofPadding), h2', ?_⟩
      have := Nat.div_add_mod n (s.blockSize + sizeofPadding)
      rw [h3', Nat.add_zero, Nat.mul_comm] at this
      rw [hn, this]
    · rintro ⟨j, hj, he⟩
      have hnj : n = j * (s.blockSize + sizeofPadding) := by omega
      refine ⟨⟨by exact_mod_cast Nat.zero_le n, ?_⟩, ?_⟩
      · have : n / (s.blockSize + sizeofPadding) < s.blocksPerPage := by
          rw [hnj, Nat.mul_div_cancel _ hf]; exact hj
        exact_mod_cast this
      · have : n % (s.blockSize + sizeofPadding) = 0 := by
          rw [hnj, Nat.mul_mod_left]
        exact_mod_cast this
  · constructor
    · rintro ⟨⟨h1, _⟩, _⟩
      exfalso
      apply h
      have : ((page + b.sizeofPtr + sizeofPadding : Nat) : Int) ≤ ((a : Nat) : Int) := by omega
      exact_mod_cast this
    · rintro ⟨j, _, he⟩
      exfalso
      apply h
      rw [he]
      exact Nat.le_add_right _ _

theorem blockAddress_validated (b : Build) (bs page j : Nat) (hv : b.validations = true) :
    blockAddress b bs page j
      = page + b.sizeofPtr + sizeofPadding + j * (bs + sizeofPadding) := by
  simp [blockAddress, guardSize, hv]

theorem any_locationMatches_iff (b : Build) (s : State) (a : Nat) (pages : List Nat)
    (hfull : s.blockSize + sizeofPadding < uintRange) :
    pages.any (locationMatches b s a) = true ↔
      ∃ p ∈ pages, ∃ j, j < s.blocksPerPage
        ∧ a = p + b.sizeofPtr + sizeofPadding + j * (s.blockSize + sizeofPadding) := by
  rw [List.any_eq_true]
  constructor
  · rintro ⟨p, hp, h⟩
    exact ⟨p, hp, (locationMatches_iff b s a p hfull).mp h⟩
  · rintro ⟨p, hp, h⟩
    exact ⟨p, hp, (locationMatches_iff b s a p hfull).mpr h⟩

theorem validateBlockLocationLoop_cases (b : Build) (s : State) (a : Nat) :
    ∀ (fuel : Nat) (found : Bool) (page : Nat),
      validateBlockLocationLoop b s a fuel found page = .outOfFuel
      ∨ validateBlockLocationLoop b s a fuel found page = .undefinedBehaviour
      ∨ ∃ r, validateBlockLocationLoop b s a fuel found page = .ok r s := by
  intro fuel
  induction fuel with
  | zero =>
    intro found page
    by_cases h : found = true ∨ page = 0
    · exact Or.inr (Or.inr ⟨found, by simp [validateBlockLocationLoop, h]⟩)
    · exact Or.inl (by simp [validateBlockLocationLoop, h])
  | succ fuel ih =>
    intro found page
    by_cases h : found = true ∨ page = 0
    · exact Or.inr (Or.inr ⟨found, by simp [validateBlockLocationLoop, h]⟩)
    · by_cases hu : 0 ≤ blockDistance b a page ∧ fullBlockSize s = 0
      · exact Or.inr (Or.inl (by simp [validateBlockLocationLoop, h, hu]))
      · have hstep : validateBlockLocationLoop b s a (fuel + 1) found page
            = validateBlockLocationLoop b s a fuel (locationMatches b s a page)
                (loadBytes s.mem page b.sizeofPtr) := by
          simp only [validateBlockLocationLoop, if_neg h, if_neg hu]
        rw [hstep]
        exact ih _ _

theorem validateMultiFreeLoop_cases (b : Build) (s : State) (a : Nat) :
    ∀ (fuel : Nat) (pList : Nat),
      validateMultiFreeLoop b s a fuel pList = .outOfFuel
      ∨ ∃ q, validateMultiFreeLoop b s a fuel pList = .ok q s := by
  intro fuel
  induction fuel with
  | zero =>
    intro pList
    by_cases h : pList ≠ 0 ∧ pList ≠ a
    · exact Or.inl (by simp only [validateMultiFreeLoop, if_pos h])
    · exact Or.inr ⟨pList, by simp only [validateMultiFreeLoop, if_neg h]⟩
  | succ fuel ih =>
    intro pList
    by_cases h : pList ≠ 0 ∧ pList ≠ a
    · have hstep : validateMultiFreeLoop b s a (fuel + 1) pList
          = validateMultiFreeLoop b s a fuel (loadBytes s.mem pList b.sizeofPtr) := by
        simp only [validateMultiFreeLoop, if_pos h]
      rw [hstep]
      exact ih _
    · exact Or.inr ⟨pList, by simp only [validateMultiFreeLoop, if_neg h]⟩

theorem freeBlock_cases (b : Build) (fuel : Nat) (s : State) (a : Nat) (ha : a ≠ 0) :
    freeBlock b fuel s a = .outOfFuel
    ∨ freeBlock b fuel s a = .undefinedBehaviour
    ∨ (b.validations = true ∧ freeBlock b fuel s a = .raise .invalidFreedAddressMsg s)
    ∨ (b.validations = true ∧ freeBlock b fuel s a = .raise .memoryCorruptionMsg s)
    ∨ (b.validations = true ∧ freeBlock b fuel s a = .raise .duplicateFreeMsg s)
    ∨ freeBlock b fuel s a = .ok () (pushBlock b s a) := by
  cases hv : b.validations with
  | false =>
    exact Or.inr (Or.inr (Or.inr (Or.inr (Or.inr (freeBlock_unvalidated b fuel s a hv ha)))))
  | true =>
    rcases validateBlockLocationLoop_cases b s a fuel false s.memoryPages with h | h | ⟨r, h⟩
    · left
      simp [freeBlock, ha, hv, validateBlockLocation, h, Res.andThen]
    · right; left
      simp [freeBlock, ha, hv, validateBlockLocation, h, Res.andThen]
    · have key := freeBlock_after_location b s a fuel hv ha r h
      cases r with
      | false =>
        right; right; left
        exact ⟨rfl, by rw [key]; simp⟩
      | true =>
        by_cases hg : GuardsIntact s a
        · rcases validateMultiFreeLoop_cases b s a fuel s.availableBlocks with m | ⟨q, m⟩
          · left
            rw [key, m]; simp [hg, Res.andThen]
          · by_cases hq : q = 0
            · right; right; right; right; right
              rw [key, m]; simp [hg, Res.andThen, hq]
            · right; right; right; right; left
              exact ⟨rfl, by rw [key, m]; simp [hg, Res.andThen, hq]⟩
        · right; right; right; left
          exact ⟨rfl, by rw [key]; simp [hg]⟩

theorem freeBlock_raise_state (b : Build) (fuel : Nat) (s t : State) (a : Nat)
    (e : MemoryPoolException) (h : freeBlock b fuel s a = .raise e t) :
    t = s ∧ a ≠ 0 ∧ b.validations = true
      ∧ (e = .invalidFreedAddressMsg ∨ e = .memoryCorruptionMsg ∨ e = .duplicateFreeMsg) := by
  by_cases ha : a = 0
  · subst ha
    rw [freeBlock_null] at h
    cases h
  · rcases freeBlock_cases b fuel s a ha with c | c | ⟨hv, c⟩ | ⟨hv, c⟩ | ⟨hv, c⟩ | c
    · rw [c] at h; cases h
    · rw [c] at h; cases h
    · rw [c] at h; injection h with h1 h2
      exact ⟨h2.symm, ha, hv, Or.inl h1.symm⟩
    · rw [c] at h; injection h with h1 h2
      exact ⟨h2.symm, ha, hv, Or.inr (Or.inl h1.symm)⟩
    · rw [c] at h; injection h with h1 h2
      exact ⟨h2.symm, ha, hv, Or.inr (Or.inr h1.symm)⟩
    · rw [c] at h; cases h

theorem freeBlock_ok_state (b : Build) (fuel : Nat) (s t : State) (a : Nat) (ha : a ≠ 0)
    (h : freeBlock b fuel s a = .ok () t) : t = pushBlock b s a := by
  rcases freeBlock_cases b fuel s a ha with c | c | ⟨_, c⟩ | ⟨_, c⟩ | ⟨_, c⟩ | c
  · rw [c] at h; cases h
  · rw [c] at h; cases h
  · rw [c] at h; cases h
  · rw [c] at h; cases h
  · rw [c] at h; cases h
  · rw [c] at h; injection h with _ h2
    exact h2.symm

theorem pushBlock_mem (b : Build) (s : State) (a : Nat) :
    (pushBlock b s a).mem = storeBytes s.mem a b.sizeofPtr s.availableBlocks := rfl

theorem pushBlock_blocksRemaining (b : Build) (s : State) (a : Nat) :
    (pushBlock b s a).blocksRemaining = (s.blocksRemaining + 1) % uintRange := rfl

theorem pushBlock_availableBlocks (b : Build) (s : State) (a : Nat) :
    (pushBlock b s a).availableBlocks = a := rfl

theorem pushBlock_link (b : Build) (s : State) (a : Nat)
    (hrepr : s.availableBlocks < 256 ^ b.sizeofPtr) :
    loadBytes (pushBlock b s a).mem a b.sizeofPtr = s.availableBlocks := by
  rw [pushBlock_mem, loadBytes_storeBytes_same, Nat.mod_eq_of_lt hrepr]

theorem pushBlock_keeps_chain (b : Build) (s : State) (a head : Nat) (l : List Nat)
    (hl : IsChain s.mem b.sizeofPtr head l)
    (hla : ∀ x ∈ l, x + b.sizeofPtr ≤ a ∨ a + b.sizeofPtr ≤ x) :
    IsChain (pushBlock b s a).mem b.sizeofPtr head l := by
  refine IsChain_congr s.mem _ _ l head ?_ hl
  intro x hx
  rw [pushBlock_mem, loadBytes_storeBytes_disjoint _ _ _ _ _ _ (by have := hla x hx; omega)]

theorem pushBlock_freeList (b : Build) (s : State) (a : Nat) (l : List Nat) (ha : a ≠ 0)
    (hrepr : s.availableBlocks < 256 ^ b.sizeofPtr)
    (hl : IsChain s.mem b.sizeofPtr s.availableBlocks l)
    (hla : ∀ x ∈ l, x + b.sizeofPtr ≤ a ∨ a + b.sizeofPtr ≤ x) :
    IsChain (pushBlock b s a).mem b.sizeofPtr (pushBlock b s a).availableBlocks (a :: l) := by
  refine ⟨rfl, ha, ?_⟩
  rw [pushBlock_link b s a hrepr]
  exact pushBlock_keeps_chain b s a _ l hl hla

theorem uint_succ_pred (n : Nat) (h : n < uintRange) :
    ((n + 1) % uintRange + uintRange - 1) % uintRange = n := by
  simp only [uintRange] at h ⊢
  omega

/-- C6 (counterexample): with validations disabled, on the two-block pool
`plainPool` whose available list is 4112, 4104, `freeBlock(4104)` succeeds and
the following `allocateBlock` returns 4104, but afterwards the available list is
no longer 4112, 4104: the link of 4104 now points back to 4112. -/
theorem free_then_allocate_breaks_list :
    ∃ s1 s2, IsChain plainPool.mem 8 plainPool.availableBlocks [4112, 4104]
      ∧ freeBlock plainBuild 0 plainPool 4104 = .ok () s1
      ∧ allocateBlock plainBuild demoSys s1 = .ok 4104 s2
      ∧ s2.availableBlocks = 4112
      ∧ loadBytes s2.mem 4112 8 = 4104 ∧ loadBytes s2.mem 4104 8 = 4112
      ∧ ¬ IsChain s2.mem 8 s2.availableBlocks [4112, 4104] :=
  ⟨_, _, by decide, rfl, rfl, by decide, by decide, by decide, by decide⟩

/-- C6 (amended): for every state and every non-null address `a` for which
`freeBlock(a)` succeeds, with validations enabled or disabled, provided the first
pointer-size bytes at `a` overlap no node of the available list and no page link,
the following `allocateBlock` returns exactly `a`, and afterwards the available
list, `blocksRemaining`, the page list and the page count are as before the
`freeBlock`; no page is requested. -/
theorem free_then_allocate (b : Build) (sys : Nat → Nat) (fuel : Nat) (s s1 : State)
    (a : Nat) (l pages : List Nat) (ha : a ≠ 0)
    (hfree : freeBlock b fuel s a = .ok () s1)
    (hl : IsChain s.mem b.sizeofPtr s.availableBlocks l)
    (hpages : IsChain s.mem b.sizeofPtr s.memoryPages pages)
    (hla : ∀ x ∈ l, x + b.sizeofPtr ≤ a ∨ a + b.sizeofPtr ≤ x)
    (hpa : ∀ q ∈ pages, q + b.sizeofPtr ≤ a ∨ a + b.sizeofPtr ≤ q)
    (hrepr : s.availableBlocks < 256 ^ b.sizeofPtr)
    (hbr : s.blocksRemaining < uintRange) :
    ∃ s2, allocateBlock b sys s1 = .ok a s2
      ∧ s2.availableBlocks = s.availableBlocks
      ∧ IsChain s2.mem b.sizeofPtr s2.availableBlocks l
      ∧ s2.blocksRemaining = s.blocksRemaining
      ∧ s2.memoryPages = s.memoryPages
      ∧ IsChain s2.mem b.sizeofPtr s2.memoryPages pages
      ∧ s2.numberOfPages = s.numberOfPages
      ∧ s2.requested = s.requested := by
  have hs1 := freeBlock_ok_state b fuel s s1 a ha hfree
  subst hs1
  have hav : (pushBlock b s a).availableBlocks ≠ 0 := ha
  have hlink := pushBlock_link b s a hrepr
  refine ⟨_, allocateBlock_of_available b sys (pushBlock b s a) hav, ?_, ?_, ?_, rfl, ?_,
    rfl, rfl⟩
  · exact hlink
  · show IsChain (pushBlock b s a).mem b.sizeofPtr
      (loadBytes (pushBlock b s a).mem (pushBlock b s a).availableBlocks b.sizeofPtr) l
    rw [pushBlock_availableBlocks, hlink]
    exact pushBlock_keeps_chain b s a _ l hl hla
  · show ((pushBlock b s a).blocksRemaining + uintRange - 1) % uintRange = s.blocksRemaining
    rw [pushBlock_blocksRemaining]
    exact uint_succ_pred _ hbr
  · exact pushBlock_keeps_chain b s a _ pages hpages hpa

/-- C6 (amended) exercised with validations disabled on `plainPool` after its
block 4112 has been handed out: freeing 4112 and allocating again returns 4112. -/
theorem free_then_allocate_witness :
    ∃ s2, allocateBlock plainBuild demoSys (pushBlock plainBuild plainTaken 4112) = .ok 4112 s2
      ∧ s2.availableBlocks = plainTaken.availableBlocks
      ∧ IsChain s2.mem 8 s2.availableBlocks [4104]
      ∧ s2.blocksRemaining = plainTaken.blocksRemaining
      ∧ s2.memoryPages = plainTaken.memoryPages
      ∧ IsChain s2.mem 8 s2.memoryPages [4096]
      ∧ s2.numberOfPages = plainTaken.numberOfPages
      ∧ s2.requested = plainTaken.requested :=
  free_then_allocate plainBuild demoSys 0 plainTaken (pushBlock plainBuild plainTaken 4112)
    4112 [4104] [4096] (by decide) rfl (by decide) (by decide) (by decide) (by decide)
    (by decide) (by decide)

theorem validateBlockLocation_eq (b : Build) (s : State) (a fuel : Nat) (pages : List Nat)
    (hsize : s.blockSize + sizeofPadding < uintRange)
    (hpages : IsChain s.mem b.sizeofPtr s.memoryPages pages) (hfuel : pages.length ≤ fuel) :
    validateBlockLocationLoop b s a fuel false s.memoryPages
        = .ok (pages.any (locationMatches b s a)) s
    ∧ validateBlockLocation b fuel s a
        = if pages.any (locationMatches b s a) = true then .ok () s
          else .raise .invalidFreedAddressMsg s := by
  have hfull : fullBlockSize s ≠ 0 := by
    rw [fullBlockSize_eq s hsize]; simp [sizeofPadding]
  have h := (validateBlockLocationLoop_spec b s a hfull pages s.memoryPages false fuel
    hpages).2 hfuel
  simp only [Bool.false_or] at h
  refine ⟨h, ?_⟩
  unfold validateBlockLocation
  rw [h]
  cases pages.any (locationMatches b s a) <;> simp [Res.andThen]

/-- C10: with validations enabled, for every non-null address `a` and every
state whose page list is `pages` (block size plus padding fitting an
`unsigned int`), given fuel for one iteration per page, the location check passes
exactly when `a = p + sizeof(Link) + 2 + j * (blockSize + 2)` for some page `p` of
the list and some `j < blocksPerPage`; when there is no such page and `j`,
`freeBlock(a)` throws `invalidFreedAddressMsg`, and when there is, it does not. -/
theorem location_check_iff (b : Build) (s : State) (a fuel : Nat) (pages : List Nat)
    (hv : b.validations = true) (ha : a ≠ 0)
    (hsize : s.blockSize + sizeofPadding < uintRange)
    (hpages : IsChain s.mem b.sizeofPtr s.memoryPages pages) (hfuel : pages.length ≤ fuel) :
    (validateBlockLocation b fuel s a = .ok () s ↔
      ∃ p ∈ pages, ∃ j, j < s.blocksPerPage
        ∧ a = p + b.sizeofPtr + sizeofPadding + j * (s.blockSize + sizeofPadding))
    ∧ ((¬ ∃ p ∈ pages, ∃ j, j < s.blocksPerPage
          ∧ a = p + b.sizeofPtr + sizeofPadding + j * (s.blockSize + sizeofPadding)) →
        validateBlockLocation b fuel s a = .raise .invalidFreedAddressMsg s
        ∧ freeBlock b fuel s a = .raise .invalidFreedAddressMsg s)
    ∧ ((∃ p ∈ pages, ∃ j, j < s.blocksPerPage
          ∧ a = p + b.sizeofPtr + sizeofPadding + j * (s.blockSize + sizeofPadding)) →
        freeBlock b fuel s a ≠ .raise .invalidFreedAddressMsg s) := by
  obtain ⟨hloop, hval⟩ := validateBlockLocation_eq b s a fuel pages hsize hpages hfuel
  have hiff := any_locationMatches_iff b s a pages hsize
  have key := freeBlock_after_location b s a fuel hv ha _ hloop
  refine ⟨?_, ?_, ?_⟩
  · rw [← hiff, hval]
    cases pages.any (locationMatches b s a) <;> simp
  · intro hno
    have hf : pages.any (locationMatches b s a) = false := by
      cases h : pages.any (locationMatches b s a) with
      | false => rfl
      | true => exact absurd (hiff.mp h) hno
    refine ⟨by rw [hval, hf]; simp, ?_⟩
    rw [key, hf]; simp
  · intro hyes
    have ht := hiff.mpr hyes
    rw [key, ht]
    by_cases hg : GuardsIntact s a
    · simp only [hg, not_true_eq_false, if_false, Bool.true_eq_false]
      rcases validateMultiFreeLoop_cases b s a fuel s.availableBlocks with m | ⟨q, m⟩
      · rw [m]; simp [Res.andThen]
      · rw [m]
        by_cases hq : q = 0 <;> simp [Res.andThen, hq]
    · simp [hg]

/-- C10 exercised on the fresh pool `demoPool` with the address `0x12345678`
of the test "Invalid Block Address Random", which lies in no page. -/
theorem location_check_iff_witness :
    freeBlock demoBuild 1 demoPool 0x12345678 = .raise .invalidFreedAddressMsg demoPool :=
  ((location_check_iff demoBuild demoPool 0x12345678 1 [4096] (by decide) (by decide)
    (by decide) (by decide) (by decide)).2.1 (by decide)).2

theorem validateMultiFreeLoop_head (b : Build) (s : State) (a fuel : Nat) :
    validateMultiFreeLoop b s a fuel a = .ok a s := by
  cases fuel <;> simp [validateMultiFreeLoop]

theorem locationMatches_pushBlock (b : Build) (s : State) (a x p : Nat) :
    locationMatches b (pushBlock b s a) x p = locationMatches b s x p := rfl

theorem fullBlockSize_pushBlock (b : Build) (s : State) (a : Nat) :
    fullBlockSize (pushBlock b s a) = fullBlockSize s := rfl

theorem pushBlock_guards (b : Build) (s : State) (a : Nat)
    (hptr : b.sizeofPtr ≤ s.blockSize) (hsize : s.blockSize + sizeofPadding < uintRange)
    (ha : sizeofPadding ≤ a) (hg : GuardsIntact s a) : GuardsIntact (pushBlock b s a) a := by
  unfold GuardsIntact at hg ⊢
  rw [fullBlockSize_pushBlock, pushBlock_mem, fullBlockSize_eq s hsize] at *
  rw [loadBytes_storeBytes_disjoint _ _ _ _ _ _ (by omega),
    loadBytes_storeBytes_disjoint _ _ _ _ _ _ (by omega)]
  exact hg

theorem freeBlock_ok_checks (b : Build) (s s1 : State) (a fuel : Nat) (pages : List Nat)
    (hv : b.validations = true) (ha : a ≠ 0)
    (hsize : s.blockSize + sizeofPadding < uintRange)
    (hpages : IsChain s.mem b.sizeofPtr s.memoryPages pages)
    (h : freeBlock b fuel s a = .ok () s1) :
    pages.any (locationMatches b s a) = true ∧ GuardsIntact s a := by
  have hfull : fullBlockSize s ≠ 0 := by
    rw [fullBlockSize_eq s hsize]; simp [sizeofPadding]
  have p1 := (validateBlockLocationLoop_spec b s a hfull pages s.memoryPages false fuel
    hpages).1
  simp only [Bool.false_or] at p1
  rcases p1 with p1 | p1
  · have : freeBlock b fuel s a = .outOfFuel := by
      simp [freeBlock, ha, hv, validateBlockLocation, p1, Res.andThen]
    rw [this] at h; cases h
  · have key := freeBlock_after_location b s a fuel hv ha _ p1
    rw [key] at h
    cases hany : pages.any (locationMatches b s a) with
    | false => rw [hany] at h; simp at h
    | true =>
      refine ⟨rfl, ?_⟩
      by_contra hg
      rw [hany] at h
      simp [hg] at h

/-- C9: with validations enabled, in a state whose page list is `pages` (block
size at least a pointer and, with the padding, fitting an `unsigned int`), for
every non-null block `a` whose link bytes overlap no page link: if a first
`freeBlock(a)` succeeds, then a second `freeBlock(a)` issued immediately
afterwards, with fuel for one iteration per page, throws `duplicateFreeMsg` and
leaves the state as the first call left it. -/
theorem double_free_detected (b : Build) (s s1 : State) (a fuel fuel' : Nat)
    (pages : List Nat) (hv : b.validations = true) (ha : a ≠ 0)
    (hptr : b.sizeofPtr ≤ s.blockSize) (hsize : s.blockSize + sizeofPadding < uintRange)
    (hpages : IsChain s.mem b.sizeofPtr s.memoryPages pages)
    (hpa : ∀ q ∈ pages, q + b.sizeofPtr ≤ a ∨ a + b.sizeofPtr ≤ q)
    (hfirst : freeBlock b fuel s a = .ok () s1) (hfuel : pages.length ≤ fuel') :
    freeBlock b fuel' s1 a = .raise .duplicateFreeMsg s1 := by
  obtain ⟨hany, hg⟩ := freeBlock_ok_checks b s s1 a fuel pages hv ha hsize hpages hfirst
  have hs1 := freeBlock_ok_state b fuel s s1 a ha hfirst
  subst hs1
  have hge : sizeofPadding ≤ a := by
    obtain ⟨p, _, j, _, he⟩ := (any_locationMatches_iff b s a pages hsize).mp hany
    omega
  have hpages1 : IsChain (pushBlock b s a).mem b.sizeofPtr (pushBlock b s a).memoryPages pages :=
    pushBlock_keeps_chain b s a _ pages hpages hpa
  have hloop := (validateBlockLocation_eq b (pushBlock b s a) a fuel' pages hsize hpages1
    hfuel).1
  have hany1 : pages.any (locationMatches b (pushBlock b s a) a) = true := hany
  rw [hany1] at hloop
  have key := freeBlock_after_location b (pushBlock b s a) a fuel' hv ha _ hloop
  have hg1 := pushBlock_guards b s a hptr hsize hge hg
  rw [key, pushBlock_availableBlocks, validateMultiFreeLoop_head]
  simp [hg1, Res.andThen, ha]

/-- C9 exercised on `demoTaken`: block 4126 of the fresh pool is in use; its
first `freeBlock` succeeds and the second throws. -/
theorem double_free_detected_witness :
    freeBlock demoBuild 3 demoTaken 4126 = .ok () (pushBlock demoBuild demoTaken 4126)
      ∧ freeBlock demoBuild 1 (pushBlock demoBuild demoTaken 4126) 4126
          = .raise .duplicateFreeMsg (pushBlock demoBuild demoTaken 4126) :=
  ⟨rfl, double_free_detected demoBuild demoTaken (pushBlock demoBuild demoTaken 4126) 4126 3 1
    [4096] (by decide) (by decide) (by decide) (by decide) (by decide) (by decide) rfl
    (by decide)⟩

theorem onGrid_iff (b : Build) (s : State) (a : Nat) (pages : List Nat)
    (hsize : s.blockSize + sizeofPadding < uintRange) :
    pages.any (locationMatches b s a) = true ↔ OnGrid b s pages a :=
  any_locationMatches_iff b s a pages hsize

/-- C13: with validations enabled, for a non-null address `a` in a state with
page list `pages` and available list `l` (fuel for one iteration per page and per
list node), `freeBlock` reports the first failing check in the order location,
corruption, double free: an address on no page's grid gives
`invalidFreedAddressMsg` whatever the padding and the list hold; an address on a
grid with a padding mismatch gives `memoryCorruptionMsg`, also when it is in the
list; `duplicateFreeMsg` is thrown if and only if the address is on a grid, both
paddings are intact and it is in the list; otherwise the call succeeds. -/
theorem checks_in_order (b : Build) (s : State) (a fuel : Nat) (pages l : List Nat)
    (hv : b.validations = true) (ha : a ≠ 0)
    (hsize : s.blockSize + sizeofPadding < uintRange)
    (hpages : IsChain s.mem b.sizeofPtr s.memoryPages pages)
    (hl : IsChain s.mem b.sizeofPtr s.availableBlocks l)
    (hfuel : pages.length ≤ fuel) (hfuel2 : l.length ≤ fuel) :
    (¬ OnGrid b s pages a → freeBlock b fuel s a = .raise .invalidFreedAddressMsg s)
    ∧ (OnGrid b s pages a → ¬ GuardsIntact s a →
        freeBlock b fuel s a = .raise .memoryCorruptionMsg s)
    ∧ (freeBlock b fuel s a = .raise .duplicateFreeMsg s ↔
        OnGrid b s pages a ∧ GuardsIntact s a ∧ a ∈ l)
    ∧ (OnGrid b s pages a → GuardsIntact s a → a ∉ l →
        freeBlock b fuel s a = .ok () (pushBlock b s a)) := by
  have hfull : fullBlockSize s ≠ 0 := by
    rw [fullBlockSize_eq s hsize]; simp [sizeofPadding]
  have h := (freeBlock_validated b s a pages l hv ha hfull hpages hl fuel).2 hfuel hfuel2
  rw [h, freeBlockChecked, ← onGrid_iff b s a pages hsize]
  refine ⟨?_, ?_, ?_, ?_⟩
  · intro h1; simp [h1]
  · intro h1 h2; simp [h1, h2]
  · cases h1 : pages.any (locationMatches b s a) with
    | false => simp
    | true =>
      by_cases h2 : GuardsIntact s a
      · by_cases h3 : a ∈ l <;> simp [h2, h3]
      · simp [h2]
  · intro h1 h2 h3; simp [h1, h2, h3]

/-- C13 exercised on the fresh pool `demoPool`: the off-grid address 4127 gives
`invalidFreedAddressMsg` although it lies in a free block. -/
theorem checks_in_order_witness :
    freeBlock demoBuild 3 demoPool 4127 = .raise .invalidFreedAddressMsg demoPool :=
  (checks_in_order demoBuild demoPool 4127 3 [4096] [4126, 4116, 4106] (by decide) (by decide)
    (by decide) (by decide) (by decide) (by decide) (by decide)).1 (by decide)

/-- C14: whenever `freeBlock` throws, the exception is one of
`invalidFreedAddressMsg`, `memoryCorruptionMsg`, `duplicateFreeMsg`, validations
are enabled, and the state at the throw is exactly the state before the call:
available list, `blocksRemaining`, page list, page count and memory are
unchanged, so every later `allocateBlock` or `freeBlock` behaves as if the failed
call had not happened. -/
theorem failed_free_keeps_state (b : Build) (fuel : Nat) (s t : State) (a : Nat)
    (e : MemoryPoolException) (h : freeBlock b fuel s a = .raise e t) :
    t = s
      ∧ b.validations = true
      ∧ (e = .invalidFreedAddressMsg ∨ e = .memoryCorruptionMsg ∨ e = .duplicateFreeMsg)
      ∧ (∀ sys, allocateBlock b sys t = allocateBlock b sys s)
      ∧ (∀ fuel' a', freeBlock b fuel' t a' = freeBlock b fuel' s a') := by
  obtain ⟨h1, _, h3, h4⟩ := freeBlock_raise_state b fuel s t a e h
  subst h1
  exact ⟨rfl, h3, h4, fun _ => rfl, fun _ _ => rfl⟩

/-- C14 exercised on the failed `freeBlock(4127)` on `demoPool`. -/
theorem failed_free_keeps_state_witness :
    demoPool = demoPool
      ∧ demoBuild.validations = true
      ∧ (MemoryPoolException.invalidFreedAddressMsg = .invalidFreedAddressMsg
        ∨ MemoryPoolException.invalidFreedAddressMsg = .memoryCorruptionMsg
        ∨ MemoryPoolException.invalidFreedAddressMsg = .duplicateFreeMsg)
      ∧ (∀ sys, allocateBlock demoBuild sys demoPool = allocateBlock demoBuild sys demoPool)
      ∧ (∀ fuel' a', freeBlock demoBuild fuel' demoPool a' = freeBlock demoBuild fuel' demoPool a') :=
  failed_free_keeps_state demoBuild 3 demoPool demoPool 4127 .invalidFreedAddressMsg rfl

/-- C15: for every state, with validations enabled or disabled and whatever
the fuel, `freeBlock(null)` returns normally and leaves the whole state unchanged;
in particular `getAvailableBlocksRemaining()` is the same before and after. -/
theorem freeBlock_null_noop (b : Build) (fuel : Nat) (s : State) :
    ∃ s', freeBlock b fuel s 0 = .ok () s' ∧ s' = s
      ∧ getAvailableBlocksRemaining s' = getAvailableBlocksRemaining s :=
  ⟨s, freeBlock_null b fuel s, rfl, rfl⟩

/-- C16: with validations disabled, for every state and every non-null
address `a` (representable previous head, counter below its maximum), whatever the
fuel and whatever memory holds, `freeBlock(a)` returns normally, `a` becomes the
head of the available list with its link holding the previous head,
`blocksRemaining` grows by exactly 1, only the link bytes at `a` are written, and
pages, page count and the `malloc` and `free` logs are unchanged. -/
theorem freeBlock_unvalidated_push (b : Build) (fuel : Nat) (s : State) (a : Nat)
    (hv : b.validations = false) (ha : a ≠ 0)
    (hrepr : s.availableBlocks < 256 ^ b.sizeofPtr)
    (hbr : s.blocksRemaining + 1 < uintRange) :
    ∃ s', freeBlock b fuel s a = .ok () s'
      ∧ s'.availableBlocks = a
      ∧ loadBytes s'.mem a b.sizeofPtr = s.availableBlocks
      ∧ s'.blocksRemaining = s.blocksRemaining + 1
      ∧ (∀ x, x < a ∨ a + b.sizeofPtr ≤ x → s'.mem x = s.mem x)
      ∧ s'.memoryPages = s.memoryPages ∧ s'.numberOfPages = s.numberOfPages
      ∧ s'.requested = s.requested ∧ s'.released = s.released := by
  refine ⟨_, freeBlock_unvalidated b fuel s a hv ha, rfl, pushBlock_link b s a hrepr, ?_, ?_,
    rfl, rfl, rfl, rfl⟩
  · rw [pushBlock_blocksRemaining]
    exact Nat.mod_eq_of_lt hbr
  · intro x hx
    rw [pushBlock_mem]
    exact storeBytes_outside _ _ _ _ _ hx

/-- C16 exercised on `plainPool` with the address 4105, which is no block and
lies inside a free one: the call still succeeds, without fuel. -/
theorem freeBlock_unvalidated_push_witness :
    ∃ s', freeBlock plainBuild 0 plainPool 4105 = .ok () s'
      ∧ s'.availableBlocks = 4105
      ∧ loadBytes s'.mem 4105 plainBuild.sizeofPtr = plainPool.availableBlocks
      ∧ s'.blocksRemaining = plainPool.blocksRemaining + 1
      ∧ (∀ x, x < 4105 ∨ 4105 + plainBuild.sizeofPtr ≤ x → s'.mem x = plainPool.mem x)
      ∧ s'.memoryPages = plainPool.memoryPages ∧ s'.numberOfPages = plainPool.numberOfPages
      ∧ s'.requested = plainPool.requested ∧ s'.released = plainPool.released :=
  freeBlock_unvalidated_push plainBuild 0 plainPool 4105 (by decide) (by decide) (by decide)
    (by decide)

/-- C12 (counterexample): on `demoTaken`, whose block 4126 is in use, the
caller writes two bytes into the padding in front of the block, storing the value
`0xBEEF`; `freeBlock(4126)` then succeeds instead of throwing
`memoryCorruptionMsg`. -/
theorem guard_rewrite_undetected :
    demoRewritten.mem = storeBytes demoTaken.mem (4126 - 2) 2 0xBEEF
      ∧ freeBlock demoBuild 3 demoRewritten 4126 = .ok () (pushBlock demoBuild demoRewritten 4126)
      ∧ freeBlock demoBuild 3 demoRewritten 4126 ≠ .raise .memoryCorruptionMsg demoRewritten :=
  ⟨rfl, rfl, by rw [show freeBlock demoBuild 3 demoRewritten 4126
      = .ok () (pushBlock demoBuild demoRewritten 4126) from rfl]; exact fun h => nomatch h⟩

/-- C12 (amended): with validations enabled, for every block `a` on the grid
of a page of the page list, after a write by the caller of `n` bytes at `x` that
touches no page link and leaves the padding in front of `a` or the padding behind
it different from the signature, `freeBlock(a)`, with fuel for one iteration per
page, throws `memoryCorruptionMsg`. -/
theorem corruption_detected (b : Build) (s0 : State) (a x n v fuel : Nat) (pages : List Nat)
    (hv : b.validations = true) (ha : a ≠ 0)
    (hsize : s0.blockSize + sizeofPadding < uintRange)
    (hpages : IsChain s0.mem b.sizeofPtr s0.memoryPages pages)
    (hlinks : ∀ q ∈ pages, q + b.sizeofPtr ≤ x ∨ x + n ≤ q)
    (hgrid : OnGrid b s0 pages a)
    (hbad : ¬ GuardsIntact { s0 with mem := storeBytes s0.mem x n v } a)
    (hfuel : pages.length ≤ fuel) :
    freeBlock b fuel { s0 with mem := storeBytes s0.mem x n v } a
      = .raise .memoryCorruptionMsg { s0 with mem := storeBytes s0.mem x n v } := by
  have hpages' : IsChain (storeBytes s0.mem x n v) b.sizeofPtr s0.memoryPages pages := by
    refine IsChain_congr s0.mem _ _ pages _ ?_ hpages
    intro q hq
    rw [loadBytes_storeBytes_disjoint _ _ _ _ _ _ (by have := hlinks q hq; omega)]
  have hloop := (validateBlockLocation_eq b { s0 with mem := storeBytes s0.mem x n v } a fuel
    pages hsize hpages' hfuel).1
  have hany : pages.any (locationMatches b { s0 with mem := storeBytes s0.mem x n v } a)
      = true := (onGrid_iff b _ a pages hsize).mpr hgrid
  rw [hany] at hloop
  rw [freeBlock_after_location b _ a fuel hv ha _ hloop]
  simp [hbad]

/-- C12 (amended) exercised on the write of the test "Buffer Underflow 1":
the 4-byte value `0x1234` stored one byte in front of block 4126. -/
theorem corruption_detected_witness :
    freeBlock demoBuild 1 demoUnderflow 4126 = .raise .memoryCorruptionMsg demoUnderflow :=
  corruption_detected demoBuild demoTaken 4126 4125 4 0x1234 1 [4096] (by decide) (by decide)
    (by decide) (by decide) (by decide) (by decide) (by decide) (by decide)

/-! ## clearAllMemory -/

theorem IsChain_tail_length (mem : Memory) (ptr : Nat) : ∀ (l : List Nat) (head x : Nat),
    IsChain mem ptr head l → x ∈ l → ∃ t, IsChain mem ptr x t ∧ t.length ≤ l.length ∧ t ≠ [] := by
  intro l
  induction l with
  | nil => intro head x _ hx; cases hx
  | cons y ys ih =>
    intro head x h hx
    rcases List.mem_cons.mp hx with e | hin
    · subst e
      exact ⟨x :: ys, ⟨rfl, h.2.1, h.2.2⟩, Nat.le_refl _, by simp⟩
    · obtain ⟨t, ht, hlen, hne⟩ := ih _ x h.2.2 hin
      exact ⟨t, ht, by simp only [List.length_cons]; omega, hne⟩

theorem IsChain_nodup (mem : Memory) (ptr : Nat) : ∀ (l : List Nat) (head : Nat),
    IsChain mem ptr head l → l.Nodup := by
  intro l
  induction l with
  | nil => intro _ _; exact List.nodup_nil
  | cons y ys ih =>
    intro head h
    refine List.nodup_cons.mpr ⟨?_, ih _ h.2.2⟩
    intro hin
    obtain ⟨t, ht, hlen, _⟩ := IsChain_tail_length mem ptr ys _ y h.2.2 hin
    have h1 : IsChain mem ptr y (y :: ys) := ⟨rfl, h.2.1, h.2.2⟩
    have := IsChain_unique mem ptr _ _ y ht h1
    rw [this] at hlen
    simp only [List.length_cons] at hlen
    omega

theorem clearAllMemoryLoop_spec (b : Build) (mem : Memory) :
    ∀ (pages : List Nat) (pList fuel : Nat) (released : List Nat),
      IsChain mem b.sizeofPtr pList pages → pages.length ≤ fuel →
      clearAllMemoryLoop b mem fuel pList released = some (pages.reverse ++ released) := by
  intro pages
  induction pages with
  | nil =>
    intro pList fuel released h _
    have hp : pList = 0 := h
    cases fuel <;> simp [clearAllMemoryLoop, hp]
  | cons x xs ih =>
    intro pList fuel released h hfuel
    obtain ⟨hx, hx0, htl⟩ := h
    subst hx
    cases fuel with
    | zero => simp at hfuel
    | succ fuel =>
      simp only [List.length_cons] at hfuel
      simp only [clearAllMemoryLoop, if_neg hx0]
      rw [ih _ fuel (pList :: released) htl (by omega)]
      simp

theorem clearAllMemory_of_no_pages (b : Build) (fuel : Nat) (t : State)
    (h : t.memoryPages = 0) :
    clearAllMemory b fuel t = .ok ()
      { t with availableBlocks := 0, numberOfPages := 0, blocksRemaining := 0 } := by
  have hl : clearAllMemoryLoop b t.mem fuel t.memoryPages t.released = some t.released := by
    rw [h]; cases fuel <;> simp [clearAllMemoryLoop]
  unfold clearAllMemory
  rw [hl]
  cases t
  simp_all

/-- C17: for every state with page list `pages` and fuel for one iteration per
page, `clearAllMemory` returns and passes every page of the list to `free`
exactly once (the pages are pairwise different and the log grows by exactly them),
leaving the page list and the available list null, `getNumberOfPages() = 0` and
`getAvailableBlocksRemaining() = 0`; calling it again, with any fuel, releases
nothing and leaves the state unchanged, as it does on every state with no pages
and zero counters. -/
theorem clearAllMemory_releases_all (b : Build) (fuel : Nat) (s : State) (pages : List Nat)
    (hpages : IsChain s.mem b.sizeofPtr s.memoryPages pages) (hfuel : pages.length ≤ fuel) :
    ∃ s', clearAllMemory b fuel s = .ok () s'
      ∧ s'.released = pages.reverse ++ s.released ∧ pages.Nodup
      ∧ s'.memoryPages = 0 ∧ s'.availableBlocks = 0
      ∧ IsChain s'.mem b.sizeofPtr s'.memoryPages []
      ∧ IsChain s'.mem b.sizeofPtr s'.availableBlocks []
      ∧ getNumberOfPages s' = 0 ∧ getAvailableBlocksRemaining s' = 0
      ∧ s'.mem = s.mem ∧ s'.requested = s.requested
      ∧ (∀ fuel', clearAllMemory b fuel' s' = .ok () s')
      ∧ (∀ fuel' t, t.memoryPages = 0 → t.availableBlocks = 0 → t.numberOfPages = 0 →
          t.blocksRemaining = 0 → clearAllMemory b fuel' t = .ok () t) := by
  have hloop := clearAllMemoryLoop_spec b s.mem pages s.memoryPages fuel s.released hpages hfuel
  have hres : clearAllMemory b fuel s = .ok ()
      { s with released := pages.reverse ++ s.released, memoryPages := 0, availableBlocks := 0,
               numberOfPages := 0, blocksRemaining := 0 } := by
    unfold clearAllMemory
    rw [hloop]
  refine ⟨_, hres, rfl, IsChain_nodup s.mem b.sizeofPtr pages _ hpages, rfl, rfl, rfl, rfl, rfl,
    rfl, rfl, rfl, ?_, ?_⟩
  · intro fuel'
    rw [clearAllMemory_of_no_pages b fuel' _ rfl]
  · intro fuel' t h1 h2 h3 h4
    rw [clearAllMemory_of_no_pages b fuel' t h1]
    cases t
    simp_all

/-- C17 exercised on the fresh pool `demoPool`, which has the single page 4096. -/
theorem clearAllMemory_releases_all_witness :
    ∃ s', clearAllMemory demoBuild 1 demoPool = .ok () s'
      ∧ s'.released = [4096] ∧ s'.memoryPages = 0 ∧ s'.availableBlocks = 0
      ∧ getNumberOfPages s' = 0 ∧ getAvailableBlocksRemaining s' = 0
      ∧ (∀ fuel', clearAllMemory demoBuild fuel' s' = .ok () s') := by
  obtain ⟨s', h1, h2, _, h4, h5, _, _, h8, h9, _, _, h12, _⟩ :=
    clearAllMemory_releases_all demoBuild 1 demoPool [4096] (by decide) (by decide)
  exact ⟨s', h1, h2, h4, h5, h8, h9, h12⟩

/-! ## The data-model invariants -/

theorem mem_pageBlocksDesc (b : Build) (bs page : Nat) : ∀ (m x : Nat),
    x ∈ pageBlocksDesc b bs page m ↔ ∃ j, j < m ∧ x = blockAddress b bs page j := by
  intro m
  induction m with
  | zero => intro x; simp [pageBlocksDesc]
  | succ m ih =>
    intro x
    simp only [pageBlocksDesc, List.mem_cons, ih]
    constructor
    · rintro (h | ⟨j, hj, h⟩)
      · exact ⟨m, by omega, h⟩
      · exact ⟨j, by omega, h⟩
    · rintro ⟨j, hj, h⟩
      by_cases hjm : j = m
      · left; rw [h, hjm]
      · right; exact ⟨j, by omega, h⟩

theorem length_pageBlocksDesc (b : Build) (bs page : Nat) : ∀ m : Nat,
    (pageBlocksDesc b bs page m).length = m := by
  intro m
  induction m with
  | zero => rfl
  | succ m ih => simp [pageBlocksDesc, ih]

theorem apart_symm (b : Build) (s : State) : Symmetric (Apart b s) := by
  intro p q h
  exact Or.symm h

theorem blocks_apart (b : Build) (s : State) (pages : List Nat) (x a : Nat)
    (hap : pages.Pairwise (Apart b s))
    (hx : IsBlock b s pages x) (ha : IsBlock b s pages a) (hne : x ≠ a) :
    x + s.blockSize ≤ a ∨ a + s.blockSize ≤ x := by
  obtain ⟨p, hp, i, hi, rfl⟩ := hx
  obtain ⟨q, hq, j, hj, rfl⟩ := ha
  by_cases hpq : p = q
  · subst hpq
    rcases Nat.lt_trichotomy i j with h | h | h
    · exact Or.inl (blockAddress_lt_of_lt b _ p i j h)
    · exact absurd (by rw [h]) hne
    · exact Or.inr (blockAddress_lt_of_lt b _ p j i h)
  · have h := hap.forall (apart_symm b s) hp hq hpq
    have h1 := blockAddress_end_le b s.blockSize p s.blocksPerPage i hi
    have h2 := blockAddress_end_le b s.blockSize q s.blocksPerPage j hj
    have h3 := blockAddress_ge b s.blockSize p i
    have h4 := blockAddress_ge b s.blockSize q j
    unfold Apart at h
    omega

theorem block_link_apart (b : Build) (s : State) (pages : List Nat) (a q : Nat)
    (hptr : b.sizeofPtr ≤ s.blockSize) (hap : pages.Pairwise (Apart b s))
    (ha : IsBlock b s pages a) (hq : q ∈ pages) :
    q + b.sizeofPtr ≤ a ∨ a + b.sizeofPtr ≤ q := by
  obtain ⟨p, hp, j, hj, rfl⟩ := ha
  have h1 := blockAddress_end_le b s.blockSize p s.blocksPerPage j hj
  have h3 := blockAddress_ge b s.blockSize p j
  by_cases hpq : p = q
  · subst hpq; left; omega
  · have h := hap.forall (apart_symm b s) hp hq hpq
    have hext : b.sizeofPtr ≤ pageExtent b s.blockSize s.blocksPerPage := by
      unfold pageExtent; omega
    unfold Apart at h
    omega

theorem block_fits (b : Build) (s : State) (pages : List Nat) (a : Nat)
    (hptr : 0 < b.sizeofPtr) (hle : b.sizeofPtr ≤ s.blockSize)
    (hfits : ∀ p ∈ pages, p + pageExtent b s.blockSize s.blocksPerPage ≤ 256 ^ b.sizeofPtr)
    (ha : IsBlock b s pages a) : a < 256 ^ b.sizeofPtr ∧ a ≠ 0 := by
  obtain ⟨p, hp, j, hj, rfl⟩ := ha
  have h1 := blockAddress_end_le b s.blockSize p s.blocksPerPage j hj
  have h3 := blockAddress_ge b s.blockSize p j
  have := hfits p hp
  constructor <;> omega

theorem WellFormed.avail_repr {b : Build} {s : State} {pages l : List Nat}
    (h : WellFormed b s pages l) : s.availableBlocks < 256 ^ b.sizeofPtr := by
  cases l with
  | nil =>
    have : s.availableBlocks = 0 := h.freeChain
    rw [this]; exact pow_pos (by decide) _
  | cons x xs =>
    have hx : s.availableBlocks = x := h.freeChain.1
    rw [hx]
    exact (block_fits b s pages x h.ptr_pos h.ptr_le h.fits
      (h.freeBlocks x (List.mem_cons_self x xs))).1

theorem WellFormed.pages_repr {b : Build} {s : State} {pages l : List Nat}
    (h : WellFormed b s pages l) : s.memoryPages < 256 ^ b.sizeofPtr := by
  cases pages with
  | nil =>
    have : s.memoryPages = 0 := h.pageChain
    rw [this]; exact pow_pos (by decide) _
  | cons x xs =>
    have hx : s.memoryPages = x := h.pageChain.1
    rw [hx]
    have := h.fits x (List.mem_cons_self x xs)
    have hext : 0 < pageExtent b s.blockSize s.blocksPerPage := by
      have := h.ptr_pos
      unfold pageExtent; omega
    omega

theorem uint_pred_mod (n : Nat) :
    ((n + 1) % uintRange + uintRange - 1) % uintRange = n % uintRange := by
  simp only [uintRange]
  omega

theorem uint_succ_mod (n : Nat) :
    (n % uintRange + 1) % uintRange = (n + 1) % uintRange := by
  simp only [uintRange]
  omega

theorem wellFormed_pop (b : Build) (s : State) (pages : List Nat) (x : Nat) (xs : List Nat)
    (h : WellFormed b s pages (x :: xs)) :
    WellFormed b
      { s with
        availableBlocks := loadBytes s.mem s.availableBlocks b.sizeofPtr
        blocksRemaining := (s.blocksRemaining + uintRange - 1) % uintRange }
      pages xs := by
  have hx : s.availableBlocks = x := h.freeChain.1
  have hcount : (s.blocksRemaining + uintRange - 1) % uintRange = xs.length % uintRange := by
    rw [h.count, List.length_cons]
    exact uint_pred_mod _
  exact
    { ptr_pos := h.ptr_pos
      ptr_le := h.ptr_le
      size_fits := h.size_fits
      cap_pos := h.cap_pos
      cap_fits := h.cap_fits
      pageChain := h.pageChain
      freeChain := by
        show IsChain s.mem b.sizeofPtr (loadBytes s.mem s.availableBlocks b.sizeofPtr) xs
        rw [hx]; exact h.freeChain.2.2
      fits := h.fits
      apart := h.apart
      freeBlocks := fun y hy => h.freeBlocks y (List.mem_cons_of_mem x hy)
      count := hcount
      pageCount := h.pageCount }


theorem isBlock_congr (b : Build) (s t : State) (pages : List Nat) (x : Nat)
    (h1 : t.blockSize = s.blockSize) (h2 : t.blocksPerPage = s.blocksPerPage) :
    IsBlock b t pages x ↔ IsBlock b s pages x := by
  unfold IsBlock
  rw [h1, h2]

theorem apart_congr (b : Build) (s t : State) (p q : Nat)
    (h1 : t.blockSize = s.blockSize) (h2 : t.blocksPerPage = s.blocksPerPage) :
    Apart b t p q ↔ Apart b s p q := by
  unfold Apart
  rw [h1, h2]

theorem initialState_wellFormed (b : Build) (mem : Memory) (k : Nat)
    (hk : 0 < k) (hkr : k < uintRange) (hptr : 0 < b.sizeofPtr)
    (hsize : max b.sizeofT b.sizeofPtr + sizeofPadding < uintRange) :
    WellFormed b (initialState b mem k) [] [] := by
  have hbs : (initialState b mem k).blockSize = max b.sizeofT b.sizeofPtr :=
    initialState_blockSize b mem k (by omega)
  exact
    { ptr_pos := hptr
      ptr_le := by rw [hbs]; exact Nat.le_max_right _ _
      size_fits := by rw [hbs]; exact hsize
      cap_pos := hk
      cap_fits := hkr
      pageChain := rfl
      freeChain := rfl
      fits := fun p hp => absurd hp (List.not_mem_nil p)
      apart := List.Pairwise.nil
      freeBlocks := fun x hx => absurd hx (List.not_mem_nil x)
      count := rfl
      pageCount := rfl }

theorem wellFormed_linkPage (b : Build) (s : State) (pages : List Nat) (P : Nat)
    (h : WellFormed b s pages []) (hP : P ≠ 0)
    (hfit : P + pageExtent b s.blockSize s.blocksPerPage ≤ 256 ^ b.sizeofPtr)
    (hap : ∀ q ∈ pages, Apart b s P q) :
    WellFormed b (linkPage b s P) (P :: pages)
      (pageBlocksDesc b s.blockSize P s.blocksPerPage) := by
  obtain ⟨hbpp, hbs, _, hnp, hbr, _, _⟩ := linkPage_fields b s P
  have hempty : s.availableBlocks = 0 := h.freeChain
  have hcap := h.cap_pos
  have hptr := h.ptr_pos
  obtain ⟨k, hk⟩ : ∃ k, s.blocksPerPage = k + 1 := ⟨s.blocksPerPage - 1, by omega⟩
  have hext : b.sizeofPtr ≤ pageExtent b s.blockSize s.blocksPerPage := by
    unfold pageExtent; omega
  exact
    { ptr_pos := h.ptr_pos
      ptr_le := by rw [hbs]; exact h.ptr_le
      size_fits := by rw [hbs]; exact h.size_fits
      cap_pos := by rw [hbpp]; exact h.cap_pos
      cap_fits := by rw [hbpp]; exact h.cap_fits
      pageChain := linkPage_pageChain b s P pages h.ptr_le hP h.pages_repr h.pageChain
        (fun q hq => by
          have := hap q hq
          unfold Apart at this
          omega)
      freeChain := by
        have := linkPage_freeList b s P k hk h.ptr_pos h.ptr_le hempty hfit
        rw [hk]; exact this
      fits := by
        intro p hp
        rw [hbs, hbpp]
        rcases List.mem_cons.mp hp with rfl | hp
        · exact hfit
        · exact h.fits p hp
      apart := by
        rw [List.pairwise_cons]
        exact ⟨fun q hq => (apart_congr b s _ P q hbs hbpp).mpr (hap q hq),
          h.apart.imp (fun {p q} hpq => (apart_congr b s _ p q hbs hbpp).mpr hpq)⟩
      freeBlocks := by
        intro x hx
        rw [mem_pageBlocksDesc] at hx
        obtain ⟨j, hj, rfl⟩ := hx
        exact (isBlock_congr b s _ _ _ hbs hbpp).mpr ⟨P, List.mem_cons_self _ _, j, hj, rfl⟩
      count := by
        rw [hbr, length_pageBlocksDesc, h.count]
        simp only [List.length_nil, Nat.zero_mod, Nat.zero_add]
      pageCount := by
        rw [hnp, h.pageCount, List.length_cons]
        exact uint_succ_mod _ }

theorem wellFormed_pushBlock (b : Build) (s : State) (pages l : List Nat) (a : Nat)
    (h : WellFormed b s pages l) (ha : IsBlock b s pages a) (hal : a ∉ l) :
    WellFormed b (pushBlock b s a) pages (a :: l) := by
  have hla : ∀ x ∈ l, x + b.sizeofPtr ≤ a ∨ a + b.sizeofPtr ≤ x := by
    intro x hx
    have hne : x ≠ a := fun e => hal (e ▸ hx)
    have := blocks_apart b s pages x a h.apart (h.freeBlocks x hx) ha hne
    have := h.ptr_le
    omega
  exact
    { ptr_pos := h.ptr_pos
      ptr_le := h.ptr_le
      size_fits := h.size_fits
      cap_pos := h.cap_pos
      cap_fits := h.cap_fits
      pageChain := pushBlock_keeps_chain b s a s.memoryPages pages h.pageChain
        (fun q hq => block_link_apart b s pages a q h.ptr_le h.apart ha hq)
      freeChain := pushBlock_freeList b s a l
        (block_fits b s pages a h.ptr_pos h.ptr_le h.fits ha).2 h.avail_repr h.freeChain hla
      fits := h.fits
      apart := h.apart
      freeBlocks := by
        intro x hx
        rcases List.mem_cons.mp hx with rfl | hx
        · exact ha
        · exact h.freeBlocks x hx
      count := by
        rw [pushBlock_blocksRemaining, h.count, List.length_cons]
        exact uint_succ_mod _
      pageCount := h.pageCount }

theorem clearAllMemory_ok_fields (b : Build) (fuel : Nat) (s t : State)
    (h : clearAllMemory b fuel s = .ok () t) :
    t.memoryPages = 0 ∧ t.availableBlocks = 0 ∧ t.numberOfPages = 0 ∧ t.blocksRemaining = 0
      ∧ t.blockSize = s.blockSize ∧ t.blocksPerPage = s.blocksPerPage ∧ t.mem = s.mem := by
  unfold clearAllMemory at h
  split at h
  · cases h
  · cases h
    exact ⟨rfl, rfl, rfl, rfl, rfl, rfl, rfl⟩

theorem wellFormed_clear (b : Build) (fuel : Nat) (s t : State) (pages l : List Nat)
    (h : WellFormed b s pages l) (hc : clearAllMemory b fuel s = .ok () t) :
    WellFormed b t [] [] := by
  obtain ⟨h1, h2, h3, h4, h5, h6, _⟩ := clearAllMemory_ok_fields b fuel s t hc
  exact
    { ptr_pos := h.ptr_pos
      ptr_le := by rw [h5]; exact h.ptr_le
      size_fits := by rw [h5]; exact h.size_fits
      cap_pos := by rw [h6]; exact h.cap_pos
      cap_fits := by rw [h6]; exact h.cap_fits
      pageChain := h1
      freeChain := h2
      fits := fun p hp => absurd hp (List.not_mem_nil p)
      apart := List.Pairwise.nil
      freeBlocks := fun x hx => absurd hx (List.not_mem_nil x)
      count := h4
      pageCount := h3 }

theorem wellFormed_write (b : Build) (s : State) (pages l : List Nat) (x n v : Nat)
    (h : WellFormed b s pages l) (hw : LinksUntouched b s x n) :
    WellFormed b { s with mem := storeBytes s.mem x n v } pages l :=
  { ptr_pos := h.ptr_pos
    ptr_le := h.ptr_le
    size_fits := h.size_fits
    cap_pos := h.cap_pos
    cap_fits := h.cap_fits
    pageChain := IsChain_congr s.mem (storeBytes s.mem x n v) b.sizeofPtr pages s.memoryPages
      (fun q hq => (loadBytes_storeBytes_disjoint s.mem x n v q b.sizeofPtr
        ((hw.1 pages h.pageChain q hq).symm)).symm) h.pageChain
    freeChain := IsChain_congr s.mem (storeBytes s.mem x n v) b.sizeofPtr l s.availableBlocks
      (fun y hy => (loadBytes_storeBytes_disjoint s.mem x n v y b.sizeofPtr
        ((hw.2 l h.freeChain y hy).symm)).symm) h.freeChain
    fits := h.fits
    apart := h.apart
    freeBlocks := h.freeBlocks
    count := h.count
    pageCount := h.pageCount }


theorem isChain_zero (mem : Memory) (ptr : Nat) (l : List Nat) (h : IsChain mem ptr 0 l) :
    l = [] := by
  cases l with
  | nil => rfl
  | cons x xs => exact absurd h.1.symm h.2.1

theorem isChain_of_ne_zero (mem : Memory) (ptr head : Nat) (l : List Nat)
    (h : IsChain mem ptr head l) (hne : head ≠ 0) : ∃ xs, l = head :: xs := by
  cases l with
  | nil => exact absurd h hne
  | cons x xs => exact ⟨xs, by rw [h.1]⟩

theorem tracked_pop (b : Build) (s : State) (used pages : List Nat) (x : Nat) (xs : List Nat)
    (h : Tracked b s used pages (x :: xs)) :
    Tracked b
      { s with
        availableBlocks := loadBytes s.mem s.availableBlocks b.sizeofPtr
        blocksRemaining := (s.blocksRemaining + uintRange - 1) % uintRange }
      (x :: used) pages xs := by
  have hnd : (x :: xs).Nodup := IsChain_nodup s.mem b.sizeofPtr _ _ h.wf.freeChain
  have hx : x ∉ xs := (List.nodup_cons.mp hnd).1
  exact
    { wf := wellFormed_pop b s pages x xs h.wf
      usedBlocks := by
        intro a ha
        rcases List.mem_cons.mp ha with rfl | ha
        · exact ⟨h.wf.freeBlocks a (List.mem_cons_self a xs), hx⟩
        · exact ⟨(h.usedBlocks a ha).1,
            fun hin => (h.usedBlocks a ha).2 (List.mem_cons_of_mem x hin)⟩
      covered := by
        intro y hy
        rcases h.covered y hy with hin | hin
        · rcases List.mem_cons.mp hin with rfl | hin
          · exact Or.inr (List.mem_cons_self _ _)
          · exact Or.inl hin
        · exact Or.inr (List.mem_cons_of_mem x hin)
      usedNodup := List.nodup_cons.mpr
        ⟨fun hin => (h.usedBlocks x hin).2 (List.mem_cons_self x xs), h.usedNodup⟩ }

theorem tracked_linkPage (b : Build) (s : State) (used pages : List Nat) (P : Nat)
    (h : Tracked b s used pages []) (hP : P ≠ 0)
    (hfit : P + pageExtent b s.blockSize s.blocksPerPage ≤ 256 ^ b.sizeofPtr)
    (hap : ∀ q ∈ pages, Apart b s P q) :
    Tracked b (linkPage b s P) used (P :: pages)
      (pageBlocksDesc b s.blockSize P s.blocksPerPage) := by
  obtain ⟨hbpp, hbs, _, _, _, _, _⟩ := linkPage_fields b s P
  have hbs0 : 0 < s.blockSize := Nat.lt_of_lt_of_le h.wf.ptr_pos h.wf.ptr_le
  exact
    { wf := wellFormed_linkPage b s pages P h.wf hP hfit hap
      usedBlocks := by
        intro a ha
        obtain ⟨⟨q, hq, i, hi, hai⟩, _⟩ := h.usedBlocks a ha
        refine ⟨(isBlock_congr b s _ _ _ hbs hbpp).mpr
          ⟨q, List.mem_cons_of_mem P hq, i, hi, hai⟩, ?_⟩
        intro hin
        rw [mem_pageBlocksDesc] at hin
        obtain ⟨j, hj, haj⟩ := hin
        exact blockAddress_ne_of_apart b s.blockSize s.blocksPerPage P q j i hbs0 hj hi
          (hap q hq) (haj.symm.trans hai)
      covered := by
        intro y hy
        obtain ⟨p, hp, j, hj, hyj⟩ := (isBlock_congr b s _ _ _ hbs hbpp).mp hy
        rcases List.mem_cons.mp hp with rfl | hp
        · exact Or.inl ((mem_pageBlocksDesc b s.blockSize p s.blocksPerPage y).mpr ⟨j, hj, hyj⟩)
        · rcases h.covered y ⟨p, hp, j, hj, hyj⟩ with hin | hin
          · exact absurd hin (List.not_mem_nil y)
          · exact Or.inr hin
      usedNodup := h.usedNodup }

theorem tracked_pushBlock (b : Build) (s : State) (used pages l : List Nat) (a : Nat)
    (h : Tracked b s used pages l) (ha : IsBlock b s pages a) (hal : a ∉ l) :
    Tracked b (pushBlock b s a) (used.filter (fun x => x ≠ a)) pages (a :: l) :=
  { wf := wellFormed_pushBlock b s pages l a h.wf ha hal
    usedBlocks := by
      intro u hu
      rw [List.mem_filter] at hu
      have hne : u ≠ a := by simpa using hu.2
      refine ⟨(h.usedBlocks u hu.1).1, ?_⟩
      intro hin
      rcases List.mem_cons.mp hin with e | hin
      · exact hne e
      · exact (h.usedBlocks u hu.1).2 hin
    covered := by
      intro y hy
      have hy1 : IsBlock b s pages y := hy
      by_cases hya : y = a
      · exact Or.inl (hya ▸ List.mem_cons_self _ _)
      · rcases h.covered y hy1 with hin | hin
        · exact Or.inl (List.mem_cons_of_mem a hin)
        · exact Or.inr (List.mem_filter.mpr ⟨hin, by simpa using hya⟩)
    usedNodup := h.usedNodup.filter _ }

theorem tracked_filter_null (b : Build) (s : State) (used pages l : List Nat)
    (h : Tracked b s used pages l) :
    Tracked b s (used.filter (fun x => x ≠ 0)) pages l :=
  { wf := h.wf
    usedBlocks := fun u hu => h.usedBlocks u (List.mem_filter.mp hu).1
    covered := by
      intro y hy
      rcases h.covered y hy with hin | hin
      · exact Or.inl hin
      · have hne := (block_fits b s pages y h.wf.ptr_pos h.wf.ptr_le h.wf.fits hy).2
        exact Or.inr (List.mem_filter.mpr ⟨hin, by simpa using hne⟩)
    usedNodup := h.usedNodup.filter _ }

theorem tracked_clear (b : Build) (fuel : Nat) (s t : State) (used pages l : List Nat)
    (h : Tracked b s used pages l) (hc : clearAllMemory b fuel s = .ok () t) :
    Tracked b t [] [] [] :=
  { wf := wellFormed_clear b fuel s t pages l h.wf hc
    usedBlocks := fun a ha => absurd ha (List.not_mem_nil a)
    covered := by
      rintro y ⟨p, hp, _⟩
      exact absurd hp (List.not_mem_nil p)
    usedNodup := List.nodup_nil }

theorem tracked_write (b : Build) (s : State) (used pages l : List Nat) (x n v : Nat)
    (h : Tracked b s used pages l) (hw : LinksUntouched b s x n) :
    Tracked b { s with mem := storeBytes s.mem x n v } used pages l :=
  { wf := wellFormed_write b s pages l x n v h.wf hw
    usedBlocks := h.usedBlocks
    covered := h.covered
    usedNodup := h.usedNodup }


theorem allocateBlock_null_page (b : Build) (sys : Nat → Nat) (s : State)
    (hempty : s.availableBlocks = 0) (hsys : sys s.requested.length = 0) :
    allocateBlock b sys s = .undefinedBehaviour := by
  unfold allocateBlock allocatePage
  simp [hempty, hsys, Res.andThen]

theorem tracked_alloc (b : Build) (sys : Nat → Nat) (s s' : State) (used pages l : List Nat)
    (a : Nat) (h : Tracked b s used pages l) (hm : MallocOk b sys s)
    (ha : allocateBlock b sys s = .ok a s') :
    ∃ pages' l', Tracked b s' (a :: used) pages' l'
      ∧ (s.availableBlocks ≠ 0 → pages' = pages ∧ l = a :: l')
      ∧ (s.availableBlocks = 0 → pages' = sys s.requested.length :: pages) := by
  by_cases hav : s.availableBlocks = 0
  · have hl : l = [] := isChain_zero s.mem b.sizeofPtr l (hav ▸ h.wf.freeChain)
    subst hl
    have hsys : sys s.requested.length ≠ 0 := by
      intro h0
      rw [allocateBlock_null_page b sys s hav h0] at ha
      cases ha
    obtain ⟨hfit, hap⟩ := hm hav
    have ht := tracked_linkPage b s used pages (sys s.requested.length) h hsys hfit
      (hap pages h.wf.pageChain)
    have hcap := h.wf.cap_pos
    obtain ⟨k, hk⟩ : ∃ k, s.blocksPerPage = k + 1 := ⟨s.blocksPerPage - 1, by omega⟩
    have havail := linkPage_avail b s (sys s.requested.length) k hk
    have hne : (linkPage b s (sys s.requested.length)).availableBlocks ≠ 0 := by
      rw [havail]
      have := blockAddress_ge b s.blockSize (sys s.requested.length) k
      have := h.wf.ptr_pos
      omega
    have hres := allocateBlock_of_empty b sys s hav hsys hne
    rw [hres] at ha
    rw [hk] at ht
    have hpop := tracked_pop b _ used _ _ _ ht
    injection ha with ha1 ha2
    subst ha2
    rw [havail] at ha1
    subst ha1
    exact ⟨_, _, hpop, fun hc => absurd hav hc, fun _ => rfl⟩
  · obtain ⟨xs, hxs⟩ := isChain_of_ne_zero s.mem b.sizeofPtr _ l h.wf.freeChain hav
    subst hxs
    have hres := allocateBlock_of_available b sys s hav
    rw [hres] at ha
    have hpop := tracked_pop b s used pages _ xs h
    injection ha with ha1 ha2
    subst ha2
    subst ha1
    exact ⟨_, _, hpop, fun _ => ⟨rfl, rfl⟩, fun hc => absurd hc hav⟩

theorem isBlock_of_onGrid (b : Build) (s : State) (pages : List Nat) (a : Nat)
    (hv : b.validations = true) : OnGrid b s pages a ↔ IsBlock b s pages a := by
  unfold OnGrid IsBlock
  constructor
  · rintro ⟨p, hp, j, hj, e⟩
    exact ⟨p, hp, j, hj, by rw [blockAddress_validated b _ p j hv]; exact e⟩
  · rintro ⟨p, hp, j, hj, e⟩
    exact ⟨p, hp, j, hj, by rw [← blockAddress_validated b _ p j hv]; exact e⟩

theorem freeBlockChecked_ok (b : Build) (s t : State) (a : Nat) (pages l : List Nat)
    (h : freeBlockChecked b s a pages l = .ok () t) :
    pages.any (locationMatches b s a) = true ∧ GuardsIntact s a ∧ a ∉ l
      ∧ t = pushBlock b s a := by
  unfold freeBlockChecked at h
  split at h
  · cases h
  · split at h
    · cases h
    · split at h
      · cases h
      · rename_i h1 h2 h3
        injection h with _ h4
        exact ⟨by simpa using h1, by simpa using h2, h3, h4.symm⟩

theorem tracked_free (b : Build) (fuel : Nat) (s s' : State) (used pages l : List Nat)
    (a : Nat) (h : Tracked b s used pages l)
    (hside : b.validations = false → a = 0 ∨ a ∈ used)
    (hf : freeBlock b fuel s a = .ok () s') :
    ∃ l', Tracked b s' (used.filter (fun x => x ≠ a)) pages l'
      ∧ (a = 0 → l' = l ∧ s' = s)
      ∧ (a ≠ 0 → l' = a :: l ∧ s' = pushBlock b s a ∧ IsBlock b s pages a ∧ a ∉ l) := by
  by_cases ha : a = 0
  · subst ha
    rw [freeBlock_null] at hf
    injection hf with _ hs
    subst hs
    exact ⟨l, tracked_filter_null b s used pages l h, fun _ => ⟨rfl, rfl⟩,
      fun hc => absurd rfl hc⟩
  · have hs := freeBlock_ok_state b fuel s s' a ha hf
    subst hs
    have hblock : IsBlock b s pages a ∧ a ∉ l := by
      cases hv : b.validations with
      | false =>
        rcases hside hv with h0 | hin
        · exact absurd h0 ha
        · exact h.usedBlocks a hin
      | true =>
        have hfull : fullBlockSize s ≠ 0 := by
          rw [fullBlockSize_eq s h.wf.size_fits]
          unfold sizeofPadding
          omega
        have hc := (freeBlock_validated b s a pages l hv ha hfull h.wf.pageChain
          h.wf.freeChain fuel).1
        rw [hf] at hc
        rcases hc with hc | hc
        · cases hc
        · obtain ⟨h1, _, h3, _⟩ := freeBlockChecked_ok b s _ a pages l hc.symm
          exact ⟨(isBlock_of_onGrid b s pages a hv).mp
            ((onGrid_iff b s a pages h.wf.size_fits).mp h1), h3⟩
    exact ⟨a :: l, tracked_pushBlock b s used pages l a h hblock.1 hblock.2,
      fun hc => absurd hc ha, fun _ => ⟨rfl, rfl, hblock.1, hblock.2⟩⟩

theorem construct_null_page (b : Build) (sys : Nat → Nat) (mem : Memory) (k : Nat)
    (hk : 0 < k) (hsys : sys 0 = 0) : construct b sys mem k = .undefinedBehaviour := by
  have hk0 : k ≠ 0 := by omega
  unfold construct allocatePage
  simp [initialState, hsys, hk0]

theorem tracked_init (b : Build) (sys : Nat → Nat) (mem : Memory) (k : Nat) (s : State)
    (hk : 0 < k) (hkr : k < uintRange) (hptr : 0 < b.sizeofPtr)
    (hsize : max b.sizeofT b.sizeofPtr + sizeofPadding < uintRange)
    (hfit : sys 0 + pageExtent b (max b.sizeofT b.sizeofPtr) k ≤ 256 ^ b.sizeofPtr)
    (h : construct b sys mem k = .ok () s) :
    Tracked b s [] [sys 0] (pageBlocksDesc b (max b.sizeofT b.sizeofPtr) (sys 0) k) := by
  have hsys : sys 0 ≠ 0 := by
    intro h0
    rw [construct_null_page b sys mem k hk h0] at h
    cases h
  rw [construct_eq b sys mem k hk hsys] at h
  injection h with _ hs
  subst hs
  have hbs : (initialState b mem k).blockSize = max b.sizeofT b.sizeofPtr :=
    initialState_blockSize b mem k (by omega)
  have h0 : Tracked b (initialState b mem k) [] [] [] :=
    { wf := initialState_wellFormed b mem k hk hkr hptr hsize
      usedBlocks := fun a ha => absurd ha (List.not_mem_nil a)
      covered := by
        rintro y ⟨p, hp, _⟩
        exact absurd hp (List.not_mem_nil p)
      usedNodup := List.nodup_nil }
  have ht := tracked_linkPage b (initialState b mem k) [] [] (sys 0) h0 hsys
    (by rw [hbs]; exact hfit) (fun q hq => absurd hq (List.not_mem_nil q))
  rw [hbs] at ht
  exact ht

theorem reachable_tracked (b : Build) (s : State) (used : List Nat)
    (h : Reachable b s used) : ∃ pages l, Tracked b s used pages l := by
  induction h with
  | init sys mem k s hk hkr hptr hsize hfit hc =>
    exact ⟨_, _, tracked_init b sys mem k s hk hkr hptr hsize hfit hc⟩
  | alloc sys s s' used a _ hm ha ih =>
    obtain ⟨pages, l, ht⟩ := ih
    obtain ⟨pages', l', ht', _⟩ := tracked_alloc b sys s s' used pages l a ht hm ha
    exact ⟨pages', l', ht'⟩
  | free fuel s s' used a _ hside hf ih =>
    obtain ⟨pages, l, ht⟩ := ih
    obtain ⟨l', ht', _⟩ := tracked_free b fuel s s' used pages l a ht hside hf
    exact ⟨pages, l', ht'⟩
  | freeFailed fuel s s' used a e _ hf ih =>
    obtain ⟨pages, l, ht⟩ := ih
    have hs := (freeBlock_raise_state b fuel s s' a e hf).1
    subst hs
    exact ⟨pages, l, ht⟩
  | clear fuel s s' used _ hc ih =>
    obtain ⟨pages, l, ht⟩ := ih
    exact ⟨[], [], tracked_clear b fuel s s' used pages l ht hc⟩
  | write s used x n v _ hw ih =>
    obtain ⟨pages, l, ht⟩ := ih
    exact ⟨pages, l, tracked_write b s used pages l x n v ht hw⟩


/-! ## Giving back a block in use -/

theorem guardsIntact_congr (s t : State) (a : Nat) (hmem : t.mem = s.mem)
    (hbs : t.blockSize = s.blockSize) : GuardsIntact t a ↔ GuardsIntact s a := by
  unfold GuardsIntact fullBlockSize
  rw [hmem, hbs]

theorem freeBlockChecked_pass (b : Build) (s : State) (a : Nat) (pages l : List Nat)
    (h1 : pages.any (locationMatches b s a) = true) (h2 : GuardsIntact s a) (h3 : a ∉ l) :
    freeBlockChecked b s a pages l = .ok () (pushBlock b s a) := by
  unfold freeBlockChecked
  rw [if_neg (by rw [h1]; decide), if_neg (fun hn => hn h2), if_neg h3]

theorem wellFormed_fullBlockSize (b : Build) (s : State) (pages l : List Nat)
    (h : WellFormed b s pages l) : fullBlockSize s ≠ 0 := by
  rw [fullBlockSize_eq s h.size_fits]
  unfold sizeofPadding
  omega

theorem free_block_ok (b : Build) (s : State) (pages l : List Nat) (a fuel : Nat)
    (hv : b.validations = true) (h : WellFormed b s pages l)
    (ha : IsBlock b s pages a) (hal : a ∉ l) (hg : GuardsIntact s a)
    (hf1 : pages.length ≤ fuel) (hf2 : l.length ≤ fuel) :
    freeBlock b fuel s a = .ok () (pushBlock b s a) := by
  have hne := (block_fits b s pages a h.ptr_pos h.ptr_le h.fits ha).2
  have hc := (freeBlock_validated b s a pages l hv hne (wellFormed_fullBlockSize b s pages l h)
    h.pageChain h.freeChain fuel).2 hf1 hf2
  rw [hc]
  exact freeBlockChecked_pass b s a pages l
    ((onGrid_iff b s a pages h.size_fits).mpr ((isBlock_of_onGrid b s pages a hv).mpr ha))
    hg hal

theorem isBlock_ge_padding (b : Build) (s : State) (pages : List Nat) (a : Nat)
    (hv : b.validations = true) (ha : IsBlock b s pages a) : sizeofPadding ≤ a := by
  obtain ⟨p, _, j, _, e⟩ := ha
  rw [blockAddress_validated b _ p j hv] at e
  omega

theorem cycle_step (b : Build) (sys : Nat → Nat) (s : State) (pages : List Nat) (x : Nat)
    (xs : List Nat) (fuel : Nat) (hv : b.validations = true)
    (h : WellFormed b s pages (x :: xs)) (hg : GuardsIntact s x)
    (hf1 : pages.length ≤ fuel) (hf2 : xs.length ≤ fuel) :
    ∃ s1 s2, allocateBlock b sys s = .ok x s1 ∧ freeBlock b fuel s1 x = .ok () s2
      ∧ WellFormed b s2 pages (x :: xs) ∧ GuardsIntact s2 x
      ∧ s2.blocksRemaining = s.blocksRemaining := by
  have hx : s.availableBlocks = x := h.freeChain.1
  have hx0 : x ≠ 0 := h.freeChain.2.1
  have hav : s.availableBlocks ≠ 0 := by rw [hx]; exact hx0
  have hres := allocateBlock_of_available b sys s hav
  rw [hx] at hres
  have hpop := wellFormed_pop b s pages x xs h
  rw [hx] at hpop
  have hblock : IsBlock b s pages x := h.freeBlocks x (List.mem_cons_self x xs)
  have hnd : (x :: xs).Nodup := IsChain_nodup s.mem b.sizeofPtr _ _ h.freeChain
  have hxs : x ∉ xs := (List.nodup_cons.mp hnd).1
  have hfree := free_block_ok b _ pages xs x fuel hv hpop hblock hxs
    ((guardsIntact_congr s _ x rfl rfl).mpr hg) hf1 hf2
  have hwf := wellFormed_pushBlock b _ pages xs x hpop hblock hxs
  have hg2 := pushBlock_guards b _ x hpop.ptr_le hpop.size_fits
    (isBlock_ge_padding b s pages x hv hblock) ((guardsIntact_congr s _ x rfl rfl).mpr hg)
  refine ⟨_, _, hres, hfree, hwf, hg2, ?_⟩
  rw [pushBlock_blocksRemaining]
  dsimp only
  rw [h.count, List.length_cons]
  simp only [uintRange]
  omega

theorem cycles_ok (b : Build) (sys : Nat → Nat) (pages : List Nat) (x : Nat)
    (xs : List Nat) (fuel : Nat) (hv : b.validations = true)
    (hf1 : pages.length ≤ fuel) (hf2 : xs.length ≤ fuel) :
    ∀ (n : Nat) (s : State), WellFormed b s pages (x :: xs) → GuardsIntact s x →
      ∃ t, allocFreeCycles b sys fuel n s = .ok (List.replicate n x) t
        ∧ WellFormed b t pages (x :: xs) ∧ GuardsIntact t x
        ∧ t.blocksRemaining = s.blocksRemaining := by
  intro n
  induction n with
  | zero => intro s h hg; exact ⟨s, rfl, h, hg, rfl⟩
  | succ n ih =>
    intro s h hg
    obtain ⟨s1, s2, h1, h2, h3, h4, h5⟩ := cycle_step b sys s pages x xs fuel hv h hg hf1 hf2
    obtain ⟨t, ht1, ht2, ht3, ht4⟩ := ih s2 h3 h4
    refine ⟨t, ?_, ht2, ht3, ht4.trans h5⟩
    unfold allocFreeCycles
    rw [h1]
    simp only [Res.andThen]
    rw [h2]
    simp only [Res.andThen]
    rw [ht1]
    rfl

theorem linkPage_guardsIntact (b : Build) (s : State) (page j : Nat)
    (hv : b.validations = true) (hbs : b.sizeofPtr ≤ s.blockSize)
    (hsize : s.blockSize + sizeofPadding < uintRange) (hj : j < s.blocksPerPage) :
    GuardsIntact (linkPage b s page) (blockAddress b s.blockSize page j) := by
  obtain ⟨_, hbs1, _⟩ := linkPage_fields b s page
  have h1 := linkPage_guards b s page hbs hv j (by omega)
  have h2 := linkPage_guards b s page hbs hv (j + 1) (by omega)
  unfold GuardsIntact
  rw [fullBlockSize_eq _ (by rw [hbs1]; exact hsize), hbs1, blockAddress_validated b _ page j hv]
  have e1 : page + b.sizeofPtr + sizeofPadding + j * (s.blockSize + sizeofPadding)
      - sizeofPadding = page + b.sizeofPtr + j * (s.blockSize + sizeofPadding) := by omega
  have e2 : page + b.sizeofPtr + j * (s.blockSize + sizeofPadding)
      + (s.blockSize + sizeofPadding)
      = page + b.sizeofPtr + (j + 1) * (s.blockSize + sizeofPadding) := by
    rw [Nat.succ_mul]; omega
  rw [e1, e2]
  exact ⟨h1, h2⟩

/-- C8: with validations, in every reachable state and for every block `a` in
use whose two padding slots hold the signature, `freeBlock(a)` returns
normally once the fuel covers the page list and the available list; afterwards
`a` is the head of the available list, followed by the list as it was, the page
list is as it was, and `blocksRemaining` is larger by exactly 1 (the counter
being below its maximum).  From then on any number of cycles of `allocateBlock`
followed by `freeBlock` of the block returned succeed, each taking and giving
back this same block `a`, whatever the capacity of the pool and whatever the
system allocator would answer; on a pool of capacity 1 these are the cycles of
its only block. -/
theorem free_in_use_block (b : Build) (s : State) (used : List Nat) (a : Nat)
    (hv : b.validations = true) (h : Reachable b s used) (ha : a ∈ used)
    (hg : GuardsIntact s a) :
    ∃ pages l, IsChain s.mem b.sizeofPtr s.memoryPages pages
      ∧ IsChain s.mem b.sizeofPtr s.availableBlocks l
      ∧ IsChain (pushBlock b s a).mem b.sizeofPtr (pushBlock b s a).availableBlocks (a :: l)
      ∧ IsChain (pushBlock b s a).mem b.sizeofPtr (pushBlock b s a).memoryPages pages
      ∧ (s.blocksRemaining + 1 < uintRange →
          getAvailableBlocksRemaining (pushBlock b s a) = getAvailableBlocksRemaining s + 1)
      ∧ ∀ fuel, pages.length ≤ fuel → l.length ≤ fuel →
          freeBlock b fuel s a = .ok () (pushBlock b s a)
          ∧ ∀ (sys : Nat → Nat) (n : Nat), ∃ t,
              allocFreeCycles b sys fuel n (pushBlock b s a) = .ok (List.replicate n a) t
              ∧ getAvailableBlocksRemaining t = getAvailableBlocksRemaining (pushBlock b s a)
              ∧ IsChain t.mem b.sizeofPtr t.availableBlocks (a :: l) := by
  obtain ⟨pages, l, ht⟩ := reachable_tracked b s used h
  obtain ⟨hblock, hal⟩ := ht.usedBlocks a ha
  have hwf := wellFormed_pushBlock b s pages l a ht.wf hblock hal
  have hg1 := pushBlock_guards b s a ht.wf.ptr_le ht.wf.size_fits
    (isBlock_ge_padding b s pages a hv hblock) hg
  refine ⟨pages, l, ht.wf.pageChain, ht.wf.freeChain, hwf.freeChain, hwf.pageChain, ?_, ?_⟩
  · intro hbr
    rw [getAvailableBlocksRemaining_eq, getAvailableBlocksRemaining_eq,
      pushBlock_blocksRemaining]
    exact Nat.mod_eq_of_lt hbr
  · intro fuel hf1 hf2
    refine ⟨free_block_ok b s pages l a fuel hv ht.wf hblock hal hg hf1 hf2, ?_⟩
    intro sys n
    obtain ⟨t, ht1, ht2, _, ht4⟩ := cycles_ok b sys pages a l fuel hv hf1 hf2 n
      (pushBlock b s a) hwf hg1
    refine ⟨t, ht1, ?_, ht2.freeChain⟩
    rw [getAvailableBlocksRemaining_eq, getAvailableBlocksRemaining_eq]
    exact ht4

theorem reachable_oneTaken : Reachable demoBuild oneTaken [4106] :=
  Reachable.alloc demoSys onePool oneTaken [] 4106
    (Reachable.init demoSys (fun _ => 0) 1 onePool (by decide) (by decide) (by decide)
      (by decide) (by decide) rfl)
    (fun h => absurd h (by decide)) rfl

/-- C8 exercised on the pool of capacity 1 whose only block 4106 is in use:
the block is given back, and then taken and given back four more times. -/
theorem free_in_use_block_witness :
    ∃ pages l, IsChain oneTaken.mem demoBuild.sizeofPtr oneTaken.memoryPages pages
      ∧ IsChain oneTaken.mem demoBuild.sizeofPtr oneTaken.availableBlocks l
      ∧ IsChain (pushBlock demoBuild oneTaken 4106).mem demoBuild.sizeofPtr
          (pushBlock demoBuild oneTaken 4106).availableBlocks (4106 :: l)
      ∧ IsChain (pushBlock demoBuild oneTaken 4106).mem demoBuild.sizeofPtr
          (pushBlock demoBuild oneTaken 4106).memoryPages pages
      ∧ (oneTaken.blocksRemaining + 1 < uintRange →
          getAvailableBlocksRemaining (pushBlock demoBuild oneTaken 4106)
            = getAvailableBlocksRemaining oneTaken + 1)
      ∧ ∀ fuel, pages.length ≤ fuel → l.length ≤ fuel →
          freeBlock demoBuild fuel oneTaken 4106 = .ok () (pushBlock demoBuild oneTaken 4106)
          ∧ ∀ (sys : Nat → Nat) (n : Nat), ∃ t,
              allocFreeCycles demoBuild sys fuel n (pushBlock demoBuild oneTaken 4106)
                = .ok (List.replicate n 4106) t
              ∧ getAvailableBlocksRemaining t
                  = getAvailableBlocksRemaining (pushBlock demoBuild oneTaken 4106)
              ∧ IsChain t.mem demoBuild.sizeofPtr t.availableBlocks (4106 :: l) :=
  free_in_use_block demoBuild oneTaken [4106] 4106 rfl reachable_oneTaken
    (List.mem_cons_self _ _) (by decide)


/-! ## Invariants of the reachable states -/

theorem reachable_demoTaken : Reachable demoBuild demoTaken [4126] :=
  Reachable.alloc demoSys demoPool demoTaken [] 4126
    (Reachable.init demoSys (fun _ => 0) 3 demoPool (by decide) (by decide) (by decide)
      (by decide) (by decide) rfl)
    (fun h => absurd h (by decide)) rfl

theorem reachable_plainTaken : Reachable plainBuild plainTaken [4112] :=
  Reachable.alloc demoSys plainPool plainTaken [] 4112
    (Reachable.init demoSys (fun _ => 0) 2 plainPool (by decide) (by decide) (by decide)
      (by decide) (by decide) rfl)
    (fun h => absurd h (by decide)) rfl

/-- C18: in every reachable state `blocksRemaining` is the number of nodes of
the available list, counted as the `unsigned` counter counts: modulo `2 ^ 32`.
So it equals the number of nodes whenever fewer than `2 ^ 32` blocks are free. -/
theorem blocksRemaining_counts_free_list (b : Build) (s : State) (used : List Nat)
    (h : Reachable b s used) :
    ∃ l, IsChain s.mem b.sizeofPtr s.availableBlocks l
      ∧ getAvailableBlocksRemaining s = l.length % uintRange
      ∧ (l.length < uintRange → getAvailableBlocksRemaining s = l.length) := by
  obtain ⟨pages, l, ht⟩ := reachable_tracked b s used h
  refine ⟨l, ht.wf.freeChain, ?_, ?_⟩
  · rw [getAvailableBlocksRemaining_eq]
    exact ht.wf.count
  · intro hlt
    rw [getAvailableBlocksRemaining_eq, ht.wf.count]
    exact Nat.mod_eq_of_lt hlt

/-- C18 exercised on the two-block pool without validations, one block handed
out: one node on the available list and a counter of 1. -/
theorem blocksRemaining_counts_free_list_witness :
    ∃ l, IsChain plainTaken.mem plainBuild.sizeofPtr plainTaken.availableBlocks l
      ∧ getAvailableBlocksRemaining plainTaken = l.length % uintRange
      ∧ (l.length < uintRange → getAvailableBlocksRemaining plainTaken = l.length) :=
  blocksRemaining_counts_free_list plainBuild plainTaken [4112] reachable_plainTaken

/-- C19: in every reachable state, with `pages` the page list, `l` the
available list and `used` the blocks handed out and not given back since:
`l` has no duplicate; every block of every page is either free, that is on `l`
exactly once and not in use, or in use, that is in `used` and not on `l`; the
nodes of `l` and the members of `used` are blocks of pages; no block is in
`used` twice; and whatever `allocateBlock` returns next is not in `used`. -/
theorem block_free_or_in_use (b : Build) (s : State) (used : List Nat)
    (h : Reachable b s used) :
    ∃ pages l, IsChain s.mem b.sizeofPtr s.memoryPages pages
      ∧ IsChain s.mem b.sizeofPtr s.availableBlocks l
      ∧ l.Nodup ∧ used.Nodup
      ∧ (∀ x, IsBlock b s pages x →
          (x ∈ l ∧ l.count x = 1 ∧ x ∉ used) ∨ (x ∈ used ∧ x ∉ l))
      ∧ (∀ x, x ∈ l ∨ x ∈ used → IsBlock b s pages x)
      ∧ ∀ (sys : Nat → Nat) (a : Nat) (s' : State), MallocOk b sys s →
          allocateBlock b sys s = .ok a s' → a ∉ used := by
  obtain ⟨pages, l, ht⟩ := reachable_tracked b s used h
  have hnd : l.Nodup := IsChain_nodup s.mem b.sizeofPtr l _ ht.wf.freeChain
  refine ⟨pages, l, ht.wf.pageChain, ht.wf.freeChain, hnd, ht.usedNodup, ?_, ?_, ?_⟩
  · intro x hx
    rcases ht.covered x hx with hin | hin
    · exact Or.inl ⟨hin, List.count_eq_one_of_mem hnd hin,
        fun hu => (ht.usedBlocks x hu).2 hin⟩
    · exact Or.inr ⟨hin, (ht.usedBlocks x hin).2⟩
  · rintro x (hx | hx)
    · exact ht.wf.freeBlocks x hx
    · exact (ht.usedBlocks x hx).1
  · intro sys a s' hm ha
    obtain ⟨pages', l', ht', _⟩ := tracked_alloc b sys s s' used pages l a ht hm ha
    exact (List.nodup_cons.mp ht'.usedNodup).1

/-- C19 exercised on the three-block pool with validations, block 4126 handed
out. -/
theorem block_free_or_in_use_witness :
    ∃ pages l, IsChain demoTaken.mem demoBuild.sizeofPtr demoTaken.memoryPages pages
      ∧ IsChain demoTaken.mem demoBuild.sizeofPtr demoTaken.availableBlocks l
      ∧ l.Nodup ∧ [4126].Nodup
      ∧ (∀ x, IsBlock demoBuild demoTaken pages x →
          (x ∈ l ∧ l.count x = 1 ∧ x ∉ [4126]) ∨ (x ∈ [4126] ∧ x ∉ l))
      ∧ (∀ x, x ∈ l ∨ x ∈ [4126] → IsBlock demoBuild demoTaken pages x)
      ∧ ∀ (sys : Nat → Nat) (a : Nat) (s' : State), MallocOk demoBuild sys demoTaken →
          allocateBlock demoBuild sys demoTaken = .ok a s' → a ∉ [4126] :=
  block_free_or_in_use demoBuild demoTaken [4126] reachable_demoTaken

/-- C20: in every reachable state every block in use and every node of the
available list is a block of a page of the page list: page address, plus the
size of the link, plus the padding in front of the first block (2 bytes with
validations, none without), plus `j` times the block size with its padding, for
some `j` below `blocksPerPage`.  With validations such an address passes the
location check of `freeBlock` once the fuel covers the page list.  Without
validations the reachable states are those in which `freeBlock` was only given
null or blocks in use. -/
theorem blocks_on_grid (b : Build) (s : State) (used : List Nat)
    (h : Reachable b s used) :
    ∃ pages l, IsChain s.mem b.sizeofPtr s.memoryPages pages
      ∧ IsChain s.mem b.sizeofPtr s.availableBlocks l
      ∧ (∀ a, a ∈ used ∨ a ∈ l → ∃ p ∈ pages, ∃ j, j < getBlocksPerPage s
          ∧ a = p + b.sizeofPtr + (if b.validations then sizeofPadding else 0)
              + j * (s.blockSize + (if b.validations then sizeofPadding else 0)))
      ∧ (b.validations = true → ∀ a, a ∈ used ∨ a ∈ l →
          ∀ fuel, pages.length ≤ fuel → validateBlockLocation b fuel s a = .ok () s) := by
  obtain ⟨pages, l, ht⟩ := reachable_tracked b s used h
  have hblock : ∀ a, a ∈ used ∨ a ∈ l → IsBlock b s pages a := by
    rintro a (ha | ha)
    · exact (ht.usedBlocks a ha).1
    · exact ht.wf.freeBlocks a ha
  refine ⟨pages, l, ht.wf.pageChain, ht.wf.freeChain, ?_, ?_⟩
  · intro a ha
    exact hblock a ha
  · intro hv a ha fuel hfuel
    have hany : pages.any (locationMatches b s a) = true :=
      (onGrid_iff b s a pages ht.wf.size_fits).mpr
        ((isBlock_of_onGrid b s pages a hv).mpr (hblock a ha))
    rw [(validateBlockLocation_eq b s a fuel pages ht.wf.size_fits ht.wf.pageChain hfuel).2,
      if_pos hany]

/-- C20 exercised on the three-block pool with validations, block 4126 handed
out. -/
theorem blocks_on_grid_witness :
    ∃ pages l, IsChain demoTaken.mem demoBuild.sizeofPtr demoTaken.memoryPages pages
      ∧ IsChain demoTaken.mem demoBuild.sizeofPtr demoTaken.availableBlocks l
      ∧ (∀ a, a ∈ [4126] ∨ a ∈ l → ∃ p ∈ pages, ∃ j, j < getBlocksPerPage demoTaken
          ∧ a = p + demoBuild.sizeofPtr + (if demoBuild.validations then sizeofPadding else 0)
              + j * (demoTaken.blockSize
                + (if demoBuild.validations then sizeofPadding else 0)))
      ∧ (demoBuild.validations = true → ∀ a, a ∈ [4126] ∨ a ∈ l →
          ∀ fuel, pages.length ≤ fuel →
            validateBlockLocation demoBuild fuel demoTaken a = .ok () demoTaken) :=
  blocks_on_grid demoBuild demoTaken [4126] reachable_demoTaken


/-! ## Addresses off the grid -/

theorem reachable_twoPages : Reachable demoBuild twoPages [8222, 4106, 4116, 4126] := by
  have h1 : Reachable demoBuild demoTakenTwo [4116, 4126] :=
    Reachable.alloc demoSys demoTaken demoTakenTwo [4126] 4116 reachable_demoTaken
      (fun h => absurd h (by decide)) rfl
  have h2 : Reachable demoBuild demoDrained [4106, 4116, 4126] :=
    Reachable.alloc demoSys demoTakenTwo demoDrained [4116, 4126] 4106 h1
      (fun h => absurd h (by decide)) rfl
  refine Reachable.alloc demoSys demoDrained twoPages [4106, 4116, 4126] 8222 h2 ?_ rfl
  intro _
  refine ⟨by decide, ?_⟩
  intro pages hpages q hq
  have hchain : IsChain demoDrained.mem demoBuild.sizeofPtr demoDrained.memoryPages [4096] := by
    decide
  have hp := IsChain_unique _ _ _ _ _ hpages hchain
  subst hp
  have hq1 : q = 4096 := by simpa using hq
  subst hq1
  exact Or.inr (by decide)


theorem freeBlock_off_grid (b : Build) (s : State) (a fuel : Nat) (pages : List Nat)
    (hv : b.validations = true) (ha : a ≠ 0)
    (hsize : s.blockSize + sizeofPadding < uintRange)
    (hpages : IsChain s.mem b.sizeofPtr s.memoryPages pages) (hfuel : pages.length ≤ fuel)
    (hoff : ¬ OnGrid b s pages a) :
    freeBlock b fuel s a = .raise .invalidFreedAddressMsg s := by
  have hany : pages.any (locationMatches b s a) = false := by
    cases h : pages.any (locationMatches b s a) with
    | false => rfl
    | true => exact absurd ((onGrid_iff b s a pages hsize).mp h) hoff
  have hloop := (validateBlockLocation_eq b s a fuel pages hsize hpages hfuel).1
  rw [hany] at hloop
  rw [freeBlock_after_location b s a fuel hv ha false hloop]
  simp

theorem same_page_offset (b : Build) (bs p i j : Nat) :
    ((bs + guardSize b : Nat) : Int)
      ∣ (blockAddress b bs p j : Int) - (blockAddress b bs p i : Int) := by
  refine ⟨(j : Int) - (i : Int), ?_⟩
  unfold blockAddress
  push_cast
  ring

/-- C11 (counterexample): two pages.  In the pool of capacity 3 with validations, after
four allocations the blocks 4126, 4116, 4106 of the first page and 8222 of the
second page are in use.  The offset 4096 is neither zero nor a multiple of
`blockSize + 2 = 10`, yet `freeBlock(4126 + 4096)` returns normally and puts
block 8222 on the available list; with no amount of fuel does it throw. -/
theorem offset_free_accepted :
    Reachable demoBuild twoPages [8222, 4106, 4116, 4126]
      ∧ (4096 : Int) ≠ 0
      ∧ ¬ (((twoPages.blockSize + sizeofPadding : Nat) : Int) ∣ 4096)
      ∧ freeBlock demoBuild 2 twoPages (4126 + 4096)
          = .ok () (pushBlock demoBuild twoPages 8222)
      ∧ ∀ (fuel : Nat) (e : MemoryPoolException) (t : State),
          freeBlock demoBuild fuel twoPages (4126 + 4096) ≠ .raise e t := by
  refine ⟨reachable_twoPages, by decide, by decide, rfl, ?_⟩
  intro fuel e t
  have hc := (freeBlock_validated demoBuild twoPages 8222 [8192, 4096] [8212, 8202] rfl
    (by decide) (by decide) (by decide) (by decide) fuel).1
  rw [freeBlockChecked_pass demoBuild twoPages 8222 [8192, 4096] [8212, 8202] (by decide)
    (by decide) (by decide)] at hc
  rcases hc with hc | hc
  · rw [hc]; intro h; cases h
  · rw [hc]; intro h; cases h

/-- C11 (amended): with validations, in every reachable state, for every
block `a` in use and every address `t = a + d` where the offset `d` is not a
multiple of `blockSize + 2` (so not zero either): if `t` is not null and is not
a block of a page other than the page of `a`, then `freeBlock(t)` throws
`invalidFreedAddressMsg` once the fuel covers the page list. -/
theorem offset_free_rejected (b : Build) (s : State) (used : List Nat) (a t : Nat) (d : Int)
    (hv : b.validations = true) (h : Reachable b s used) (ha : a ∈ used)
    (ht : (t : Int) = (a : Int) + d)
    (hd : ¬ (((s.blockSize + sizeofPadding : Nat) : Int) ∣ d)) (ht0 : t ≠ 0)
    (hother : ∀ pages, IsChain s.mem b.sizeofPtr s.memoryPages pages →
      ∀ p ∈ pages, ∀ q ∈ pages, q ≠ p →
        (∃ i, i < s.blocksPerPage ∧ a = blockAddress b s.blockSize p i) →
        ∀ j, j < s.blocksPerPage → t ≠ blockAddress b s.blockSize q j) :
    ∃ pages, IsChain s.mem b.sizeofPtr s.memoryPages pages
      ∧ ∀ fuel, pages.length ≤ fuel →
          freeBlock b fuel s t = .raise .invalidFreedAddressMsg s := by
  obtain ⟨pages, l, htr⟩ := reachable_tracked b s used h
  refine ⟨pages, htr.wf.pageChain, ?_⟩
  intro fuel hfuel
  apply freeBlock_off_grid b s t fuel pages hv ht0 htr.wf.size_fits htr.wf.pageChain hfuel
  intro hgrid
  obtain ⟨q, hq, j, hj, htj⟩ := (isBlock_of_onGrid b s pages t hv).mp hgrid
  obtain ⟨p, hp, i, hi, hai⟩ := (htr.usedBlocks a ha).1
  by_cases hqp : q = p
  · subst hqp
    apply hd
    have hdiv := same_page_offset b s.blockSize q i j
    have hgs : guardSize b = sizeofPadding := by unfold guardSize; rw [hv]; rfl
    rw [hgs, ← htj, ← hai] at hdiv
    have hdt : d = (t : Int) - (a : Int) := by omega
    rw [hdt]
    exact hdiv
  · exact hother pages htr.wf.pageChain p hp q hq hqp ⟨i, hi, hai⟩ j hj htj

/-- C11 (amended) exercised on the two-page pool: one byte past block 4126
is no block of the second page, and freeing it throws. -/
theorem offset_free_rejected_witness :
    ∃ pages, IsChain twoPages.mem demoBuild.sizeofPtr twoPages.memoryPages pages
      ∧ ∀ fuel, pages.length ≤ fuel →
          freeBlock demoBuild fuel twoPages 4127 = .raise .invalidFreedAddressMsg twoPages :=
  offset_free_rejected demoBuild twoPages [8222, 4106, 4116, 4126] 4126 4127 1 rfl
    reachable_twoPages (by decide) (by decide) (by decide) (by decide)
    (fun pages hpages p _ q hq _ _ j hj => by
      have hchain : IsChain twoPages.mem demoBuild.sizeofPtr twoPages.memoryPages
          [8192, 4096] := by decide
      have hp := IsChain_unique _ _ _ _ _ hpages hchain
      subst hp
      have hj3 : j < 3 := hj
      have hq2 : q = 8192 ∨ q = 4096 := by simpa using hq
      have e : ∀ q j, blockAddress demoBuild twoPages.blockSize q j = q + 10 + j * 10 :=
        fun _ _ => rfl
      rw [e]
      omega)


/-! ## The size requested for a page -/

theorem pageAllocationSize_eq_extent (b : Build) (s : State)
    (hfit : pageExtent b s.blockSize s.blocksPerPage < uintRange) :
    pageAllocationSize b s = pageExtent b s.blockSize s.blocksPerPage := by
  unfold pageAllocationSize pageExtent guardSize sizeofPadding at *
  have hmul : s.blocksPerPage * (s.blockSize + if b.validations = true then 2 else 0)
      = s.blockSize * s.blocksPerPage
        + (if b.validations = true then 2 else 0) * s.blocksPerPage := by ring
  cases hv : b.validations
  · simp only [hv, Bool.false_eq_true, if_false, Nat.add_zero, Nat.zero_mul] at hfit hmul ⊢
    rw [Nat.mul_comm s.blocksPerPage s.blockSize] at hfit ⊢
    generalize s.blockSize * s.blocksPerPage = m at hfit ⊢
    simp only [uintRange] at hfit ⊢
    omega
  · simp only [hv, if_true] at hfit hmul ⊢
    rw [hmul] at hfit ⊢
    generalize s.blockSize * s.blocksPerPage = m at hfit ⊢
    simp only [uintRange] at hfit ⊢
    omega

/-- C24 (failing input): `MemoryPoolManager<int>(536870912)` on a 64-bit build
without validations, the system allocator answering 4096.  The block size is 8,
and `8 * 2 ^ 29` wraps to 0 in `unsigned` arithmetic, so the constructor asks
`malloc` for 8 bytes, the size of the link alone.  The set-up loop still links
`2 ^ 29` blocks: the end of the last one is `2 ^ 32 + 8` bytes past the start of
the page, and the head of the available list lies `2 ^ 32` bytes past it. -/
theorem pageAllocationSize_wraps :
    ∃ s, construct plainBuild demoSys (fun _ => 0) (2 ^ 29) = .ok () s
      ∧ s.blockSize = 8 ∧ getBlocksPerPage s = 2 ^ 29
      ∧ s.memoryPages = 4096
      ∧ s.requested = [8]
      ∧ pageExtent plainBuild s.blockSize (getBlocksPerPage s) = 2 ^ 32 + 8
      ∧ s.availableBlocks = 4096 + 2 ^ 32 := by
  refine ⟨_, construct_eq plainBuild demoSys (fun _ => 0) (2 ^ 29) (by decide) (by decide),
    ?_, ?_, ?_, ?_, ?_, ?_⟩
  · exact (linkPage_fields _ _ _).2.1
  · exact (linkPage_fields _ _ _).1
  · exact (linkPage_fields _ _ _).2.2.1
  · rw [(linkPage_fields _ _ _).2.2.2.2.2.1]
    decide
  · rw [(linkPage_fields _ _ _).2.1]
    unfold getBlocksPerPage
    rw [(linkPage_fields _ _ _).1]
    decide
  · rw [linkPage_avail plainBuild _ _ (2 ^ 29 - 1) (by decide)]
    decide

/-! ## A failing `malloc` -/

/-- C22 (counterexample): the drained three-block pool with a system allocator
that answers null. `allocateBlock` does not throw: it stores the page link
through the null pointer. -/
theorem malloc_null_not_reported :
    demoDrained.availableBlocks = 0
      ∧ allocateBlock demoBuild (fun _ => 0) demoDrained = .undefinedBehaviour
      ∧ ∀ (e : MemoryPoolException) (t : State),
          allocateBlock demoBuild (fun _ => 0) demoDrained ≠ .raise e t := by
  have h := allocateBlock_null_page demoBuild (fun _ => 0) demoDrained rfl rfl
  refine ⟨rfl, h, ?_⟩
  intro e t
  rw [h]
  intro hc
  cases hc

/-- C22 (amended): when the available list is empty and `malloc` returns null,
`allocateBlock` throws nothing and returns nothing: `allocatePage` writes
`page->next` through the null pointer, which is undefined behaviour, and no
state is guaranteed afterwards. -/
theorem allocateBlock_malloc_null (b : Build) (sys : Nat → Nat) (s : State)
    (hempty : s.availableBlocks = 0) (hsys : sys s.requested.length = 0) :
    allocateBlock b sys s = .undefinedBehaviour
      ∧ (∀ (e : MemoryPoolException) (t : State), allocateBlock b sys s ≠ .raise e t)
      ∧ ∀ (a : Nat) (t : State), allocateBlock b sys s ≠ .ok a t := by
  have h := allocateBlock_null_page b sys s hempty hsys
  refine ⟨h, ?_, ?_⟩
  · intro e t
    rw [h]
    intro hc
    cases hc
  · intro a t
    rw [h]
    intro hc
    cases hc

/-- C22 (amended) exercised on the capacity-1 pool whose block is in use, with
a system allocator that answers null from its second call on. -/
theorem allocateBlock_malloc_null_witness :
    allocateBlock demoBuild (fun n => if n = 0 then 4096 else 0) oneTaken = .undefinedBehaviour
      ∧ (∀ (e : MemoryPoolException) (t : State),
          allocateBlock demoBuild (fun n => if n = 0 then 4096 else 0) oneTaken ≠ .raise e t)
      ∧ ∀ (a : Nat) (t : State),
          allocateBlock demoBuild (fun n => if n = 0 then 4096 else 0) oneTaken ≠ .ok a t :=
  allocateBlock_malloc_null demoBuild (fun n => if n = 0 then 4096 else 0) oneTaken rfl rfl


/-! ## The pop of `allocateBlock` -/

theorem reachable_demoDrained : Reachable demoBuild demoDrained [4106, 4116, 4126] :=
  Reachable.alloc demoSys demoTakenTwo demoDrained [4116, 4126] 4106
    (Reachable.alloc demoSys demoTaken demoTakenTwo [4126] 4116 reachable_demoTaken
      (fun h => absurd h (by decide)) rfl)
    (fun h => absurd h (by decide)) rfl

theorem mallocOk_demoDrained : MallocOk demoBuild demoSys demoDrained := by
  intro _
  refine ⟨by decide, ?_⟩
  intro pages hpages q hq
  have hchain : IsChain demoDrained.mem demoBuild.sizeofPtr demoDrained.memoryPages [4096] := by
    decide
  have hp := IsChain_unique _ _ _ _ _ hpages hchain
  subst hp
  have hq1 : q = 4096 := by simpa using hq
  subst hq1
  exact Or.inr (by decide)

theorem uint_pred_pos (x : Nat) (h1 : 1 ≤ x) (h2 : x < uintRange) :
    (x + uintRange - 1) % uintRange + 1 = x := by
  simp only [uintRange] at h2 ⊢
  omega

/-- C25: in every reachable state with fewer than `2 ^ 32` blocks on the
available list, whenever `malloc` does not answer null if it is called at all,
`allocateBlock` reaches its pop with a non-null head of the
available list and with `blocksRemaining` at least 1, returns that head, and
leaves a counter smaller by exactly 1: nothing is read through null and the
decrement does not wrap.  If the list was empty, the page just allocated has put
`blocksPerPage > 0` blocks on it. -/
theorem pop_never_null (b : Build) (sys : Nat → Nat) (s : State) (used l : List Nat)
    (h : Reachable b s used)
    (hl : IsChain s.mem b.sizeofPtr s.availableBlocks l) (hlt : l.length < uintRange)
    (hsys : s.availableBlocks = 0 → sys s.requested.length ≠ 0) :
    ∃ s1 s', (if s.availableBlocks = 0 then allocatePage b sys s else .ok () s) = .ok () s1
      ∧ s1.availableBlocks ≠ 0 ∧ 1 ≤ s1.blocksRemaining
      ∧ (s.availableBlocks = 0 → s1.blocksRemaining = getBlocksPerPage s)
      ∧ allocateBlock b sys s = .ok s1.availableBlocks s'
      ∧ getAvailableBlocksRemaining s' + 1 = s1.blocksRemaining := by
  obtain ⟨pages, l0, ht⟩ := reachable_tracked b s used h
  have hl0 := IsChain_unique _ _ _ _ _ ht.wf.freeChain hl
  subst hl0
  by_cases hav : s.availableBlocks = 0
  · have hnil : l0 = [] := isChain_zero s.mem b.sizeofPtr l0 (hav ▸ hl)
    subst hnil
    have hP := hsys hav
    have hcap := ht.wf.cap_pos
    have hcapr := ht.wf.cap_fits
    obtain ⟨k, hk⟩ : ∃ k, s.blocksPerPage = k + 1 := ⟨s.blocksPerPage - 1, by omega⟩
    have havail := linkPage_avail b s (sys s.requested.length) k hk
    have hne : (linkPage b s (sys s.requested.length)).availableBlocks ≠ 0 := by
      rw [havail]
      have := blockAddress_ge b s.blockSize (sys s.requested.length) k
      have := ht.wf.ptr_pos
      omega
    have hbr : (linkPage b s (sys s.requested.length)).blocksRemaining = s.blocksPerPage := by
      rw [linkPage_blocksRemaining, ht.wf.count]
      simp only [List.length_nil, Nat.zero_mod, Nat.zero_add]
      exact Nat.mod_eq_of_lt hcapr
    refine ⟨linkPage b s (sys s.requested.length), _, ?_, hne, ?_, fun _ => hbr,
      allocateBlock_of_empty b sys s hav hP hne, ?_⟩
    · rw [if_pos hav]
      unfold allocatePage
      simp only [hP, if_false]
    · rw [hbr]; exact hcap
    · rw [getAvailableBlocksRemaining_eq]
      dsimp only
      exact uint_pred_pos _ (by rw [hbr]; exact hcap) (by rw [hbr]; exact hcapr)
  · obtain ⟨xs, hxs⟩ := isChain_of_ne_zero s.mem b.sizeofPtr _ l0 hl hav
    subst hxs
    have hbr : s.blocksRemaining = xs.length + 1 := by
      rw [ht.wf.count]
      exact Nat.mod_eq_of_lt hlt
    refine ⟨s, _, ?_, hav, ?_, fun h0 => absurd h0 hav,
      allocateBlock_of_available b sys s hav, ?_⟩
    · rw [if_neg hav]
    · omega
    · rw [getAvailableBlocksRemaining_eq]
      dsimp only
      exact uint_pred_pos _ (by omega) (by rw [hbr]; exact hlt)

/-- C25 exercised on the drained three-block pool: the fourth `allocateBlock`
allocates the page at 8192 and pops its last block. -/
theorem pop_never_null_witness :
    ∃ s1 s', (if demoDrained.availableBlocks = 0 then allocatePage demoBuild demoSys demoDrained
          else .ok () demoDrained) = .ok () s1
      ∧ s1.availableBlocks ≠ 0 ∧ 1 ≤ s1.blocksRemaining
      ∧ (demoDrained.availableBlocks = 0 → s1.blocksRemaining = getBlocksPerPage demoDrained)
      ∧ allocateBlock demoBuild demoSys demoDrained = .ok s1.availableBlocks s'
      ∧ getAvailableBlocksRemaining s' + 1 = s1.blocksRemaining :=
  pop_never_null demoBuild demoSys demoDrained [4106, 4116, 4126] [] reachable_demoDrained
    (by decide) (by decide) (fun _ => by decide)


/-! ## The page list only grows -/

theorem run_reachable (b : Build) (s s' : State) (used used' : List Nat)
    (h : Reachable b s used) (hr : Run b s used s' used') : Reachable b s' used' := by
  induction hr with
  | refl => exact h
  | alloc sys s1 s2 used1 a _ hm ha ih => exact Reachable.alloc sys s1 s2 used1 a ih hm ha
  | free fuel s1 s2 used1 a _ hside hf ih => exact Reachable.free fuel s1 s2 used1 a ih hside hf
  | freeFailed fuel s1 s2 used1 a e _ hf ih =>
    exact Reachable.freeFailed fuel s1 s2 used1 a e ih hf
  | write s1 used1 x n v _ hw ih => exact Reachable.write s1 used1 x n v ih hw

theorem run_pages (b : Build) (s s' : State) (used used' : List Nat)
    (h : Reachable b s used) (hr : Run b s used s' used') :
    ∃ pages pages' l', IsChain s.mem b.sizeofPtr s.memoryPages pages
      ∧ Tracked b s' used' pages' l' ∧ pages <:+ pages' := by
  induction hr with
  | refl =>
    obtain ⟨pages, l, ht⟩ := reachable_tracked b s used h
    exact ⟨pages, pages, l, ht.wf.pageChain, ht, List.suffix_refl pages⟩
  | alloc sys s1 s2 used1 a _ hm ha ih =>
    obtain ⟨pages, pages1, l1, hp, ht1, hsuf⟩ := ih
    obtain ⟨pages2, l2, ht2, h1, h2⟩ := tracked_alloc b sys s1 s2 used1 pages1 l1 a ht1 hm ha
    refine ⟨pages, pages2, l2, hp, ht2, ?_⟩
    by_cases hav : s1.availableBlocks = 0
    · rw [h2 hav]
      exact hsuf.trans (List.suffix_cons _ _)
    · rw [(h1 hav).1]
      exact hsuf
  | free fuel s1 s2 used1 a _ hside hf ih =>
    obtain ⟨pages, pages1, l1, hp, ht1, hsuf⟩ := ih
    obtain ⟨l2, ht2, _⟩ := tracked_free b fuel s1 s2 used1 pages1 l1 a ht1 hside hf
    exact ⟨pages, pages1, l2, hp, ht2, hsuf⟩
  | freeFailed fuel s1 s2 used1 a e _ hf ih =>
    obtain ⟨pages, pages1, l1, hp, ht1, hsuf⟩ := ih
    have hs := (freeBlock_raise_state b fuel s1 s2 a e hf).1
    subst hs
    exact ⟨pages, pages1, l1, hp, ht1, hsuf⟩
  | write s1 used1 x n v _ hw ih =>
    obtain ⟨pages, pages1, l1, hp, ht1, hsuf⟩ := ih
    exact ⟨pages, pages1, l1, hp, tracked_write b s1 used1 pages1 l1 x n v ht1 hw, hsuf⟩

theorem freeBlock_page_fields (b : Build) (fuel : Nat) (s t : State) (a : Nat)
    (h : freeBlock b fuel s a = .ok () t ∨ ∃ e, freeBlock b fuel s a = .raise e t) :
    t.memoryPages = s.memoryPages ∧ getNumberOfPages t = getNumberOfPages s := by
  rcases h with h | ⟨e, h⟩
  · by_cases ha : a = 0
    · subst ha
      rw [freeBlock_null] at h
      injection h with _ hs
      subst hs
      exact ⟨rfl, rfl⟩
    · have hs := freeBlock_ok_state b fuel s t a ha h
      subst hs
      exact ⟨rfl, rfl⟩
  · have hs := (freeBlock_raise_state b fuel s t a e h).1
    subst hs
    exact ⟨rfl, rfl⟩

/-- C21 (counterexample): without validations, on the freshly constructed
two-block pool, `freeBlock` of the address of the page itself returns normally
and writes the head of the available list into the link of the page: the page
list, which was `[4096]`, now runs on through the two free blocks. -/
theorem free_of_page_breaks_chain :
    Reachable plainBuild plainPool []
      ∧ IsChain plainPool.mem plainBuild.sizeofPtr plainPool.memoryPages [4096]
      ∧ freeBlock plainBuild 0 plainPool 4096 = .ok () (pushBlock plainBuild plainPool 4096)
      ∧ IsChain (pushBlock plainBuild plainPool 4096).mem plainBuild.sizeofPtr
          (pushBlock plainBuild plainPool 4096).memoryPages [4096, 4112, 4104]
      ∧ ¬ IsChain (pushBlock plainBuild plainPool 4096).mem plainBuild.sizeofPtr
          (pushBlock plainBuild plainPool 4096).memoryPages [4096] :=
  ⟨Reachable.init demoSys (fun _ => 0) 2 plainPool (by decide) (by decide) (by decide)
      (by decide) (by decide) rfl,
    by decide, rfl, by decide, by decide⟩

/-- C21 (amended): `freeBlock`, successful or failing, with any argument in
any state, leaves the member `_memoryPages` and `getNumberOfPages()` as they
were.  From a reachable state, along any sequence of calls of `allocateBlock`
and `freeBlock` (with validations: any argument, failed calls included;
without: null or blocks in use), the page list at the start is a suffix of the
page list at the end, so every page stays in it, and the page count does not
decrease while it fits the `unsigned` counter; one more such `freeBlock` leaves
the page list exactly as it is.  `clearAllMemory`, given fuel for the page
list, hands every page to `free` and leaves no page. -/
theorem pages_only_grow (b : Build) (s s' : State) (used used' : List Nat)
    (h : Reachable b s used) (hr : Run b s used s' used') :
    (∀ (u t : State) (fuel a : Nat),
        (freeBlock b fuel u a = .ok () t ∨ ∃ e, freeBlock b fuel u a = .raise e t) →
        t.memoryPages = u.memoryPages ∧ getNumberOfPages t = getNumberOfPages u)
    ∧ ∃ pages pages', IsChain s.mem b.sizeofPtr s.memoryPages pages
      ∧ IsChain s'.mem b.sizeofPtr s'.memoryPages pages'
      ∧ pages <:+ pages'
      ∧ (pages'.length < uintRange → getNumberOfPages s ≤ getNumberOfPages s')
      ∧ (∀ (fuel a : Nat) (t : State), (b.validations = false → a = 0 ∨ a ∈ used') →
          (freeBlock b fuel s' a = .ok () t ∨ ∃ e, freeBlock b fuel s' a = .raise e t) →
          IsChain t.mem b.sizeofPtr t.memoryPages pages')
      ∧ ∀ fuel, pages'.length ≤ fuel → ∃ t, clearAllMemory b fuel s' = .ok () t
          ∧ t.released = pages'.reverse ++ s'.released
          ∧ IsChain t.mem b.sizeofPtr t.memoryPages [] ∧ getNumberOfPages t = 0 := by
  refine ⟨fun u t fuel a hf => freeBlock_page_fields b fuel u t a hf, ?_⟩
  obtain ⟨pages, pages', l', hp, ht', hsuf⟩ := run_pages b s s' used used' h hr
  obtain ⟨pages0, l0, ht0⟩ := reachable_tracked b s used h
  have hp0 := IsChain_unique _ _ _ _ _ ht0.wf.pageChain hp
  subst hp0
  refine ⟨pages0, pages', hp, ht'.wf.pageChain, hsuf, ?_, ?_, ?_⟩
  · intro hlt
    have hle : pages0.length ≤ pages'.length := hsuf.length_le
    rw [getNumberOfPages_eq, getNumberOfPages_eq, ht0.wf.pageCount, ht'.wf.pageCount,
      Nat.mod_eq_of_lt hlt, Nat.mod_eq_of_lt (Nat.lt_of_le_of_lt hle hlt)]
    exact hle
  · intro fuel a t hside hf
    rcases hf with hf | ⟨e, hf⟩
    · obtain ⟨l2, ht2, _⟩ := tracked_free b fuel s' t used' pages' l' a ht' hside hf
      exact ht2.wf.pageChain
    · have hs := (freeBlock_raise_state b fuel s' t a e hf).1
      subst hs
      exact ht'.wf.pageChain
  · intro fuel hfuel
    have hloop := clearAllMemoryLoop_spec b s'.mem pages' s'.memoryPages fuel s'.released
      ht'.wf.pageChain hfuel
    have hres : clearAllMemory b fuel s' = .ok ()
        { s' with released := pages'.reverse ++ s'.released, memoryPages := 0,
                  availableBlocks := 0, numberOfPages := 0, blocksRemaining := 0 } := by
      unfold clearAllMemory
      rw [hloop]
    exact ⟨_, hres, rfl, rfl, rfl⟩

/-- C21 (amended) exercised on the run of the fourth allocation of the
three-block pool, which adds the page at 8192 in front of the page at 4096. -/
theorem pages_only_grow_witness :
    (∀ (u t : State) (fuel a : Nat),
        (freeBlock demoBuild fuel u a = .ok () t
          ∨ ∃ e, freeBlock demoBuild fuel u a = .raise e t) →
        t.memoryPages = u.memoryPages ∧ getNumberOfPages t = getNumberOfPages u)
    ∧ ∃ pages pages',
        IsChain demoDrained.mem demoBuild.sizeofPtr demoDrained.memoryPages pages
      ∧ IsChain twoPages.mem demoBuild.sizeofPtr twoPages.memoryPages pages'
      ∧ pages <:+ pages'
      ∧ (pages'.length < uintRange → getNumberOfPages demoDrained ≤ getNumberOfPages twoPages)
      ∧ (∀ (fuel a : Nat) (t : State),
          (demoBuild.validations = false → a = 0 ∨ a ∈ [8222, 4106, 4116, 4126]) →
          (freeBlock demoBuild fuel twoPages a = .ok () t
            ∨ ∃ e, freeBlock demoBuild fuel twoPages a = .raise e t) →
          IsChain t.mem demoBuild.sizeofPtr t.memoryPages pages')
      ∧ ∀ fuel, pages'.length ≤ fuel → ∃ t, clearAllMemory demoBuild fuel twoPages = .ok () t
          ∧ t.released = pages'.reverse ++ twoPages.released
          ∧ IsChain t.mem demoBuild.sizeofPtr t.memoryPages [] ∧ getNumberOfPages t = 0 :=
  pages_only_grow demoBuild demoDrained twoPages [4106, 4116, 4126] [8222, 4106, 4116, 4126]
    reachable_demoDrained
    (Run.alloc demoSys demoDrained twoPages [4106, 4116, 4126] 8222 Run.refl
      mallocOk_demoDrained rfl)


/-! ## The padding slots -/

theorem allocatePage_ok_eq (b : Build) (sys : Nat → Nat) (u t : State)
    (h : allocatePage b sys u = .ok () t) : t = linkPage b u t.memoryPages := by
  by_cases hsys : sys u.requested.length = 0
  · have hub : allocatePage b sys u = .undefinedBehaviour := by
      simp [allocatePage, hsys]
    rw [hub] at h
    cases h
  · rw [allocatePage_eq b sys u hsys] at h
    injection h with _ hs
    subst hs
    rw [(linkPage_fields b u _).2.2.1]

theorem slot_in_page (b : Build) (bs k q j : Nat) (hv : b.validations = true) (hj : j ≤ k) :
    q + b.sizeofPtr ≤ guardSlot b bs q j
      ∧ guardSlot b bs q j + sizeofPadding ≤ q + pageExtent b bs k := by
  have hgs : guardSize b = sizeofPadding := by unfold guardSize; rw [hv]; rfl
  unfold guardSlot pageExtent
  rw [hgs]
  have := Nat.mul_le_mul_right (bs + sizeofPadding) hj
  omega

theorem slot_block_apart (b : Build) (s : State) (pages : List Nat) (a q j : Nat)
    (hv : b.validations = true) (hptr : b.sizeofPtr ≤ s.blockSize)
    (hap : pages.Pairwise (Apart b s)) (ha : IsBlock b s pages a) (hq : q ∈ pages)
    (hj : j ≤ s.blocksPerPage) :
    guardSlot b s.blockSize q j + sizeofPadding ≤ a
      ∨ a + b.sizeofPtr ≤ guardSlot b s.blockSize q j := by
  obtain ⟨p, hp, i, hi, rfl⟩ := ha
  have hslot := slot_in_page b s.blockSize s.blocksPerPage q j hv hj
  by_cases hpq : p = q
  · subst hpq
    rw [blockAddress_validated b _ p i hv]
    unfold guardSlot
    rcases Nat.lt_or_ge i j with hlt | hge
    · right
      have := Nat.mul_le_mul_right (s.blockSize + sizeofPadding) (Nat.succ_le_of_lt hlt)
      rw [Nat.succ_mul] at this
      omega
    · left
      have := Nat.mul_le_mul_right (s.blockSize + sizeofPadding) hge
      omega
  · have h := hap.forall (apart_symm b s) hp hq hpq
    have h1 := blockAddress_end_le b s.blockSize p s.blocksPerPage i hi
    have h3 := blockAddress_ge b s.blockSize p i
    unfold Apart at h
    omega

/-- C23: with validations, right after `allocatePage` has set up a page of
`k = blocksPerPage` blocks, each of the `k + 1` padding slots
`page + sizeof(Link) + j * (blockSize + 2)`, `j = 0..k`, holds `0xBEEF`, so every
block of the page has the signature in the two bytes in front of it and in the
two bytes behind its `blockSize` bytes.  In a reachable state the block size is
at least the size of a pointer; no byte of a padding slot of a page of the
page list is changed by `freeBlock` (any argument, successful or failing) or by
`allocateBlock`; and a successful `freeBlock` of a non-null address changes
only the first pointer-size bytes of that address, which is a block. -/
theorem guards_set_and_kept (b : Build) (s : State) (used pages : List Nat)
    (hv : b.validations = true) (h : Reachable b s used)
    (hp : IsChain s.mem b.sizeofPtr s.memoryPages pages) :
    (∀ (sys : Nat → Nat) (u t : State), b.sizeofPtr ≤ u.blockSize →
        allocatePage b sys u = .ok () t →
        (∀ j, j ≤ u.blocksPerPage →
          loadBytes t.mem (guardSlot b u.blockSize t.memoryPages j) sizeofPadding
            = paddingSignature)
        ∧ ∀ i, i < u.blocksPerPage →
            loadBytes t.mem (blockAddress b u.blockSize t.memoryPages i - sizeofPadding)
              sizeofPadding = paddingSignature
            ∧ loadBytes t.mem (blockAddress b u.blockSize t.memoryPages i + u.blockSize)
              sizeofPadding = paddingSignature)
    ∧ b.sizeofPtr ≤ s.blockSize
    ∧ (∀ q ∈ pages, ∀ j, j ≤ s.blocksPerPage → ∀ x, guardSlot b s.blockSize q j ≤ x →
        x < guardSlot b s.blockSize q j + sizeofPadding →
        (∀ (fuel a : Nat) (t : State),
          (freeBlock b fuel s a = .ok () t ∨ ∃ e, freeBlock b fuel s a = .raise e t) →
          t.mem x = s.mem x)
        ∧ ∀ (sys : Nat → Nat) (a : Nat) (t : State), MallocOk b sys s →
            allocateBlock b sys s = .ok a t → t.mem x = s.mem x)
    ∧ ∀ (fuel a : Nat) (t : State), a ≠ 0 → freeBlock b fuel s a = .ok () t →
        IsBlock b s pages a
        ∧ ∀ y, y < a ∨ a + b.sizeofPtr ≤ y → t.mem y = s.mem y := by
  obtain ⟨pages0, l, ht⟩ := reachable_tracked b s used h
  have hp0 := IsChain_unique _ _ _ _ _ ht.wf.pageChain hp
  subst hp0
  have hside : b.validations = false → ∀ a, a = 0 ∨ a ∈ used := by
    intro hf; rw [hv] at hf; cases hf
  refine ⟨?_, ht.wf.ptr_le, ?_, ?_⟩
  · intro sys u t hbs hal
    have ht1 := allocatePage_ok_eq b sys u t hal
    have hg : ∀ j, j ≤ u.blocksPerPage →
        loadBytes t.mem (guardSlot b u.blockSize t.memoryPages j) sizeofPadding
          = paddingSignature := by
      intro j hj
      rw [ht1, (linkPage_fields b u _).2.2.1]
      exact linkPage_guards b u _ hbs hv j hj
    refine ⟨hg, ?_⟩
    intro i hi
    have h1 := hg i (by omega)
    have h2 := hg (i + 1) (by omega)
    unfold guardSlot at h1 h2
    rw [blockAddress_validated b _ _ i hv]
    have e1 : t.memoryPages + b.sizeofPtr + sizeofPadding + i * (u.blockSize + sizeofPadding)
        - sizeofPadding = t.memoryPages + b.sizeofPtr + i * (u.blockSize + sizeofPadding) := by
      omega
    have e2 : t.memoryPages + b.sizeofPtr + sizeofPadding + i * (u.blockSize + sizeofPadding)
        + u.blockSize
        = t.memoryPages + b.sizeofPtr + (i + 1) * (u.blockSize + sizeofPadding) := by
      rw [Nat.succ_mul]; omega
    rw [e1, e2]
    exact ⟨h1, h2⟩
  · intro q hq j hj x hx1 hx2
    have hslot := slot_in_page b s.blockSize s.blocksPerPage q j hv hj
    constructor
    · intro fuel a t hf
      rcases hf with hf | ⟨e, hf⟩
      · obtain ⟨l2, _, h0, h1⟩ := tracked_free b fuel s t used pages0 l a ht
          (fun hf => hside hf a) hf
        by_cases ha : a = 0
        · rw [(h0 ha).2]
        · obtain ⟨_, hs, hblock, _⟩ := h1 ha
          rw [hs, pushBlock_mem]
          apply storeBytes_outside
          have := slot_block_apart b s pages0 a q j hv ht.wf.ptr_le ht.wf.apart hblock hq hj
          omega
      · rw [(freeBlock_raise_state b fuel s t a e hf).1]
    · intro sys a t hm hal
      by_cases hav : s.availableBlocks = 0
      · have hsys : sys s.requested.length ≠ 0 := by
          intro h0
          rw [allocateBlock_null_page b sys s hav h0] at hal
          cases hal
        have hne : (linkPage b s (sys s.requested.length)).availableBlocks ≠ 0 := by
          have hcap := ht.wf.cap_pos
          rw [linkPage_avail b s _ (s.blocksPerPage - 1) (by omega)]
          have := blockAddress_ge b s.blockSize (sys s.requested.length)
            (s.blocksPerPage - 1)
          have := ht.wf.ptr_pos
          omega
        rw [allocateBlock_of_empty b sys s hav hsys hne] at hal
        injection hal with _ hs
        subst hs
        show (linkPage b s (sys s.requested.length)).mem x = s.mem x
        apply linkPage_mem_outside b s _ ht.wf.ptr_le
        have hapart := (hm hav).2 pages0 ht.wf.pageChain q hq
        unfold Apart at hapart
        omega
      · rw [allocateBlock_of_available b sys s hav] at hal
        injection hal with _ hs
        subst hs
        rfl
  · intro fuel a t ha hf
    obtain ⟨l2, _, _, h1⟩ := tracked_free b fuel s t used pages0 l a ht
      (fun hf => hside hf a) hf
    obtain ⟨_, hs, hblock, _⟩ := h1 ha
    refine ⟨hblock, ?_⟩
    intro y hy
    rw [hs, pushBlock_mem]
    exact storeBytes_outside _ _ _ _ _ hy

/-- C23 exercised on the two-page pool with validations, four blocks in use. -/
theorem guards_set_and_kept_witness :
    (∀ (sys : Nat → Nat) (u t : State), demoBuild.sizeofPtr ≤ u.blockSize →
        allocatePage demoBuild sys u = .ok () t →
        (∀ j, j ≤ u.blocksPerPage →
          loadBytes t.mem (guardSlot demoBuild u.blockSize t.memoryPages j) sizeofPadding
            = paddingSignature)
        ∧ ∀ i, i < u.blocksPerPage →
            loadBytes t.mem (blockAddress demoBuild u.blockSize t.memoryPages i - sizeofPadding)
              sizeofPadding = paddingSignature
            ∧ loadBytes t.mem (blockAddress demoBuild u.blockSize t.memoryPages i + u.blockSize)
              sizeofPadding = paddingSignature)
    ∧ demoBuild.sizeofPtr ≤ twoPages.blockSize
    ∧ (∀ q ∈ [8192, 4096], ∀ j, j ≤ twoPages.blocksPerPage → ∀ x,
        guardSlot demoBuild twoPages.blockSize q j ≤ x →
        x < guardSlot demoBuild twoPages.blockSize q j + sizeofPadding →
        (∀ (fuel a : Nat) (t : State),
          (freeBlock demoBuild fuel twoPages a = .ok () t
            ∨ ∃ e, freeBlock demoBuild fuel twoPages a = .raise e t) →
          t.mem x = twoPages.mem x)
        ∧ ∀ (sys : Nat → Nat) (a : Nat) (t : State), MallocOk demoBuild sys twoPages →
            allocateBlock demoBuild sys twoPages = .ok a t → t.mem x = twoPages.mem x)
    ∧ ∀ (fuel a : Nat) (t : State), a ≠ 0 → freeBlock demoBuild fuel twoPages a = .ok () t →
        IsBlock demoBuild twoPages [8192, 4096] a
        ∧ ∀ y, y < a ∨ a + demoBuild.sizeofPtr ≤ y → t.mem y = twoPages.mem y :=
  guards_set_and_kept demoBuild twoPages [8222, 4106, 4116, 4126] [8192, 4096] rfl
    reachable_twoPages (by decide)

end MemoryPool
